import Mathlib

/-!
# tui_calc_go: the expression pipeline of `main.go`

Shallow embedding of `evaluateExpression`, `calculate`, `shuntingYard`,
`precedence`, `evalRPN`, `pow` and `sqrt`, together with the parts of the Go
runtime they use (byte strings, UTF-8 decoding by `range`, `unicode.IsDigit`,
`strings.ContainsRune`, `strings.ReplaceAll`, binary64 arithmetic,
`strconv.ParseFloat`, `fmt.Sprintf("%.2f")`).

Conventions.
* A Go `string` is a list of bytes; `goStr "…"` is the byte sequence of a Go
  string literal (its UTF-8 encoding).
* A Go `error` is represented by its message (`err.Error()`), and a Go
  result pair `(v, err)` by a Lean pair whose second component is
  `none` for `nil`.
* Go slices used as stacks (`operators`, `stack`) are lists whose HEAD is the
  top of the stack (`s[len(s)-1]`); `output` is a list in emission order.
* What differs from one Go implementation to another is a parameter (`Arch`):
  the width of `int`, the conversion of a float64 that does not fit, and the
  range table of `unicode.IsDigit` above Latin-1, which follows the Unicode
  version of the standard library. `amd64` is one implementation, used for
  examples; the theorems hold for every `Arch`.
* The loops of `shuntingYard` and `evalRPN` are given twice: by recursion on
  the data, and with the indices, bound checks and loop conditions of the
  source (`scanRun`, `evalRPNRun`, ...), where an access out of range is a
  panic; the second form is proved to return what the first one returns.
-/

namespace TuiCalc

/-! ## Go strings -/

/-- A Go `byte`. -/
abbrev Byte := Fin 256

/-- A Go `string`: a sequence of bytes, not necessarily valid UTF-8. -/
abbrev GoString := List Byte

/-- A Go `error` value, identified with the message returned by `Error()`. -/
abbrev GoError := GoString

/-- Go `string(r)` for a rune `r` (`utf8.AppendRune`): the UTF-8 encoding of the
code point, U+FFFD for surrogates and values above U+10FFFF. -/
def encodeRune (r : Nat) : GoString :=
  if r < 0x80 then [Fin.ofNat r]
  else if r < 0x800 then [Fin.ofNat (0xC0 + r / 0x40), Fin.ofNat (0x80 + r % 0x40)]
  else if (0xD800 ≤ r ∧ r ≤ 0xDFFF) ∨ 0x10FFFF < r then [0xEF, 0xBF, 0xBD]
  else if r < 0x10000 then
    [Fin.ofNat (0xE0 + r / 0x1000), Fin.ofNat (0x80 + r / 0x40 % 0x40), Fin.ofNat (0x80 + r % 0x40)]
  else
    [Fin.ofNat (0xF0 + r / 0x40000), Fin.ofNat (0x80 + r / 0x1000 % 0x40),
     Fin.ofNat (0x80 + r / 0x40 % 0x40), Fin.ofNat (0x80 + r % 0x40)]

/-- The bytes of the Go string literal written `s` in the source. -/
def goStr (s : String) : GoString :=
  s.data.foldr (fun c acc => encodeRune c.toNat ++ acc) []

/-- Go `rune(b)` for a byte `b`: the code point with the byte's numeric value. -/
def runeOfByte (b : Byte) : Nat := b.val

/-- The range table `unicode.Digit` (general category Nd) above Latin-1 as of
Unicode 15.0. The table grows with the Unicode version of the toolchain: this one
is the table of the example implementation `amd64` only; the definitions and the
theorems take the table from `Arch`. -/
def unicodeDigitTable : List (Nat × Nat) :=
  [(0x660, 0x669), (0x6F0, 0x6F9), (0x7C0, 0x7C9), (0x966, 0x96F), (0x9E6, 0x9EF),
   (0xA66, 0xA6F), (0xAE6, 0xAEF), (0xB66, 0xB6F), (0xBE6, 0xBEF), (0xC66, 0xC6F),
   (0xCE6, 0xCEF), (0xD66, 0xD6F), (0xDE6, 0xDEF), (0xE50, 0xE59), (0xED0, 0xED9),
   (0xF20, 0xF29), (0x1040, 0x1049), (0x1090, 0x1099), (0x17E0, 0x17E9), (0x1810, 0x1819),
   (0x1946, 0x194F), (0x19D0, 0x19D9), (0x1A80, 0x1A89), (0x1A90, 0x1A99), (0x1B50, 0x1B59),
   (0x1BB0, 0x1BB9), (0x1C40, 0x1C49), (0x1C50, 0x1C59), (0xA620, 0xA629), (0xA8D0, 0xA8D9),
   (0xA900, 0xA909), (0xA9D0, 0xA9D9), (0xA9F0, 0xA9F9), (0xAA50, 0xAA59), (0xABF0, 0xABF9),
   (0xFF10, 0xFF19), (0x104A0, 0x104A9), (0x10D30, 0x10D39), (0x11066, 0x1106F),
   (0x110F0, 0x110F9), (0x11136, 0x1113F), (0x111D0, 0x111D9), (0x112F0, 0x112F9),
   (0x11450, 0x11459), (0x114D0, 0x114D9), (0x11650, 0x11659), (0x116C0, 0x116C9),
   (0x11730, 0x11739), (0x118E0, 0x118E9), (0x11950, 0x11959), (0x11C50, 0x11C59),
   (0x11D50, 0x11D59), (0x11DA0, 0x11DA9), (0x11F50, 0x11F59), (0x16A60, 0x16A69),
   (0x16AC0, 0x16AC9), (0x16B50, 0x16B59), (0x1D7CE, 0x1D7FF), (0x1E140, 0x1E149),
   (0x1E2F0, 0x1E2F9), (0x1E4F0, 0x1E4F9), (0x1E950, 0x1E959), (0x1FBF0, 0x1FBF9)]

/-- The branch of Go `unicode.IsDigit(r)` taken when `r <= unicode.MaxLatin1`:
`'0' <= r && r <= '9'`. -/
def latin1IsDigit (r : Nat) : Bool := decide (0x30 ≤ r ∧ r ≤ 0x39)

/-- Go `unicode.IsDigit(r)`: below U+0100 exactly the ASCII digits, above it
membership in the range table `unicode.Digit` of the toolchain, given as `table`. -/
def unicodeIsDigit (table : List (Nat × Nat)) (r : Nat) : Bool :=
  if r ≤ 0xFF then latin1IsDigit r
  else table.any (fun p => decide (p.1 ≤ r ∧ r ≤ p.2))

/-- Go `strings.ContainsRune(chars, r)` for a string literal `chars`: whether
the code point `r` is one of the characters of `chars`. -/
def containsRune (chars : String) (r : Nat) : Bool :=
  chars.data.any (fun c => c.toNat == r)

/-! ## `precedence` and `shuntingYard` -/

/-- Source `precedence`: the `switch` over the operator string. -/
def precedence (op : GoString) : Int :=
  if op = goStr "+" ∨ op = goStr "-" then 1
  else if op = goStr "*" ∨ op = goStr "/" then 2
  else if op = goStr "^" ∨ op = goStr "√" then 3
  else 0

/-- The error of both failure sites of `shuntingYard`. -/
def errUnbalanced : GoError := goStr "непарные скобки"

/-- The test `unicode.IsDigit(rune(expr[i])) || expr[i] == '.'` of `shuntingYard`.
The rune of a byte is at most U+00FF, so `unicode.IsDigit` returns from its Latin-1
branch and no range table is consulted (`isNumberByte_eq`). -/
def isNumberByte (b : Byte) : Bool :=
  latin1IsDigit (runeOfByte b) || runeOfByte b == '.'.toNat

/-- The operator loop of `shuntingYard` for an incoming operator of precedence `p`:
`for len(operators) > 0 && precedence(top) >= p`, moving the top to the output. -/
def popWhileGe (p : Int) : List GoString → List GoString → List GoString × List GoString
  | output, [] => (output, [])
  | output, top :: operators =>
    if precedence top ≥ p then popWhileGe p (output ++ [top]) operators
    else (output, top :: operators)

/-- The loop of the `)` branch: `for len(operators) > 0 && top != "("`, moving the
top to the output. -/
def popUntilParen : List GoString → List GoString → List GoString × List GoString
  | output, [] => (output, [])
  | output, top :: operators =>
    if top ≠ goStr "(" then popUntilParen (output ++ [top]) operators
    else (output, top :: operators)

/-- The final loop of `shuntingYard`: drain the operator stack, failing on a
parenthesis. -/
def drain : List GoString → List GoString → List GoString × Option GoError
  | output, [] => (output, none)
  | output, top :: operators =>
    if top = goStr "(" ∨ top = goStr ")" then ([], some errUnbalanced)
    else drain (output ++ [top]) operators

/-- Appending the literal read by the inner loop, if one is being read. -/
def flushNumber (num : GoString) (output : List GoString) : List GoString :=
  if num = [] then output else output ++ [num]

/-- The scanning loop of `shuntingYard` over the bytes that remain to be read.
`num` is the literal accumulated so far by the inner `for` loop (`num += string(expr[i])`),
empty when no literal is being read: the inner loop is run one byte per step, and
its exit (`i--`, `output = append(output, num)`) happens when the next byte is not
a number byte or the input ends. Bytes matching no branch are skipped. -/
def scan : GoString → GoString → List GoString → List GoString →
    List GoString × Option GoError
  | [], num, output, operators => drain (flushNumber num output) operators
  | b :: rest, num, output, operators =>
    if isNumberByte b then scan rest (num ++ encodeRune (runeOfByte b)) output operators
    else if containsRune "+-*/^√" (runeOfByte b) then
      let op := encodeRune (runeOfByte b)
      let r := popWhileGe (precedence op) (flushNumber num output) operators
      scan rest [] r.1 (op :: r.2)
    else if runeOfByte b = '('.toNat then
      scan rest [] (flushNumber num output) (encodeRune (runeOfByte b) :: operators)
    else if runeOfByte b = ')'.toNat then
      match popUntilParen (flushNumber num output) operators with
      | (_, []) => ([], some errUnbalanced)
      | (output, _ :: operators) => scan rest [] output operators
    else scan rest [] (flushNumber num output) operators

/-- Source `shuntingYard`: the RPN token sequence and the error (`nil` is `none`). -/
def shuntingYard (expr : GoString) : List GoString × Option GoError :=
  scan expr [] [] []

/-! ## binary64 arithmetic

A `float64` is NaN, an infinity, or a finite value `(-1)^neg * m * 2^e`.
Every operation below returns the canonical representation of its result:
`2^52 ≤ m < 2^53` and `-1074 ≤ e ≤ 971` for normal numbers, `m < 2^52` and
`e = -1074` for subnormal ones, `m = 0` and `e = 0` for the two zeros. -/

/-- A Go `float64` (IEEE 754 binary64; one NaN, the program cannot tell NaNs apart). -/
inductive Float64 where
  | nan : Float64
  | inf (neg : Bool) : Float64
  | fin (neg : Bool) (m : Nat) (e : Int) : Float64
  deriving DecidableEq, Repr

/-- Number of binary digits of `n`, with `fuel ≥` that number. -/
def bitLengthAux : Nat → Nat → Nat
  | 0, _ => 0
  | fuel + 1, n => if n = 0 then 0 else bitLengthAux fuel (n / 2) + 1

/-- Number of binary digits of `n` (`0` for `0`). -/
def bitLength (n : Nat) : Nat := bitLengthAux n n

/-- Numerator and denominator of `(n / d) / 2^e`. -/
def scaleRat (n d : Nat) (e : Int) : Nat × Nat :=
  if 0 ≤ e then (n, d * 2 ^ e.toNat) else (n * 2 ^ (-e).toNat, d)

/-- Rounding to nearest, ties to even, of the quotient `a / b` to an integer. -/
def roundHalfEven (a b : Nat) : Nat :=
  let q := a / b
  let r := a % b
  if b < 2 * r ∨ (2 * r = b ∧ q % 2 = 1) then q + 1 else q

/-- The float64 nearest to `(-1)^neg * n / d` (`d > 0`), ties to even; an infinity
when the rounded magnitude exceeds the largest finite float64. -/
def roundRat (neg : Bool) (n d : Nat) : Float64 :=
  if n = 0 then .fin neg 0 0
  else
    let k : Int := (bitLength n : Int) - (bitLength d : Int)
    let s := scaleRat n d k
    -- floor (log2 (n / d))
    let lg : Int := if s.2 ≤ s.1 then k else k - 1
    let e : Int := max (lg - 52) (-1074)
    let t := scaleRat n d e
    let q := roundHalfEven t.1 t.2
    if q = 0 then .fin neg 0 0
    else if q = 2 ^ 53 then (if 971 < e + 1 then .inf neg else .fin neg (2 ^ 52) (e + 1))
    else if 971 < e then .inf neg
    else .fin neg q e

/-- The float64 nearest to `(-1)^neg * n * 2^e`. -/
def roundScaled (neg : Bool) (n : Nat) (e : Int) : Float64 :=
  if 0 ≤ e then roundRat neg (n * 2 ^ e.toNat) 1 else roundRat neg n (2 ^ (-e).toNat)

namespace Float64

/-- The constant `0` of type float64 (positive zero). -/
def zero : Float64 := .fin false 0 0

/-- Conversion of a non-negative integer constant. -/
def ofNat (n : Nat) : Float64 := roundRat false n 1

/-- The constant `1.0`. -/
def one : Float64 := ofNat 1

/-- The signed integer `(-1)^neg * m`. -/
def signed (neg : Bool) (m : Nat) : Int := if neg then -(m : Int) else (m : Int)

/-- Go `a + b` on float64. -/
def add : Float64 → Float64 → Float64
  | .nan, _ => .nan
  | _, .nan => .nan
  | .inf s, .inf t => if s = t then .inf s else .nan
  | .inf s, .fin _ _ _ => .inf s
  | .fin _ _ _, .inf t => .inf t
  | .fin s m e, .fin t m' e' =>
    let e0 := min e e'
    let sum : Int := signed s (m * 2 ^ (e - e0).toNat) + signed t (m' * 2 ^ (e' - e0).toNat)
    if sum = 0 then .fin (s && t) 0 0
    else roundScaled (decide (sum < 0)) sum.natAbs e0

/-- Go unary `-b` on float64. -/
def neg : Float64 → Float64
  | .nan => .nan
  | .inf s => .inf (!s)
  | .fin s m e => .fin (!s) m e

/-- Go `a - b` on float64. -/
def sub (a b : Float64) : Float64 := add a (neg b)

/-- Go `a * b` on float64. -/
def mul : Float64 → Float64 → Float64
  | .nan, _ => .nan
  | _, .nan => .nan
  | .inf s, .inf t => .inf (xor s t)
  | .inf s, .fin t m _ => if m = 0 then .nan else .inf (xor s t)
  | .fin s m _, .inf t => if m = 0 then .nan else .inf (xor s t)
  | .fin s m e, .fin t m' e' => roundScaled (xor s t) (m * m') (e + e')

/-- Go `a / b` on float64. -/
def div : Float64 → Float64 → Float64
  | .nan, _ => .nan
  | _, .nan => .nan
  | .inf _, .inf _ => .nan
  | .inf s, .fin t _ _ => .inf (xor s t)
  | .fin s _ _, .inf t => .fin (xor s t) 0 0
  | .fin s m e, .fin t m' e' =>
    if m' = 0 then (if m = 0 then .nan else .inf (xor s t))
    else
      let r := scaleRat m m' (e' - e)
      roundRat (xor s t) r.1 r.2

/-- Go `b == 0` on float64 (true for both zeros, false for NaN). -/
def isZero : Float64 → Bool
  | .fin _ m _ => m == 0
  | _ => false

/-- Go `a < 0` on float64 (false for NaN and for both zeros). -/
def ltZero : Float64 → Bool
  | .inf s => s
  | .fin s m _ => s && m != 0
  | .nan => false

end Float64

/-! ## `math.Sqrt`, `int(b)`, `pow`, `sqrt` -/

/-- Bitwise integer square root: `isqrtAux n i r` decides the bits below `2^i`. -/
def isqrtAux (n : Nat) : Nat → Nat → Nat
  | 0, r => r
  | i + 1, r => isqrtAux n i (if (r + 2 ^ i) * (r + 2 ^ i) ≤ n then r + 2 ^ i else r)

/-- The integer square root `⌊√n⌋`. -/
def isqrt (n : Nat) : Nat := isqrtAux n (bitLength n / 2 + 1) 0

/-- Go `math.Sqrt` (correctly rounded): the radicand `m * 2^e` is rewritten
`m2 * 2^e2` with `e2` even, `m2` is scaled by `2^128`, and a root that is not
exact is represented by the midpoint `s + 1/2`, which rounds like the root. -/
def mathSqrt : Float64 → Float64
  | .nan => .nan
  | .inf s => if s then .nan else .inf false
  | .fin s m e =>
    if m = 0 then .fin s 0 0
    else if s then .nan
    else
      let m2 := if e % 2 = 0 then m else 2 * m
      let e2 : Int := if e % 2 = 0 then e else e - 1
      let big := m2 * 2 ^ 128
      let r := isqrt big
      if r * r = big then roundScaled false r (e2 / 2 - 64)
      else roundScaled false (2 * r + 1) (e2 / 2 - 65)

/-- What the program depends on and the Go specification leaves to the
implementation and the toolchain: whether `int` has 64 bits (otherwise 32), the
value of the conversion `int(b)` of a float64 whose truncation does not fit in an
`int` (NaN and infinities included), and the range table `unicode.Digit` above
Latin-1 (it follows the Unicode version of the standard library). -/
structure Arch where
  int64 : Bool
  intOfUnrepresentable : Float64 → Int
  digitTable : List (Nat × Nat)

/-- The width of the type `int`. -/
def Arch.intBits (arch : Arch) : Nat := if arch.int64 then 64 else 32

/-- Truncation toward zero of a finite float64; `none` for NaN and infinities. -/
def truncate : Float64 → Option Int
  | .fin s m e =>
    some (Float64.signed s (if 0 ≤ e then m * 2 ^ e.toNat else m / 2 ^ (-e).toNat))
  | _ => none

/-- Whether the integer `n` is a value of the type `int`. -/
def fitsInt (arch : Arch) (n : Int) : Bool :=
  decide (-(2 ^ (arch.intBits - 1) : Int) ≤ n ∧ n < (2 ^ (arch.intBits - 1) : Int))

/-- Go `int(b)` for a float64 `b`. -/
def intOfFloat (arch : Arch) (b : Float64) : Int :=
  match truncate b with
  | some n => if fitsInt arch n then n else arch.intOfUnrepresentable b
  | none => arch.intOfUnrepresentable b

/-- The loop `for ...; i++ { result *= a }` of `pow`, run for `count` iterations. -/
def powLoop (a : Float64) : Nat → Float64 → Float64
  | 0, result => result
  | count + 1, result => powLoop a count (Float64.mul result a)

/-- Source `pow`: `result := 1.0`, then the loop `for i := 0; i < int(b); i++`,
which runs `int(b)` times when `int(b)` is positive and not at all otherwise. -/
def pow (arch : Arch) (a b : Float64) : Float64 :=
  powLoop a (intOfFloat arch b).toNat Float64.one

/-- Source `sqrt`. -/
def sqrt (a : Float64) : Float64 := mathSqrt a

/-! ## `fmt.Sprintf("%.2f", x)` -/

/-- Decimal digits of `n`, most significant first, with `fuel >` their number. -/
def natDigitsAux : Nat → Nat → GoString → GoString
  | 0, _, acc => acc
  | fuel + 1, n, acc =>
    if n < 10 then (Fin.ofNat (0x30 + n) : Byte) :: acc
    else natDigitsAux fuel (n / 10) ((Fin.ofNat (0x30 + n % 10) : Byte) :: acc)

/-- Decimal representation of `n`. -/
def natDigits (n : Nat) : GoString := natDigitsAux (n + 1) n []

/-- Go `fmt.Sprintf("%.2f", x)`: `NaN`, `+Inf`, `-Inf`, or the sign, the integer
part, a point and two decimals of the exact value rounded to nearest, ties to even. -/
def sprintf2 : Float64 → GoString
  | .nan => goStr "NaN"
  | .inf s => if s then goStr "-Inf" else goStr "+Inf"
  | .fin s m e =>
    let t := scaleRat (m * 100) 1 (-e)
    let n := roundHalfEven t.1 t.2
    (if s then goStr "-" else []) ++ natDigits (n / 100) ++ goStr "." ++
      [(Fin.ofNat (0x30 + n / 10 % 10) : Byte), (Fin.ofNat (0x30 + n % 10) : Byte)]

/-! ## `strconv.ParseFloat(s, 64)`

The syntax is that of `strconv` (`special`, `readFloat`, `underscoreOK`); the
value is the float64 nearest to the exact value written, and a literal whose
rounded value overflows is an error (`ErrRange`). -/

/-- Go `lower(c)` of `strconv`: `c | ('x' - 'X')`. -/
def lower (c : Nat) : Nat := c ||| 0x20

/-- Go `commonPrefixLenIgnoreCase(s, prefix)` for a lower-case `prefix`. -/
def commonPrefixLenIgnoreCase : GoString → List Nat → Nat
  | c :: s, p :: pfx =>
    let c' := if 'A'.toNat ≤ c.val ∧ c.val ≤ 'Z'.toNat then c.val + 0x20 else c.val
    if c' ≠ p then 0 else commonPrefixLenIgnoreCase s pfx + 1
  | _, _ => 0

/-- The `'i', 'I'` case of `special`, entered directly or by `fallthrough` after a
sign: the value and the number of bytes consumed after the sign. -/
def specialInf (neg : Bool) (s : GoString) : Option (Float64 × Nat) :=
  let n := commonPrefixLenIgnoreCase s ("infinity".data.map Char.toNat)
  let n := if 3 < n ∧ n < 8 then 3 else n
  if n = 3 ∨ n = 8 then some (.inf neg, n) else none

/-- Go `special(s)`: infinities and NaN, with the number of bytes consumed. -/
def special : GoString → Option (Float64 × Nat)
  | [] => none
  | c :: s =>
    if c.val = '+'.toNat then (specialInf false s).map (fun r => (r.1, r.2 + 1))
    else if c.val = '-'.toNat then (specialInf true s).map (fun r => (r.1, r.2 + 1))
    else if c.val = 'i'.toNat ∨ c.val = 'I'.toNat then specialInf false (c :: s)
    else if c.val = 'n'.toNat ∨ c.val = 'N'.toNat then
      if commonPrefixLenIgnoreCase (c :: s) ("nan".data.map Char.toNat) = 3 then some (.nan, 3)
      else none
    else none

/-- The mantissa loop of `readFloat` in base `base` (10 or 16), with all digits kept:
returns `sawdot`, `sawdigits`, `nd`, `dp`, the mantissa, `underscores` and the
bytes not consumed. -/
def readMantissa (base : Nat) : GoString → Bool → Bool → Int → Int → Nat → Bool →
    Bool × Bool × Int × Int × Nat × Bool × GoString
  | [], sawdot, sawdigits, nd, dp, mant, us => (sawdot, sawdigits, nd, dp, mant, us, [])
  | c :: s, sawdot, sawdigits, nd, dp, mant, us =>
    if c.val = '_'.toNat then readMantissa base s sawdot sawdigits nd dp mant true
    else if c.val = '.'.toNat then
      if sawdot then (sawdot, sawdigits, nd, dp, mant, us, c :: s)
      else readMantissa base s true sawdigits nd nd mant us
    else if '0'.toNat ≤ c.val ∧ c.val ≤ '9'.toNat then
      if c.val = '0'.toNat ∧ nd = 0 then readMantissa base s sawdot true nd (dp - 1) mant us
      else readMantissa base s sawdot true (nd + 1) dp (mant * base + (c.val - '0'.toNat)) us
    else if base = 16 ∧ 'a'.toNat ≤ lower c.val ∧ lower c.val ≤ 'f'.toNat then
      readMantissa base s sawdot true (nd + 1) dp (mant * 16 + (lower c.val - 'a'.toNat + 10)) us
    else (sawdot, sawdigits, nd, dp, mant, us, c :: s)

/-- The exponent digit loop of `readFloat`: `e` (no longer updated once it has
reached 10000), `underscores`, and the bytes not consumed. -/
def readExponent : GoString → Nat → Bool → Nat × Bool × GoString
  | [], e, us => (e, us, [])
  | c :: s, e, us =>
    if c.val = '_'.toNat then readExponent s e true
    else if '0'.toNat ≤ c.val ∧ c.val ≤ '9'.toNat then
      readExponent s (if e < 10000 then e * 10 + (c.val - '0'.toNat) else e) us
    else (e, us, c :: s)

/-- The loop of Go `underscoreOK` over the number proper; `saw` is the last
character class seen (`'^'`, `'0'`, `'_'` or `'!'`). -/
def underscoreLoop (hex : Bool) : GoString → Char → Bool
  | [], saw => saw ≠ '_'
  | c :: s, saw =>
    if ('0'.toNat ≤ c.val ∧ c.val ≤ '9'.toNat) ∨
        (hex ∧ 'a'.toNat ≤ lower c.val ∧ lower c.val ≤ 'f'.toNat) then underscoreLoop hex s '0'
    else if c.val = '_'.toNat then (if saw ≠ '0' then false else underscoreLoop hex s '_')
    else if saw = '_' then false
    else underscoreLoop hex s '!'

/-- Go `underscoreOK(s)`: underscores only between digits or after a base prefix. -/
def underscoreOK (s : GoString) : Bool :=
  let s := match s with
    | c :: t => if c.val = '-'.toNat ∨ c.val = '+'.toNat then t else s
    | [] => s
  match s with
  | c0 :: c1 :: t =>
    if c0.val = '0'.toNat ∧
        (lower c1.val = 'b'.toNat ∨ lower c1.val = 'o'.toNat ∨ lower c1.val = 'x'.toNat) then
      underscoreLoop (lower c1.val = 'x'.toNat) t '0'
    else underscoreLoop false s '^'
  | _ => underscoreLoop false s '^'

/-- The float64 nearest to `(-1)^neg * mant * base^exp` (`base` 2 for a hexadecimal
literal, 10 otherwise); `none` when it overflows (`ErrRange`). -/
def floatOfParts (hex neg : Bool) (mant : Nat) (exp : Int) : Option Float64 :=
  if mant = 0 then some (.fin neg 0 0)
  else
    let f :=
      if hex then roundScaled neg mant exp
      else if 0 ≤ exp then roundRat neg (mant * 10 ^ exp.toNat) 1
      else roundRat neg mant (10 ^ (-exp).toNat)
    match f with
    | .fin s m e => some (.fin s m e)
    | _ => none

/-- The end of `readFloat` and of `ParseFloat`: the whole string must have been
consumed (`rest` empty) and its underscores must be well placed. -/
def finishFloat (s rest : GoString) (hex neg : Bool) (mant : Nat) (nd dp : Int) (us : Bool) :
    Option Float64 :=
  if rest ≠ [] then none
  else if us ∧ ¬ underscoreOK s then none
  else floatOfParts hex neg mant (dp - nd)

/-- The optional exponent part of `readFloat`, `rest` being the bytes after the
mantissa: mandatory for a hexadecimal literal. -/
def readExponentPart (s rest : GoString) (hex neg : Bool) (mant : Nat) (nd dp : Int) (us : Bool) :
    Option Float64 :=
  match rest with
  | [] => if hex then none else finishFloat s [] hex neg mant nd dp us
  | c :: t =>
    if lower c.val = (if hex then 'p'.toNat else 'e'.toNat) then
      match t with
      | [] => none
      | d :: u =>
        let esign : Int := if d.val = '-'.toNat then -1 else 1
        let digits := if d.val = '+'.toNat ∨ d.val = '-'.toNat then u else t
        match digits with
        | [] => none
        | d0 :: _ =>
          if d0.val < '0'.toNat ∨ '9'.toNat < d0.val then none
          else
            let r := readExponent digits 0 us
            finishFloat s r.2.2 hex neg mant nd (dp + (r.1 : Int) * esign) r.2.1
    else if hex then none
    else finishFloat s rest hex neg mant nd dp us

/-- The optional sign of `readFloat`: whether it is `-`, and the bytes after it. -/
def readSign : GoString → Bool × GoString
  | [] => (false, [])
  | c :: t =>
    if c.val = '+'.toNat then (false, t)
    else if c.val = '-'.toNat then (true, t)
    else (false, c :: t)

/-- The base prefix test of `readFloat` on the bytes after the sign:
`i+2 < len(s) && s[i] == '0' && lower(s[i+1]) == 'x'`. -/
def hasHexPrefix : GoString → Bool
  | c0 :: c1 :: _ :: _ => decide (c0.val = '0'.toNat ∧ lower c1.val = 'x'.toNat)
  | _ => false

/-- The mantissa and exponent of `readFloat` on `digits`, the bytes after the sign
and the base prefix of `s`, followed by the conversion. -/
def readFloatDigits (s digits : GoString) (hex neg : Bool) : Option Float64 :=
  let r := readMantissa (if hex then 16 else 10) digits false false 0 0 0 false
  let sawdot := r.1
  let sawdigits := r.2.1
  let nd := r.2.2.1
  let dp := if sawdot then r.2.2.2.1 else nd
  let mant := r.2.2.2.2.1
  if ¬ sawdigits then none
  else if hex then readExponentPart s r.2.2.2.2.2.2 hex neg mant (nd * 4) (dp * 4) r.2.2.2.2.2.1
  else readExponentPart s r.2.2.2.2.2.2 hex neg mant nd dp r.2.2.2.2.2.1

/-- Go `readFloat` followed by the conversion, for a string that `special` rejects. -/
def readFloat (s : GoString) : Option Float64 :=
  let sign := readSign s
  let hex := hasHexPrefix sign.2
  readFloatDigits s (if hex then sign.2.drop 2 else sign.2) hex sign.1

/-- Go `strconv.ParseFloat(s, 64)`: `some f` when the error is `nil`, `none`
otherwise (syntax error or value out of range). -/
def parseFloat (s : GoString) : Option Float64 :=
  match special s with
  | some r => if r.2 = s.length then some r.1 else none
  | none => readFloat s


/-! ## `evalRPN` and `calculate` -/

/-- Error of `evalRPN`: an operator with fewer than two values on the stack. -/
def errInsufficient : GoError := goStr "недостаточно операндов"

/-- Error of `evalRPN`: division by zero. -/
def errDivZero : GoError := goStr "деление на ноль"

/-- Error of `evalRPN`: square root of a negative number. -/
def errNegativeSqrt : GoError := goStr "корень из отрицательного числа"

/-- Error of `evalRPN`: `fmt.Errorf("неизвестный оператор: %s", token)`. -/
def errUnknownOperator (token : GoString) : GoError := goStr "неизвестный оператор: " ++ token

/-- Error of `evalRPN`: the stack does not hold exactly one value at the end. -/
def errMismatch : GoError := goStr "ошибка вычисления"

/-- The `switch token` of `evalRPN`, applied to the operands `a` and `b` popped
from the stack, `stack` being what remains. -/
def applyOperator (arch : Arch) (token : GoString) (a b : Float64) (stack : List Float64) :
    Except GoError (List Float64) :=
  if token = goStr "+" then .ok (Float64.add a b :: stack)
  else if token = goStr "-" then .ok (Float64.sub a b :: stack)
  else if token = goStr "*" then .ok (Float64.mul a b :: stack)
  else if token = goStr "/" then
    if Float64.isZero b then .error errDivZero else .ok (Float64.div a b :: stack)
  else if token = goStr "^" then .ok (pow arch a b :: stack)
  else if token = goStr "√" then
    if Float64.ltZero a then .error errNegativeSqrt else .ok (sqrt a :: stack)
  else .error (errUnknownOperator token)

/-- One iteration of the loop of `evalRPN`: the new stack, or the error returned. -/
def evalStep (arch : Arch) (stack : List Float64) (token : GoString) :
    Except GoError (List Float64) :=
  match parseFloat token with
  | some num => .ok (num :: stack)
  | none =>
    match stack with
    | b :: a :: stack => applyOperator arch token a b stack
    | _ => .error errInsufficient

/-- The loop `for _, token := range rpn` of `evalRPN`, from a given stack. -/
def evalLoop (arch : Arch) : List GoString → List Float64 → Except GoError (List Float64)
  | [], stack => .ok stack
  | token :: rpn, stack =>
    match evalStep arch stack token with
    | .ok stack => evalLoop arch rpn stack
    | .error err => .error err

/-- Source `evalRPN`. -/
def evalRPN (arch : Arch) (rpn : List GoString) : Float64 × Option GoError :=
  match evalLoop arch rpn [] with
  | .error err => (Float64.zero, some err)
  | .ok [v] => (v, none)
  | .ok _ => (Float64.zero, some errMismatch)

/-- Source `calculate`. -/
def calculate (arch : Arch) (expr : GoString) : Float64 × Option GoError :=
  match shuntingYard expr with
  | (_, some err) => (Float64.zero, some err)
  | (rpn, none) =>
    match evalRPN arch rpn with
    | (_, some err) => (Float64.zero, some err)
    | (result, none) => (result, none)

/-! ## `evaluateExpression` -/

/-- Whether `b` lies in the inclusive byte range `lo..hi`. -/
def inRange (lo hi : Nat) (b : Byte) : Bool := decide (lo ≤ b.val ∧ b.val ≤ hi)

/-- Go `utf8.DecodeRuneInString(s)`: the first rune of `s` and its width in
bytes; `(U+FFFD, 1)` when `s` does not start with a well-formed encoding. -/
def decodeRune : GoString → Nat × Nat
  | [] => (0xFFFD, 0)
  | b0 :: rest =>
    if b0.val < 0x80 then (b0.val, 1)
    else if b0.val < 0xC2 ∨ 0xF4 < b0.val then (0xFFFD, 1)
    else if b0.val < 0xE0 then
      match rest with
      | b1 :: _ =>
        if inRange 0x80 0xBF b1 then (b0.val % 0x20 * 0x40 + b1.val % 0x40, 2) else (0xFFFD, 1)
      | _ => (0xFFFD, 1)
    else if b0.val < 0xF0 then
      match rest with
      | b1 :: b2 :: _ =>
        if inRange (if b0.val = 0xE0 then 0xA0 else 0x80) (if b0.val = 0xED then 0x9F else 0xBF) b1
            && inRange 0x80 0xBF b2 then
          (b0.val % 0x10 * 0x1000 + b1.val % 0x40 * 0x40 + b2.val % 0x40, 3)
        else (0xFFFD, 1)
      | _ => (0xFFFD, 1)
    else
      match rest with
      | b1 :: b2 :: b3 :: _ =>
        if inRange (if b0.val = 0xF0 then 0x90 else 0x80) (if b0.val = 0xF4 then 0x8F else 0xBF) b1
            && inRange 0x80 0xBF b2 && inRange 0x80 0xBF b3 then
          (b0.val % 0x08 * 0x40000 + b1.val % 0x40 * 0x1000 + b2.val % 0x40 * 0x40 + b3.val % 0x40, 4)
        else (0xFFFD, 1)
      | _ => (0xFFFD, 1)

/-- The loop `for _, char := range expr` seen from a byte position: `skip` bytes
remain of the rune decoded last, and a rune is decoded where `skip` is zero. -/
def decodeRunesFrom : Nat → GoString → List Nat
  | _, [] => []
  | skip + 1, _ :: rest => decodeRunesFrom skip rest
  | 0, b :: rest => (decodeRune (b :: rest)).1 :: decodeRunesFrom ((decodeRune (b :: rest)).2 - 1) rest

/-- The runes produced by `for _, char := range expr`. -/
def decodeRunes (expr : GoString) : List Nat := decodeRunesFrom 0 expr

/-- Go `strings.ReplaceAll(s, string(b), "")` for a one-byte string: every
occurrence of the byte is removed. -/
def removeByte (b : Byte) (s : GoString) : GoString := s.filter (fun c => c ≠ b)

/-- The test of the validation loop of `evaluateExpression` on one rune:
`!unicode.IsDigit(char) && !strings.ContainsRune("+-*/().^√", char)`. -/
def invalidRune (arch : Arch) (char : Nat) : Bool :=
  !unicodeIsDigit arch.digitTable char && !containsRune "+-*/().^√" char

/-- Source `evaluateExpression`. -/
def evaluateExpression (arch : Arch) (expr : GoString) : GoString × GoString :=
  let expr := removeByte 0x20 expr
  if (decodeRunes expr).any (invalidRune arch) then
    (goStr "Ошибка", goStr "Некорректное выражение")
  else
    match calculate arch expr with
    | (_, some err) => (goStr "Ошибка", err)
    | (result, none) =>
      (sprintf2 result, sprintf2 (calculate arch (removeByte 0x28 expr)).1)

/-- The 64-bit x86 implementation with a standard library at Unicode 15.0: `int`
has 64 bits and the conversion of an unrepresentable float64 gives the smallest
`int`. -/
def amd64 : Arch := ⟨true, fun _ => -(2 ^ 63 : Int), unicodeDigitTable⟩

/-! ## The loops of the source with explicit indices

The definitions above follow the loops of the source by recursion on the data.
The ones below keep what the source does at run time: the index `i` into the
expression, the accesses `operators[len(operators)-1]`, `stack[len(stack)-2]`,
the slicings `operators[:len(operators)-1]`, each of which panics when its bound
is out of range, and loops that run while their condition holds. -/

/-- Outcome of running a piece of the source with a bound on the iterations of each
loop: a result, a run-time panic (index or slice bound out of range), or the
bound was reached. -/
inductive Run (α : Type) where
  | done (a : α)
  | panic
  | timeout
  deriving DecidableEq, Repr

/-- Sequencing: a panic or an exhausted bound ends the run. -/
def Run.bind {α β : Type} : Run α → (α → Run β) → Run β
  | .done a, f => f a
  | .panic, _ => .panic
  | .timeout, _ => .timeout

/-- Go `s[i]`: the element at index `i`; nothing (a panic) when `i` is negative or
not below `len(s)`. -/
def indexAt {α : Type} (s : List α) (i : Int) : Option α :=
  if 0 ≤ i then s.get? i.toNat else none

/-- Go `stack[len(stack)-k]` for a stack kept with its top first (the slice of the
source is the reversed list). -/
def fromTop {α : Type} (stack : List α) (k : Nat) : Option α :=
  indexAt stack.reverse ((stack.length : Int) - (k : Int))

/-- Go `stack[:len(stack)-k]` for a stack kept with its top first; nothing (a panic)
when the bound `len(stack)-k` is negative. -/
def dropTop {α : Type} (stack : List α) (k : Nat) : Option (List α) :=
  if 0 ≤ (stack.length : Int) - (k : Int) then
    some (stack.reverse.take ((stack.length : Int) - (k : Int)).toNat).reverse
  else none

/-- The inner loop of the number branch of `shuntingYard`,
`for i < len(expr) && (unicode.IsDigit(rune(expr[i])) || expr[i] == '.')` with body
`num += string(expr[i]); i++`: the values of `i` and `num` at its exit. -/
def readNumberRun (expr : GoString) : Nat → Int → GoString → Run (Int × GoString)
  | 0, _, _ => .timeout
  | fuel + 1, i, num =>
    if i < (expr.length : Int) then
      match indexAt expr i with
      | none => .panic
      | some b =>
        if isNumberByte b then
          readNumberRun expr fuel (i + 1) (num ++ encodeRune (runeOfByte b))
        else .done (i, num)
    else .done (i, num)

/-- The loop of the operator branch,
`for len(operators) > 0 && precedence(operators[len(operators)-1]) >= p`. -/
def popWhileGeRun (p : Int) : Nat → List GoString → List GoString →
    Run (List GoString × List GoString)
  | 0, _, _ => .timeout
  | fuel + 1, output, operators =>
    if operators.length > 0 then
      match fromTop operators 1 with
      | none => .panic
      | some top =>
        if precedence top ≥ p then
          match dropTop operators 1 with
          | none => .panic
          | some rest => popWhileGeRun p fuel (output ++ [top]) rest
        else .done (output, operators)
    else .done (output, operators)

/-- The loop of the `)` branch,
`for len(operators) > 0 && operators[len(operators)-1] != "("`. -/
def popUntilParenRun : Nat → List GoString → List GoString →
    Run (List GoString × List GoString)
  | 0, _, _ => .timeout
  | fuel + 1, output, operators =>
    if operators.length > 0 then
      match fromTop operators 1 with
      | none => .panic
      | some top =>
        if top ≠ goStr "(" then
          match dropTop operators 1 with
          | none => .panic
          | some rest => popUntilParenRun fuel (output ++ [top]) rest
        else .done (output, operators)
    else .done (output, operators)

/-- The final loop of `shuntingYard`, `for len(operators) > 0`. -/
def drainRun : Nat → List GoString → List GoString → Run (List GoString × Option GoError)
  | 0, _, _ => .timeout
  | fuel + 1, output, operators =>
    if operators.length > 0 then
      match fromTop operators 1 with
      | none => .panic
      | some top =>
        if top = goStr "(" ∨ top = goStr ")" then .done ([], some errUnbalanced)
        else
          match dropTop operators 1 with
          | none => .panic
          | some rest => drainRun fuel (output ++ [top]) rest
    else .done (output, none)

/-- The loop `for i := 0; i < len(expr); i++` of `shuntingYard` from the index `i`,
followed by the final loop. The number branch leaves the inner loop at index `j`,
executes `i--` and the `i++` of the outer loop. -/
def scanRun (expr : GoString) : Nat → Int → List GoString → List GoString →
    Run (List GoString × Option GoError)
  | 0, _, _, _ => .timeout
  | fuel + 1, i, output, operators =>
    if i < (expr.length : Int) then
      match indexAt expr i with
      | none => .panic
      | some c =>
        if isNumberByte c then
          (readNumberRun expr fuel i []).bind fun r =>
            scanRun expr fuel (r.1 - 1 + 1) (output ++ [r.2]) operators
        else if containsRune "+-*/^√" (runeOfByte c) then
          (popWhileGeRun (precedence (encodeRune (runeOfByte c))) fuel output operators).bind
            fun r => scanRun expr fuel (i + 1) r.1 (encodeRune (runeOfByte c) :: r.2)
        else if runeOfByte c = '('.toNat then
          scanRun expr fuel (i + 1) output (encodeRune (runeOfByte c) :: operators)
        else if runeOfByte c = ')'.toNat then
          (popUntilParenRun fuel output operators).bind fun r =>
            if r.2.length = 0 then .done ([], some errUnbalanced)
            else
              match dropTop r.2 1 with
              | none => .panic
              | some rest => scanRun expr fuel (i + 1) r.1 rest
        else scanRun expr fuel (i + 1) output operators
    else drainRun fuel output operators

/-- Source `shuntingYard`, run with at most `fuel` iterations of each loop. -/
def shuntingYardRun (fuel : Nat) (expr : GoString) : Run (List GoString × Option GoError) :=
  scanRun expr fuel 0 [] []

/-- One iteration of the loop of `evalRPN`, reading `stack[len(stack)-1]`,
`stack[len(stack)-2]` and slicing `stack[:len(stack)-2]`. -/
def evalStepRun (arch : Arch) (stack : List Float64) (token : GoString) :
    Run (Except GoError (List Float64)) :=
  match parseFloat token with
  | some num => .done (.ok (num :: stack))
  | none =>
    if stack.length < 2 then .done (.error errInsufficient)
    else
      match fromTop stack 1, fromTop stack 2, dropTop stack 2 with
      | some b, some a, some rest => .done (applyOperator arch token a b rest)
      | _, _, _ => .panic

/-- The loop `for _, token := range rpn` of `evalRPN`. -/
def evalLoopRun (arch : Arch) : List GoString → List Float64 →
    Run (Except GoError (List Float64))
  | [], stack => .done (.ok stack)
  | token :: rpn, stack =>
    (evalStepRun arch stack token).bind fun r =>
      match r with
      | .ok stack => evalLoopRun arch rpn stack
      | .error err => .done (.error err)

/-- Source `evalRPN`, ending with the read of `stack[0]`. -/
def evalRPNRun (arch : Arch) (rpn : List GoString) : Run (Float64 × Option GoError) :=
  (evalLoopRun arch rpn []).bind fun r =>
    match r with
    | .error err => .done (Float64.zero, some err)
    | .ok stack =>
      if stack.length ≠ 1 then .done (Float64.zero, some errMismatch)
      else
        match indexAt stack.reverse 0 with
        | some v => .done (v, none)
        | none => .panic

/-- Source `calculate`. -/
def calculateRun (arch : Arch) (fuel : Nat) (expr : GoString) : Run (Float64 × Option GoError) :=
  (shuntingYardRun fuel expr).bind fun r =>
    match r with
    | (_, some err) => .done (Float64.zero, some err)
    | (rpn, none) =>
      (evalRPNRun arch rpn).bind fun v =>
        match v with
        | (_, some err) => .done (Float64.zero, some err)
        | (result, none) => .done (result, none)

/-- Source `evaluateExpression`. -/
def evaluateExpressionRun (arch : Arch) (fuel : Nat) (expr : GoString) :
    Run (GoString × GoString) :=
  let expr := removeByte 0x20 expr
  if (decodeRunes expr).any (invalidRune arch) then
    .done (goStr "Ошибка", goStr "Некорректное выражение")
  else
    (calculateRun arch fuel expr).bind fun r =>
      match r with
      | (_, some err) => .done (goStr "Ошибка", err)
      | (result, none) =>
        (calculateRun arch fuel (removeByte 0x28 expr)).bind fun m =>
          .done (sprintf2 result, sprintf2 m.1)

/-! ## Notions of the specification used to state the properties -/

/-- Depth-counting formulation of unbalanced parentheses, `d` being the number of
parentheses currently open. -/
def parenFail : GoString → Nat → Bool
  | [], d => decide (0 < d)
  | b :: s, d =>
    if b = 0x28 then parenFail s (d + 1)
    else if b = 0x29 then (d == 0 || parenFail s (d - 1))
    else parenFail s d

/-- The parentheses of `s` are not balanced: some prefix contains more `)` than `(`,
or the whole of `s` contains more `(` than `)`. -/
def Unbalanced (s : GoString) : Prop :=
  (∃ p, p <+: s ∧ p.count 0x28 < p.count 0x29) ∨ s.count 0x29 < s.count 0x28

/-- The bytes of a numeric literal of the specification: an ASCII digit or the
decimal point. -/
def isAsciiDigitOrDot (b : Byte) : Bool :=
  (decide (0x30 ≤ b.val) && decide (b.val ≤ 0x39)) || b.val == 0x2E

/-- A numeric literal of the specification: a non-empty run of ASCII digits and `.`. -/
def NumberRun (x : GoString) : Prop := x ≠ [] ∧ ∀ b ∈ x, isAsciiDigitOrDot b = true

/-- A byte that the validation loop accepts and that is not removed: ASCII, allowed,
not a space. The test of the validation loop on an ASCII character is the same for
every implementation (`invalidRune_latin1`). -/
def plainByte (b : Byte) : Prop := b.val < 0x80 ∧ invalidRune amd64 b.val = false ∧ b ≠ 0x20

/-- The characters the validator is specified to accept: a decimal digit
(`unicode.IsDigit` with the table of the toolchain), a decimal point (U+002E), or
one of `+ - * / ( ) ^ √` (U+002B, U+002D, U+002A, U+002F, U+0028, U+0029, U+005E,
U+221A). -/
def isAllowedChar (arch : Arch) (r : Nat) : Bool :=
  unicodeIsDigit arch.digitTable r || r == 0x2E ||
    (r == 0x2B || r == 0x2D || r == 0x2A || r == 0x2F || r == 0x28 || r == 0x29 || r == 0x5E ||
      r == 0x221A)

/-- The errors `calculate` can return. -/
def IsCalcError (err : GoError) : Prop :=
  err = errUnbalanced ∨ err = errInsufficient ∨ err = errDivZero ∨ err = errNegativeSqrt ∨
    err = errMismatch ∨ ∃ token, err = errUnknownOperator token

/-- A literal written with the digit `0` and the decimal point only. -/
def ZeroLiteral (z : GoString) : Prop := ∀ b ∈ z, b = 0x30 ∨ b = 0x2E

/-- The specification's whitespace: the Unicode White_Space characters (those of Go
`unicode.IsSpace`), of which U+0020 is the space character. -/
def isWhitespace (r : Nat) : Bool :=
  (decide (0x09 ≤ r) && decide (r ≤ 0x0D)) || r == 0x20 || r == 0x85 || r == 0xA0 ||
    r == 0x1680 || (decide (0x2000 ≤ r) && decide (r ≤ 0x200A)) || r == 0x2028 ||
    r == 0x2029 || r == 0x202F || r == 0x205F || r == 0x3000

/-- The tokens of `rpn` that `strconv.ParseFloat` accepts (number tokens). -/
def numberCount (rpn : List GoString) : Nat := rpn.countP (fun t => (parseFloat t).isSome)

/-- The tokens of `rpn` that `strconv.ParseFloat` rejects (treated as operators). -/
def otherCount (rpn : List GoString) : Nat := rpn.countP (fun t => (parseFloat t).isNone)

/-- A Number token of the specification: a non-empty run of ASCII digits and
decimal points. -/
def isNumberToken (t : GoString) : Bool := !t.isEmpty && t.all isAsciiDigitOrDot

/-- The operator symbols `+ - * / ^` as bytes. -/
def isOperatorByte (b : Byte) : Bool := decide (b ∈ goStr "+-*/^")

/-- An operator token the converter can emit: one of the strings `+ - * / ^`. -/
def isEmittedOperator (t : GoString) : Bool :=
  decide (t ∈ [goStr "+", goStr "-", goStr "*", goStr "/", goStr "^"])

/-- An operator token of the closed set of the specification `{+, -, *, /, ^, √}`. -/
def isOperatorToken (t : GoString) : Bool :=
  decide (t ∈ [goStr "+", goStr "-", goStr "*", goStr "/", goStr "^", goStr "√"])

/-- The maximal runs of consecutive ASCII digits and `.` of `e`, left to right:
the non-empty pieces of `e` cut at every other byte. -/
def numberRuns (e : GoString) : List GoString :=
  (e.splitOnP (fun b => !isAsciiDigitOrDot b)).filter (fun r => !r.isEmpty)

/-- The literal being read, as the list of tokens it contributes when flushed. -/
def pendingToken (num : GoString) : List GoString := if num = [] then [] else [num]

/-! ## Theorems -/

set_option maxRecDepth 4000

/-! ## Checks of the runtime model on known values -/

theorem parseFloat_checks :
    parseFloat (goStr "0.1") = some (.fin false 7205759403792794 (-56)) ∧
    parseFloat (goStr "14") = some (Float64.ofNat 14) ∧
    parseFloat (goStr "1.2.3") = none ∧
    parseFloat (goStr ".") = none ∧
    parseFloat (goStr "1.") = some Float64.one ∧
    parseFloat (goStr "-0") = some (.fin true 0 0) ∧
    parseFloat (goStr "1e3") = some (Float64.ofNat 1000) ∧
    parseFloat (goStr "0x1p-2") = parseFloat (goStr "0.25") ∧
    parseFloat (goStr "0x_1F.8p1") = some (Float64.ofNat 63) ∧
    parseFloat (goStr "1__0") = none ∧
    parseFloat (goStr "1_0") = some (Float64.ofNat 10) ∧
    parseFloat (goStr "+Inf") = some (.inf false) ∧
    parseFloat (goStr "infinity") = some (.inf false) ∧
    parseFloat (goStr "infin") = none ∧
    parseFloat (goStr "NaN") = some .nan ∧
    parseFloat (goStr "1e400") = none ∧
    parseFloat (goStr "1e-400") = some (.fin false 0 0) ∧
    parseFloat (goStr "4.9e-324") = some (.fin false 1 (-1074)) ∧
    parseFloat (goStr "2.4703282292062327e-324") = some (.fin false 0 0) ∧
    parseFloat (goStr "2.4703282292062328e-324") = some (.fin false 1 (-1074)) ∧
    parseFloat (goStr "1.7976931348623157e308") = some (.fin false (2 ^ 53 - 1) 971) ∧
    parseFloat (goStr "1.797693134862315808e308") = none := by
  decide!

theorem float64_checks :
    Float64.add (.fin false 7205759403792794 (-56)) (.fin false 7205759403792794 (-55)) =
      .fin false 5404319552844596 (-54) ∧
    Float64.div Float64.one (Float64.ofNat 3) = .fin false 6004799503160661 (-54) ∧
    Float64.sub (Float64.ofNat 1) (Float64.ofNat 1) = Float64.zero ∧
    Float64.mul (.fin true 1 (-1074)) (.fin false 1 (-1074)) = .fin true 0 0 ∧
    Float64.mul (.fin false (2 ^ 53 - 1) 971) (Float64.ofNat 2) = .inf false ∧
    mathSqrt (Float64.ofNat 2) = .fin false 6369051672525773 (-52) ∧
    mathSqrt (Float64.ofNat 4) = Float64.ofNat 2 ∧
    evalRPN amd64 [goStr "4", goStr "9", goStr "√"] = (Float64.ofNat 2, none) := by
  decide!

theorem sprintf2_checks :
    sprintf2 (.fin false 7205759403792794 (-56)) = goStr "0.10" ∧
    sprintf2 (Float64.ofNat 1024) = goStr "1024.00" ∧
    sprintf2 (.fin false (2 ^ 52) (-55)) = goStr "0.12" ∧
    sprintf2 (.fin false (3 * 2 ^ 51) (-54)) = goStr "0.38" ∧
    sprintf2 (.fin true 1 (-1074)) = goStr "-0.00" ∧
    (parseFloat (goStr "2.675")).map sprintf2 = some (goStr "2.67") ∧
    (parseFloat (goStr "1e21")).map sprintf2 = some (goStr "1000000000000000000000.00") := by
  decide!

theorem decodeRunes_checks :
    decodeRunes (goStr "a√б😀") = [0x61, 0x221A, 0x431, 0x1F600] ∧
    decodeRunes [0xE2, 0x88, 0x41, 0xFF, 0xC3] = [0xFFFD, 0xFFFD, 0x41, 0xFFFD, 0xFFFD] ∧
    decodeRunes [0xED, 0xA0, 0x80] = [0xFFFD, 0xFFFD, 0xFFFD] := by
  decide

/-! ## Lemmas on the converter, the evaluator and the pipeline -/

theorem byte_class (b : Byte) :
    (isNumberByte b = true → b ≠ 0x28 ∧ b ≠ 0x29) ∧
    (containsRune "+-*/^√" (runeOfByte b) = true →
      1 ≤ precedence (encodeRune (runeOfByte b)) ∧ encodeRune (runeOfByte b) ≠ goStr "(" ∧
      encodeRune (runeOfByte b) ≠ goStr ")" ∧ b ≠ 0x28 ∧ b ≠ 0x29) ∧
    (runeOfByte b = '('.toNat ↔ b = 0x28) ∧ (runeOfByte b = ')'.toNat ↔ b = 0x29) := by
  revert b; decide!

theorem precedence_lparen : precedence (goStr "(") = 0 := by decide

theorem encodeRune_lparen (b : Byte) (h : runeOfByte b = '('.toNat) :
    encodeRune (runeOfByte b) = goStr "(" := by
  rw [h]; decide

theorem popWhileGe_opens (p : Int) (hp : 1 ≤ p) (ops : List GoString) :
    ∀ out, ((popWhileGe p out ops).2.count (goStr "(") = ops.count (goStr "(")) ∧
      (goStr ")" ∉ ops → goStr ")" ∉ (popWhileGe p out ops).2) := by
  induction ops with
  | nil => intro out; simp [popWhileGe]
  | cons top ops ih =>
    intro out
    unfold popWhileGe
    by_cases h : precedence top ≥ p
    · have hne : top ≠ goStr "(" := by
        intro heq
        rw [heq, precedence_lparen] at h
        omega
      simp only [h, if_true]
      obtain ⟨h1, h2⟩ := ih (out ++ [top])
      refine ⟨?_, ?_⟩
      · rw [h1, List.count_cons_of_ne (Ne.symm hne)]
      · intro hmem
        exact h2 (fun hc => hmem (List.mem_cons_of_mem _ hc))
    · rw [if_neg h]
      exact ⟨rfl, id⟩

theorem popUntilParen_spec (ops : List GoString) :
    ∀ out, ((∃ o, popUntilParen out ops = (o, [])) ∧ ops.count (goStr "(") = 0) ∨
      (∃ o rest, popUntilParen out ops = (o, goStr "(" :: rest) ∧
        ops.count (goStr "(") = rest.count (goStr "(") + 1 ∧
        (goStr ")" ∉ ops → goStr ")" ∉ rest)) := by
  induction ops with
  | nil => intro out; left; simp [popUntilParen]
  | cons top ops ih =>
    intro out
    unfold popUntilParen
    by_cases h : top = goStr "("
    · right
      subst h
      refine ⟨out, ops, by simp, by simp, ?_⟩
      intro hmem hc
      exact hmem (List.mem_cons_of_mem _ hc)
    · simp only [ne_eq, h, not_false_eq_true, if_true]
      rcases ih (out ++ [top]) with ⟨h1, h2⟩ | ⟨o, rest, h1, h2, h3⟩
      · left
        exact ⟨h1, by rw [List.count_cons_of_ne (Ne.symm h)]; exact h2⟩
      · right
        refine ⟨o, rest, h1, by rw [List.count_cons_of_ne (Ne.symm h)]; exact h2, ?_⟩
        intro hmem
        exact h3 (fun hc => hmem (List.mem_cons_of_mem _ hc))

theorem drain_spec (ops : List GoString) (hops : goStr ")" ∉ ops) :
    ∀ out, ((drain out ops).2 ≠ none ↔ 0 < ops.count (goStr "(")) ∧
      ((drain out ops).2 ≠ none → drain out ops = ([], some errUnbalanced)) := by
  induction ops with
  | nil => intro out; simp [drain]
  | cons top ops ih =>
    intro out
    have hne : top ≠ goStr ")" := fun h => hops (h ▸ List.mem_cons_self _ _)
    have hops' : goStr ")" ∉ ops := fun hc => hops (List.mem_cons_of_mem _ hc)
    unfold drain
    by_cases h : top = goStr "("
    · subst h
      simp
    · simp only [h, hne, or_self, if_false]
      rw [List.count_cons_of_ne (Ne.symm h)]
      exact ih hops' _

theorem parenFail_iff (s : GoString) :
    ∀ d, parenFail s d = true ↔
      ((∃ p, p <+: s ∧ d + p.count 0x28 < p.count 0x29) ∨ s.count 0x29 < d + s.count 0x28) := by
  induction s with
  | nil =>
    intro d
    simp [parenFail]
  | cons b s ih =>
    intro d
    unfold parenFail
    by_cases h1 : b = 0x28
    · subst h1
      rw [if_pos rfl, ih (d + 1)]
      constructor
      · rintro (⟨p, hp, hlt⟩ | hlt)
        · left
          refine ⟨0x28 :: p, List.cons_prefix_cons.mpr ⟨rfl, hp⟩, ?_⟩
          simp [List.count_cons]
          omega
        · right
          simp [List.count_cons]
          omega
      · rintro (⟨p, hp, hlt⟩ | hlt)
        · rcases List.prefix_cons_iff.mp hp with rfl | ⟨t, rfl, ht⟩
          · simp at hlt
          · left
            refine ⟨t, ht, ?_⟩
            simp [List.count_cons] at hlt
            omega
        · right
          simp [List.count_cons] at hlt
          omega
    · rw [if_neg h1]
      by_cases h2 : b = 0x29
      · subst h2
        rw [if_pos rfl]
        by_cases hd : d = 0
        · subst hd
          simp only [beq_self_eq_true, Bool.true_or, true_iff]
          left
          exact ⟨[0x29], List.cons_prefix_cons.mpr ⟨rfl, List.nil_prefix⟩, by simp⟩
        · have hd' : (d == 0) = false := by simpa using hd
          rw [hd', Bool.false_or, ih (d - 1)]
          constructor
          · rintro (⟨p, hp, hlt⟩ | hlt)
            · left
              refine ⟨0x29 :: p, List.cons_prefix_cons.mpr ⟨rfl, hp⟩, ?_⟩
              simp [List.count_cons]
              omega
            · right
              simp [List.count_cons]
              omega
          · rintro (⟨p, hp, hlt⟩ | hlt)
            · rcases List.prefix_cons_iff.mp hp with rfl | ⟨t, rfl, ht⟩
              · simp at hlt
              · left
                refine ⟨t, ht, ?_⟩
                simp [List.count_cons] at hlt
                omega
            · right
              simp [List.count_cons] at hlt
              omega
      · rw [if_neg h2, ih d]
        have c1 : ∀ l : GoString, (b :: l).count 0x28 = l.count 0x28 :=
          fun l => List.count_cons_of_ne (Ne.symm h1) l
        have c2 : ∀ l : GoString, (b :: l).count 0x29 = l.count 0x29 :=
          fun l => List.count_cons_of_ne (Ne.symm h2) l
        constructor
        · rintro (⟨p, hp, hlt⟩ | hlt)
          · left
            refine ⟨b :: p, List.cons_prefix_cons.mpr ⟨rfl, hp⟩, ?_⟩
            rw [c1, c2]; exact hlt
          · right
            rw [c1, c2]; exact hlt
        · rintro (⟨p, hp, hlt⟩ | hlt)
          · rcases List.prefix_cons_iff.mp hp with rfl | ⟨t, rfl, ht⟩
            · simp at hlt
            · left
              refine ⟨t, ht, ?_⟩
              rw [c1, c2] at hlt; exact hlt
          · right
            rw [c1, c2] at hlt; exact hlt

theorem parenFail_zero_iff (s : GoString) : parenFail s 0 = true ↔ Unbalanced s := by
  rw [parenFail_iff]
  simp [Unbalanced]

theorem scan_spec (s : GoString) :
    ∀ num out ops, goStr ")" ∉ ops →
      ((scan s num out ops).2 ≠ none ↔ parenFail s (ops.count (goStr "(")) = true) ∧
      ((scan s num out ops).2 ≠ none → scan s num out ops = ([], some errUnbalanced)) := by
  induction s with
  | nil =>
    intro num out ops hops
    have h := drain_spec ops hops (flushNumber num out)
    simpa [scan, parenFail] using h
  | cons b s ih =>
    intro num out ops hops
    obtain ⟨hnum, hop, hl, hr⟩ := byte_class b
    unfold scan
    by_cases h1 : isNumberByte b = true
    · obtain ⟨n1, n2⟩ := hnum h1
      rw [if_pos h1]
      have hp : parenFail (b :: s) (ops.count (goStr "(")) = parenFail s (ops.count (goStr "(")) := by
        simp [parenFail, n1, n2]
      rw [hp]
      exact ih _ _ _ hops
    · rw [if_neg h1]
      by_cases h2 : containsRune "+-*/^√" (runeOfByte b) = true
      · obtain ⟨p1, p2, p3, n1, n2⟩ := hop h2
        rw [if_pos h2]
        have hp : parenFail (b :: s) (ops.count (goStr "(")) = parenFail s (ops.count (goStr "(")) := by
          simp [parenFail, n1, n2]
        obtain ⟨q1, q2⟩ := popWhileGe_opens (precedence (encodeRune (runeOfByte b))) p1 ops
          (flushNumber num out)
        have hops' : goStr ")" ∉ encodeRune (runeOfByte b) ::
            (popWhileGe (precedence (encodeRune (runeOfByte b))) (flushNumber num out) ops).2 := by
          intro hc
          rcases List.mem_cons.mp hc with hc | hc
          · exact p3 hc.symm
          · exact q2 hops hc
        have := ih [] (popWhileGe (precedence (encodeRune (runeOfByte b))) (flushNumber num out) ops).1
          _ hops'
        rw [List.count_cons_of_ne (Ne.symm p2), q1] at this
        rw [hp]
        exact this
      · rw [if_neg h2]
        by_cases h3 : runeOfByte b = '('.toNat
        · have hb : b = 0x28 := hl.mp h3
          rw [if_pos h3, encodeRune_lparen b h3]
          have hops' : goStr ")" ∉ goStr "(" :: ops := by
            intro hc
            rcases List.mem_cons.mp hc with hc | hc
            · exact absurd hc (by decide)
            · exact hops hc
          have := ih [] (flushNumber num out) _ hops'
          rw [List.count_cons_self] at this
          have hp : parenFail (b :: s) (ops.count (goStr "(")) =
              parenFail s (ops.count (goStr "(") + 1) := by
            simp [parenFail, hb]
          rw [hp]
          exact this
        · rw [if_neg h3]
          have n1 : b ≠ 0x28 := fun hb => h3 (hl.mpr hb)
          by_cases h4 : runeOfByte b = ')'.toNat
          · have hb : b = 0x29 := hr.mp h4
            rw [if_pos h4]
            have hp : parenFail (b :: s) (ops.count (goStr "(")) =
                (ops.count (goStr "(") == 0 || parenFail s (ops.count (goStr "(") - 1)) := by
              subst hb
              simp [parenFail]
            rw [hp]
            rcases popUntilParen_spec ops (flushNumber num out) with
              ⟨⟨o, he⟩, hz⟩ | ⟨o, rest, he, hc, hm⟩
            · rw [he, hz]
              simp
            · rw [he, hc]
              have := ih [] o rest (hm hops)
              simpa using this
          · rw [if_neg h4]
            have n2 : b ≠ 0x29 := fun hb => h4 (hr.mpr hb)
            have hp : parenFail (b :: s) (ops.count (goStr "(")) =
                parenFail s (ops.count (goStr "(")) := by
              simp [parenFail, n1, n2]
            rw [hp]
            exact ih _ _ _ hops

theorem number_byte (b : Byte) :
    isNumberByte b = isAsciiDigitOrDot b ∧
    (isNumberByte b = true → encodeRune (runeOfByte b) = [b]) := by
  revert b; decide!

theorem operator_byte (b : Byte) (h : b ∈ goStr "+-*/^") :
    isNumberByte b = false ∧ containsRune "+-*/^√" (runeOfByte b) = true ∧
    encodeRune (runeOfByte b) = [b] ∧ [b] ≠ goStr "(" ∧ [b] ≠ goStr ")" := by
  revert b; decide!

theorem scan_number (x : GoString) (hx : ∀ b ∈ x, isAsciiDigitOrDot b = true) :
    ∀ rest num out ops, scan (x ++ rest) num out ops = scan rest (num ++ x) out ops := by
  induction x with
  | nil => intro rest num out ops; simp
  | cons b x ih =>
    intro rest num out ops
    have hb : isNumberByte b = true := by
      rw [(number_byte b).1]; exact hx b (List.mem_cons_self _ _)
    have hx' : ∀ c ∈ x, isAsciiDigitOrDot c = true := fun c hc => hx c (List.mem_cons_of_mem _ hc)
    rw [List.cons_append, scan, if_pos hb, (number_byte b).2 hb, ih hx']
    simp

theorem scan_operator (b : Byte) (h : b ∈ goStr "+-*/^") (rest num : GoString)
    (out ops : List GoString) :
    scan (b :: rest) num out ops =
      scan rest [] (popWhileGe (precedence [b]) (flushNumber num out) ops).1
        ([b] :: (popWhileGe (precedence [b]) (flushNumber num out) ops).2) := by
  obtain ⟨h1, h2, h3, _, _⟩ := operator_byte b h
  rw [scan, h1, if_neg (by simp), if_pos h2, h3]

theorem drain_operators (ops : List GoString)
    (h : ∀ t ∈ ops, t ≠ goStr "(" ∧ t ≠ goStr ")") :
    ∀ out, drain out ops = (out ++ ops, none) := by
  induction ops with
  | nil => intro out; simp [drain]
  | cons t ops ih =>
    intro out
    obtain ⟨h1, h2⟩ := h t (List.mem_cons_self _ _)
    rw [drain, if_neg (by simp [h1, h2]), ih (fun u hu => h u (List.mem_cons_of_mem _ hu))]
    simp

theorem shuntingYard_two_operators (op1 op2 : Byte) (x y z : GoString)
    (h1 : op1 ∈ goStr "+-*/^") (h2 : op2 ∈ goStr "+-*/^")
    (hx : NumberRun x) (hy : NumberRun y) (hz : NumberRun z) :
    shuntingYard (x ++ [op1] ++ y ++ [op2] ++ z) =
      (if precedence [op1] ≥ precedence [op2] then [x, y, [op1], z, [op2]]
        else [x, y, z, [op2], [op1]], none) := by
  obtain ⟨_, _, _, a1, a2⟩ := operator_byte op1 h1
  obtain ⟨_, _, _, b1, b2⟩ := operator_byte op2 h2
  have e : x ++ [op1] ++ y ++ [op2] ++ z = x ++ (op1 :: (y ++ (op2 :: (z ++ [])))) := by simp
  unfold shuntingYard
  rw [e, scan_number x hx.2, scan_operator op1 h1, scan_number y hy.2, scan_operator op2 h2,
    scan_number z hz.2]
  simp only [List.nil_append, scan, flushNumber, hx.1, hy.1, hz.1, if_false, popWhileGe]
  by_cases hp : precedence [op1] ≥ precedence [op2]
  · simp only [hp, if_true, popWhileGe]
    rw [drain_operators]
    · simp
    · intro t ht
      simp at ht
      subst ht
      exact ⟨b1, b2⟩
  · simp only [hp, if_false]
    rw [drain_operators]
    · simp
    · intro t ht
      simp at ht
      rcases ht with rfl | rfl
      · exact ⟨b1, b2⟩
      · exact ⟨a1, a2⟩

theorem goStr_plus : goStr "+" = [0x2B] := by decide
theorem goStr_minus : goStr "-" = [0x2D] := by decide
theorem goStr_star : goStr "*" = [0x2A] := by decide
theorem goStr_slash : goStr "/" = [0x2F] := by decide
theorem goStr_caret : goStr "^" = [0x5E] := by decide
theorem goStr_sqrt : goStr "√" = [0xE2, 0x88, 0x9A] := by decide
theorem goStr_lparen : goStr "(" = [0x28] := by decide
theorem goStr_rparen : goStr ")" = [0x29] := by decide

theorem parseFloat_operator (b : Byte) (h : b ∈ goStr "+-*/^") : parseFloat [b] = none := by
  revert b; decide!

theorem evalLoop_number (arch : Arch) (x : GoString) (X : Float64) (h : parseFloat x = some X)
    (rpn : List GoString) (stack : List Float64) :
    evalLoop arch (x :: rpn) stack = evalLoop arch rpn (X :: stack) := by
  simp [evalLoop, evalStep, h]

theorem evalLoop_operator (arch : Arch) (t : GoString) (h : parseFloat t = none)
    (rpn : List GoString) (a b : Float64) (stack : List Float64) :
    evalLoop arch (t :: rpn) (b :: a :: stack) =
      match applyOperator arch t a b stack with
      | .ok stack => evalLoop arch rpn stack
      | .error err => .error err := by
  rw [evalLoop, evalStep, h]

theorem evalLoop_append (arch : Arch) (pre post : List GoString) :
    ∀ stack, evalLoop arch (pre ++ post) stack =
      match evalLoop arch pre stack with
      | .ok stack => evalLoop arch post stack
      | .error err => .error err := by
  induction pre with
  | nil => intro stack; simp [evalLoop]
  | cons t pre ih =>
    intro stack
    simp only [List.cons_append, evalLoop]
    cases evalStep arch stack t with
    | ok st => simp [ih]
    | error e => simp

theorem isNumberByte_eq (table : List (Nat × Nat)) (b : Byte) :
    isNumberByte b = (unicodeIsDigit table (runeOfByte b) || runeOfByte b == '.'.toNat) := by
  have h : runeOfByte b ≤ 0xFF := Nat.le_of_lt_succ b.isLt
  unfold isNumberByte unicodeIsDigit
  rw [if_pos h]

theorem invalidRune_latin1 (arch other : Arch) (r : Nat) (h : r ≤ 0xFF) :
    invalidRune arch r = invalidRune other r := by
  unfold invalidRune unicodeIsDigit
  rw [if_pos h, if_pos h]

theorem invalidRune_sqrt (arch : Arch) : invalidRune arch 0x221A = false := by
  unfold invalidRune
  have h : containsRune "+-*/().^√" 0x221A = true := by decide
  rw [h]
  simp

theorem isAllowedChar_of_digit (arch : Arch) (r : Nat)
    (h : unicodeIsDigit arch.digitTable r = true) :
    isAllowedChar arch r = true ∧ invalidRune arch r = false := by
  unfold isAllowedChar invalidRune
  rw [h]
  exact ⟨rfl, rfl⟩

theorem number_byte_plain (b : Byte) (h : isAsciiDigitOrDot b = true) :
    b.val < 0x80 ∧ invalidRune amd64 b.val = false ∧ b ≠ 0x20 ∧ b ≠ 0x28 := by
  revert b; decide!

theorem decodeRune_ascii (b : Byte) (rest : GoString) (hb : b.val < 0x80) :
    decodeRune (b :: rest) = (b.val, 1) := by
  simp [decodeRune, hb]

theorem decodeRunes_ascii (s : GoString) (h : ∀ b ∈ s, b.val < 0x80) :
    decodeRunes s = s.map (fun b => b.val) := by
  unfold decodeRunes
  induction s with
  | nil => rfl
  | cons b s ih =>
    have hb := h b (List.mem_cons_self _ _)
    rw [decodeRunesFrom, decodeRune_ascii b s hb]
    show b.val :: decodeRunesFrom 0 s = _
    rw [ih (fun c hc => h c (List.mem_cons_of_mem _ hc))]
    rfl

theorem removeByte_of_not_mem (c : Byte) (s : GoString) (h : ∀ b ∈ s, b ≠ c) :
    removeByte c s = s := by
  unfold removeByte
  rw [List.filter_eq_self]
  intro b hb
  simpa using h b hb

theorem evaluateExpression_plain (arch : Arch) (e : GoString) (h : ∀ b ∈ e, plainByte b) :
    evaluateExpression arch e =
      match calculate arch e with
      | (_, some err) => (goStr "Ошибка", err)
      | (result, none) => (sprintf2 result, sprintf2 (calculate arch (removeByte 0x28 e)).1) := by
  have h1 : removeByte 0x20 e = e := removeByte_of_not_mem _ _ (fun b hb => (h b hb).2.2)
  have h2 : (decodeRunes e).any (invalidRune arch) = false := by
    rw [decodeRunes_ascii e (fun b hb => (h b hb).1)]
    simp only [List.any_eq_false, List.mem_map]
    rintro r ⟨b, hb, rfl⟩
    rw [invalidRune_latin1 arch amd64 b.val (by have := (h b hb).1; omega)]
    simpa using (h b hb).2.1
  unfold evaluateExpression
  simp only [h1, h2]
  rfl

theorem NumberRun.plain {x : GoString} (hx : NumberRun x) : ∀ b ∈ x, plainByte b := by
  intro b hb
  obtain ⟨h1, h2, h3, _⟩ := number_byte_plain b (hx.2 b hb)
  exact ⟨h1, h2, h3⟩

theorem plain_append {x y : GoString} (hx : ∀ b ∈ x, plainByte b) (hy : ∀ b ∈ y, plainByte b) :
    ∀ b ∈ x ++ y, plainByte b := by
  intro b hb
  rcases List.mem_append.mp hb with h | h
  · exact hx b h
  · exact hy b h

theorem plain_symbols : ∀ b ∈ goStr "+-*/()^.", plainByte b := by
  unfold plainByte; decide!

theorem scan_lparen (rest num : GoString) (out ops : List GoString) :
    scan (0x28 :: rest) num out ops = scan rest [] (flushNumber num out) ([0x28] :: ops) := by
  rw [scan]
  rfl

theorem scan_rparen (rest num : GoString) (out ops : List GoString) :
    scan (0x29 :: rest) num out ops =
      match popUntilParen (flushNumber num out) ops with
      | (_, []) => ([], some errUnbalanced)
      | (output, _ :: operators) => scan rest [] output operators := by
  rw [scan]
  rfl

theorem precedence_values :
    precedence (goStr "+") = 1 ∧ precedence (goStr "-") = 1 ∧ precedence (goStr "*") = 2 ∧
    precedence (goStr "/") = 2 ∧ precedence (goStr "^") = 3 ∧ precedence (goStr "√") = 3 := by
  decide

theorem calculate_add_mul (arch : Arch) (x y z : GoString) (X Y Z : Float64)
    (hx : NumberRun x) (hy : NumberRun y) (hz : NumberRun z)
    (hX : parseFloat x = some X) (hY : parseFloat y = some Y) (hZ : parseFloat z = some Z) :
    calculate arch (x ++ goStr "+" ++ y ++ goStr "*" ++ z) =
      (Float64.add X (Float64.mul Y Z), none) := by
  have hs := shuntingYard_two_operators 0x2B 0x2A x y z (by decide) (by decide) hx hy hz
  have hp : ¬ (precedence [(0x2B : Byte)] ≥ precedence [(0x2A : Byte)]) := by decide
  rw [if_neg hp] at hs
  have p1 : parseFloat [(0x2A : Byte)] = none := by decide
  have p2 : parseFloat [(0x2B : Byte)] = none := by decide
  unfold calculate
  rw [goStr_plus, goStr_star, hs]
  simp only [evalRPN]
  rw [evalLoop_number arch x X hX, evalLoop_number arch y Y hY, evalLoop_number arch z Z hZ,
    evalLoop_operator arch _ p1]
  have a1 : applyOperator arch [(0x2A : Byte)] Y Z [X] = .ok [Float64.mul Y Z, X] := by
    simp [applyOperator, goStr_plus, goStr_minus, goStr_star]
  rw [a1]
  simp only []
  rw [evalLoop_operator arch _ p2]
  have a2 : applyOperator arch [(0x2B : Byte)] X (Float64.mul Y Z) [] =
      .ok [Float64.add X (Float64.mul Y Z)] := by
    simp [applyOperator, goStr_plus]
  rw [a2]
  simp [evalLoop]

theorem precedence_bytes :
    precedence [(0x2B : Byte)] = 1 ∧ precedence [(0x2D : Byte)] = 1 ∧
    precedence [(0x2A : Byte)] = 2 ∧ precedence [(0x2F : Byte)] = 2 ∧
    precedence [(0x5E : Byte)] = 3 ∧ precedence [(0x28 : Byte)] = 0 := by
  decide

theorem shuntingYard_paren_sum_times (x y z : GoString)
    (hx : NumberRun x) (hy : NumberRun y) (hz : NumberRun z) :
    shuntingYard (goStr "(" ++ x ++ goStr "+" ++ y ++ goStr ")*" ++ z) =
      ([x, y, [0x2B], z, [0x2A]], none) := by
  have e : goStr "(" ++ x ++ goStr "+" ++ y ++ goStr ")*" ++ z =
      0x28 :: (x ++ (0x2B :: (y ++ (0x29 :: 0x2A :: (z ++ []))))) := by
    have e1 : goStr ")*" = [0x29, 0x2A] := by decide
    rw [goStr_lparen, goStr_plus, e1]
    simp
  obtain ⟨p1, _, p3, _, _, p6⟩ := precedence_bytes
  unfold shuntingYard
  rw [e, scan_lparen, scan_number x hx.2, scan_operator 0x2B (by decide), scan_number y hy.2,
    scan_rparen]
  have q1 : popWhileGe (precedence [(0x2B : Byte)]) (flushNumber ([] ++ x) (flushNumber [] []))
      [[(0x28 : Byte)]] = ([x], [[(0x28 : Byte)]]) := by
    simp [popWhileGe, flushNumber, hx.1, p1, p6]
  rw [q1]
  have q2 : popUntilParen (flushNumber ([] ++ y) [x]) [[(0x2B : Byte)], [(0x28 : Byte)]] =
      ([x, y, [0x2B]], [[(0x28 : Byte)]]) := by
    simp [popUntilParen, flushNumber, hy.1, goStr_lparen]
  simp only [q2]
  rw [scan_operator 0x2A (by decide), scan_number z hz.2]
  simp [scan, flushNumber, popWhileGe, hz.1, drain, goStr_lparen, goStr_rparen]

theorem evalRPN_sum_times (arch : Arch) (x y z : GoString) (X Y Z : Float64)
    (hX : parseFloat x = some X) (hY : parseFloat y = some Y) (hZ : parseFloat z = some Z) :
    evalRPN arch [x, y, [0x2B], z, [0x2A]] = (Float64.mul (Float64.add X Y) Z, none) := by
  have p1 : parseFloat [(0x2A : Byte)] = none := by decide
  have p2 : parseFloat [(0x2B : Byte)] = none := by decide
  have a1 : applyOperator arch [(0x2B : Byte)] X Y [] = .ok [Float64.add X Y] := by
    simp [applyOperator, goStr_plus]
  have a2 : applyOperator arch [(0x2A : Byte)] (Float64.add X Y) Z [] =
      .ok [Float64.mul (Float64.add X Y) Z] := by
    simp [applyOperator, goStr_plus, goStr_minus, goStr_star]
  unfold evalRPN
  rw [evalLoop_number arch x X hX, evalLoop_number arch y Y hY, evalLoop_operator arch _ p2, a1]
  simp only []
  rw [evalLoop_number arch z Z hZ, evalLoop_operator arch _ p1, a2]
  simp [evalLoop]

theorem calculate_paren_sum_times (arch : Arch) (x y z : GoString) (X Y Z : Float64)
    (hx : NumberRun x) (hy : NumberRun y) (hz : NumberRun z)
    (hX : parseFloat x = some X) (hY : parseFloat y = some Y) (hZ : parseFloat z = some Z) :
    calculate arch (goStr "(" ++ x ++ goStr "+" ++ y ++ goStr ")*" ++ z) =
      (Float64.mul (Float64.add X Y) Z, none) := by
  unfold calculate
  rw [shuntingYard_paren_sum_times x y z hx hy hz]
  simp only [evalRPN_sum_times arch x y z X Y Z hX hY hZ]

theorem shuntingYard_one_operator (op : Byte) (x y : GoString) (h : op ∈ goStr "+-*/^")
    (hx : NumberRun x) (hy : NumberRun y) :
    shuntingYard (x ++ [op] ++ y) = ([x, y, [op]], none) := by
  obtain ⟨_, _, _, a1, a2⟩ := operator_byte op h
  have e : x ++ [op] ++ y = x ++ (op :: (y ++ [])) := by simp
  unfold shuntingYard
  rw [e, scan_number x hx.2, scan_operator op h, scan_number y hy.2]
  simp [scan, flushNumber, popWhileGe, hx.1, hy.1, drain, a1, a2]

theorem shuntingYard_caret_minus (x y : GoString) (hx : NumberRun x) (hy : NumberRun y) :
    shuntingYard (x ++ goStr "^-" ++ y) = ([x, [0x5E], y, [0x2D]], none) := by
  have e : x ++ goStr "^-" ++ y = x ++ (0x5E :: 0x2D :: (y ++ [])) := by
    have e1 : goStr "^-" = [0x5E, 0x2D] := by decide
    rw [e1]; simp
  obtain ⟨_, p2, _, _, p5, _⟩ := precedence_bytes
  unfold shuntingYard
  rw [e, scan_number x hx.2, scan_operator 0x5E (by decide), scan_operator 0x2D (by decide),
    scan_number y hy.2]
  simp [scan, flushNumber, popWhileGe, hx.1, hy.1, drain, p2, p5, goStr_lparen, goStr_rparen]

theorem evalRPN_caret_minus (arch : Arch) (x y : GoString) :
    evalRPN arch [x, [0x5E], y, [0x2D]] = (Float64.zero, some errInsufficient) := by
  have p1 : parseFloat [(0x5E : Byte)] = none := by decide
  unfold evalRPN
  cases hX : parseFloat x with
  | none => simp [evalLoop, evalStep, hX]
  | some X => simp [evalLoop, evalStep, hX, p1]

theorem caret_minus_insufficient (arch : Arch) (x y : GoString)
    (hx : NumberRun x) (hy : NumberRun y) :
    evaluateExpression arch (x ++ goStr "^-" ++ y) = (goStr "Ошибка", errInsufficient) := by
  have hp : ∀ b ∈ x ++ goStr "^-" ++ y, plainByte b :=
    plain_append (plain_append hx.plain (by unfold plainByte; decide!)) hy.plain
  rw [evaluateExpression_plain arch _ hp]
  unfold calculate
  rw [shuntingYard_caret_minus x y hx hy]
  simp only [evalRPN_caret_minus]

theorem powLoop_eq_iterate (a : Float64) (n : Nat) :
    ∀ r, powLoop a n r = (fun r => Float64.mul r a)^[n] r := by
  induction n with
  | zero => intro r; rfl
  | succ n ih => intro r; rw [powLoop, ih, Function.iterate_succ_apply]

theorem intOfFloat_of_fits (arch : Arch) (b : Float64) (n : Int) (hn : truncate b = some n)
    (hf : fitsInt arch n = true) : intOfFloat arch b = n := by
  simp [intOfFloat, hn, hf]

theorem calculate_one_operator (arch : Arch) (op : Byte) (x y : GoString) (X Y : Float64)
    (h : op ∈ goStr "+-*/^") (hx : NumberRun x) (hy : NumberRun y)
    (hX : parseFloat x = some X) (hY : parseFloat y = some Y) :
    calculate arch (x ++ [op] ++ y) =
      match applyOperator arch [op] X Y [] with
      | .ok [v] => (v, none)
      | .ok _ => (Float64.zero, some errMismatch)
      | .error err => (Float64.zero, some err) := by
  unfold calculate
  rw [shuntingYard_one_operator op x y h hx hy]
  simp only [evalRPN]
  rw [evalLoop_number arch x X hX, evalLoop_number arch y Y hY,
    evalLoop_operator arch _ (parseFloat_operator op h)]
  cases applyOperator arch [op] X Y [] with
  | error e => rfl
  | ok st =>
    simp only [evalLoop]
    match st with
    | [] => rfl
    | [v] => rfl
    | _ :: _ :: _ => rfl

theorem calculate_pow (arch : Arch) (x y : GoString) (X Y : Float64)
    (hx : NumberRun x) (hy : NumberRun y)
    (hX : parseFloat x = some X) (hY : parseFloat y = some Y) :
    calculate arch (x ++ goStr "^" ++ y) = (pow arch X Y, none) := by
  rw [goStr_caret, calculate_one_operator arch 0x5E x y X Y (by decide) hx hy hX hY]
  simp [applyOperator, goStr_plus, goStr_minus, goStr_star, goStr_slash, goStr_caret]

theorem calculate_div_zero (arch : Arch) (x z : GoString) (X Z : Float64)
    (hx : NumberRun x) (hz : NumberRun z)
    (hX : parseFloat x = some X) (hZ : parseFloat z = some Z) (h0 : Float64.isZero Z = true) :
    calculate arch (x ++ goStr "/" ++ z) = (Float64.zero, some errDivZero) := by
  rw [goStr_slash, calculate_one_operator arch 0x2F x z X Z (by decide) hx hz hX hZ]
  simp [applyOperator, goStr_plus, goStr_minus, goStr_star, goStr_slash, h0]

theorem evaluate_div_zero (arch : Arch) (x z : GoString) (X Z : Float64)
    (hx : NumberRun x) (hz : NumberRun z)
    (hX : parseFloat x = some X) (hZ : parseFloat z = some Z) (h0 : Float64.isZero Z = true) :
    evaluateExpression arch (x ++ goStr "/" ++ z) = (goStr "Ошибка", errDivZero) := by
  have hp : ∀ b ∈ x ++ goStr "/" ++ z, plainByte b :=
    plain_append (plain_append hx.plain (by unfold plainByte; decide!)) hz.plain
  rw [evaluateExpression_plain arch _ hp, calculate_div_zero arch x z X Z hx hz hX hZ h0]

theorem evalRPN_div_zero (arch : Arch) (pre post : List GoString) (a b : Float64)
    (stack : List Float64) (hpre : evalLoop arch pre [] = .ok (b :: a :: stack))
    (h0 : Float64.isZero b = true) :
    evalRPN arch (pre ++ goStr "/" :: post) = (Float64.zero, some errDivZero) := by
  have p : parseFloat (goStr "/") = none := by decide
  unfold evalRPN
  rw [evalLoop_append, hpre]
  simp only []
  rw [evalLoop_operator arch _ p]
  simp [applyOperator, goStr_plus, goStr_minus, goStr_star, goStr_slash, h0]

theorem containsRune_validator (r : Nat) :
    containsRune "+-*/().^√" r =
      ((0x2B == r) || ((0x2D == r) || ((0x2A == r) || ((0x2F == r) || ((0x28 == r) ||
        ((0x29 == r) || ((0x2E == r) || ((0x5E == r) || ((0x221A == r) || false))))))))) := by
  rfl

theorem invalidRune_eq (arch : Arch) (r : Nat) : invalidRune arch r = !isAllowedChar arch r := by
  unfold invalidRune isAllowedChar
  rw [containsRune_validator]
  have e : ∀ k : Nat, (k == r) = (r == k) := fun k => by
    by_cases h : k = r
    · subst h; rfl
    · have h1 : (k == r) = false := beq_false_of_ne h
      have h2 : (r == k) = false := beq_false_of_ne (Ne.symm h)
      rw [h1, h2]
  rw [e 0x2B, e 0x2D, e 0x2A, e 0x2F, e 0x28, e 0x29, e 0x2E, e 0x5E, e 0x221A]
  cases unicodeIsDigit arch.digitTable r <;> cases (r == 0x2B) <;> cases (r == 0x2D) <;> cases (r == 0x2A) <;>
    cases (r == 0x2F) <;> cases (r == 0x28) <;> cases (r == 0x29) <;> cases (r == 0x2E) <;>
    cases (r == 0x5E) <;> cases (r == 0x221A) <;> rfl

theorem applyOperator_error (arch : Arch) (token : GoString) (a b : Float64)
    (stack : List Float64) (err : GoError)
    (h : applyOperator arch token a b stack = .error err) : IsCalcError err := by
  unfold applyOperator at h
  split_ifs at h <;> cases h
  · exact Or.inr (Or.inr (Or.inl rfl))
  · exact Or.inr (Or.inr (Or.inr (Or.inl rfl)))
  · exact Or.inr (Or.inr (Or.inr (Or.inr (Or.inr ⟨_, rfl⟩))))

theorem evalLoop_error (arch : Arch) (rpn : List GoString) :
    ∀ stack err, evalLoop arch rpn stack = .error err → IsCalcError err := by
  induction rpn with
  | nil => intro stack err h; simp [evalLoop] at h
  | cons t rpn ih =>
    intro stack err h
    rw [evalLoop] at h
    cases hs : evalStep arch stack t with
    | ok st =>
      rw [hs] at h
      exact ih st err h
    | error e =>
      rw [hs] at h
      injection h with h
      subst h
      unfold evalStep at hs
      split at hs
      · cases hs
      · split at hs
        · exact applyOperator_error arch _ _ _ _ _ hs
        · injection hs with hs
          subst hs
          simp [IsCalcError]

theorem evalRPN_error (arch : Arch) (rpn : List GoString) (err : GoError)
    (h : (evalRPN arch rpn).2 = some err) : IsCalcError err := by
  unfold evalRPN at h
  split at h
  · next e he =>
    simp at h
    subst h
    exact evalLoop_error arch rpn [] _ he
  · simp at h
  · simp at h
    subst h
    simp [IsCalcError]

theorem evalRPN_fst_of_error (arch : Arch) (rpn : List GoString)
    (h : (evalRPN arch rpn).2 ≠ none) : (evalRPN arch rpn).1 = Float64.zero := by
  unfold evalRPN at h ⊢
  split <;> simp_all

theorem shuntingYard_error (expr : GoString) (h : (shuntingYard expr).2 ≠ none) :
    shuntingYard expr = ([], some errUnbalanced) :=
  (scan_spec expr [] [] [] (by simp)).2 h

theorem calculate_error (arch : Arch) (expr : GoString) (err : GoError)
    (h : (calculate arch expr).2 = some err) : IsCalcError err := by
  unfold calculate at h
  by_cases hs : (shuntingYard expr).2 = none
  · have e : shuntingYard expr = ((shuntingYard expr).1, none) := by
      rw [← hs]
    rw [e] at h
    simp only [] at h
    cases hr : (evalRPN arch (shuntingYard expr).1).2 with
    | none =>
      have e2 : evalRPN arch (shuntingYard expr).1 =
          ((evalRPN arch (shuntingYard expr).1).1, none) := by rw [← hr]
      rw [e2] at h
      simp at h
    | some e' =>
      have e2 : evalRPN arch (shuntingYard expr).1 =
          ((evalRPN arch (shuntingYard expr).1).1, some e') := by rw [← hr]
      rw [e2] at h
      simp at h
      subst h
      exact evalRPN_error arch _ _ hr
  · rw [shuntingYard_error expr hs] at h
    simp at h
    subst h
    simp [IsCalcError]

theorem calculate_fst_of_error (arch : Arch) (expr : GoString)
    (h : (calculate arch expr).2 ≠ none) : (calculate arch expr).1 = Float64.zero := by
  unfold calculate at h ⊢
  split
  · rfl
  · split
    · rfl
    · next hh => simp_all

theorem isCalcError_ne_invalid (err : GoError) (h : IsCalcError err) :
    err ≠ goStr "Некорректное выражение" := by
  rcases h with rfl | rfl | rfl | rfl | rfl | ⟨t, rfl⟩
  · decide
  · decide
  · decide
  · decide
  · decide
  · intro hc
    have h2 := congrArg (fun l => l.take 2) hc
    have e1 : goStr "неизвестный оператор: " =
        0xD0 :: 0xBD :: (goStr "неизвестный оператор: ").drop 2 := by decide
    have e2 : List.take 2 (goStr "Некорректное выражение") = [0xD0, 0x9D] := by decide
    simp only [errUnknownOperator] at h2
    rw [e2, e1] at h2
    simp at h2

theorem sprintf2_ne_marker (v : Float64) : sprintf2 v ≠ goStr "Ошибка" := by
  have e : (goStr "Ошибка").getLast? = some 0xB0 := by decide
  intro hc
  have h2 := congrArg List.getLast? hc
  rw [e] at h2
  cases v with
  | nan => exact absurd h2 (by decide)
  | inf s => cases s <;> exact absurd h2 (by decide)
  | fin s m e =>
    simp only [sprintf2] at h2
    rw [List.getLast?_append_of_ne_nil _ (by simp)] at h2
    simp only [List.getLast?_cons_cons, List.getLast?_singleton, Option.some.injEq] at h2
    have h3 := congrArg Fin.val h2
    have h4 : ∀ k : Nat, (Fin.ofNat k : Byte).val = k % 256 := fun k => rfl
    rw [h4] at h3
    simp at h3
    omega

theorem evaluate_invalid_iff (arch : Arch) (e : GoString) :
    evaluateExpression arch e = (goStr "Ошибка", goStr "Некорректное выражение") ↔
      ∃ r ∈ decodeRunes (removeByte 0x20 e), isAllowedChar arch r = false := by
  have hv : (decodeRunes (removeByte 0x20 e)).any (invalidRune arch) = true ↔
      ∃ r ∈ decodeRunes (removeByte 0x20 e), isAllowedChar arch r = false := by
    simp [List.any_eq_true, invalidRune_eq]
  rw [← hv]
  unfold evaluateExpression
  by_cases h : (decodeRunes (removeByte 0x20 e)).any (invalidRune arch) = true
  · simp [h]
  · simp only [h, if_false, iff_false, Bool.false_eq_true]
    cases hc : (calculate arch (removeByte 0x20 e)).2 with
    | none =>
      have e2 : calculate arch (removeByte 0x20 e) =
          ((calculate arch (removeByte 0x20 e)).1, none) := by rw [← hc]
      rw [e2]
      simp only []
      intro heq
      exact sprintf2_ne_marker _ (congrArg Prod.fst heq)
    | some err =>
      have e2 : calculate arch (removeByte 0x20 e) =
          ((calculate arch (removeByte 0x20 e)).1, some err) := by rw [← hc]
      rw [e2]
      simp only []
      intro heq
      exact isCalcError_ne_invalid err (calculate_error arch _ err hc) (congrArg Prod.snd heq)

theorem evaluate_intermediate_of_failed_second_run (arch : Arch) (e : GoString)
    (h1 : (decodeRunes (removeByte 0x20 e)).any (invalidRune arch) = false)
    (h2 : (calculate arch (removeByte 0x20 e)).2 = none)
    (h3 : (calculate arch (removeByte 0x28 (removeByte 0x20 e))).2 ≠ none) :
    evaluateExpression arch e =
      (sprintf2 (calculate arch (removeByte 0x20 e)).1, goStr "0.00") := by
  have e2 : calculate arch (removeByte 0x20 e) =
      ((calculate arch (removeByte 0x20 e)).1, none) := by rw [← h2]
  have z : sprintf2 Float64.zero = goStr "0.00" := by decide
  unfold evaluateExpression
  simp only [h1, if_false, Bool.false_eq_true]
  rw [e2]
  simp only []
  rw [calculate_fst_of_error arch _ h3, z]

theorem readMantissa_zeros (z : GoString) (hz : ZeroLiteral z) :
    ∀ sawdot sawdigits dp,
      (readMantissa 10 z sawdot sawdigits 0 dp 0 false).2.2.1 = 0 ∧
      (readMantissa 10 z sawdot sawdigits 0 dp 0 false).2.2.2.2.1 = 0 ∧
      (readMantissa 10 z sawdot sawdigits 0 dp 0 false).2.2.2.2.2.1 = false ∧
      ((readMantissa 10 z sawdot sawdigits 0 dp 0 false).2.2.2.2.2.2 = [] ∨
        ∃ t, (readMantissa 10 z sawdot sawdigits 0 dp 0 false).2.2.2.2.2.2 = 0x2E :: t) := by
  induction z with
  | nil => intro sawdot sawdigits dp; simp [readMantissa]
  | cons b z ih =>
    intro sawdot sawdigits dp
    have hz' : ZeroLiteral z := fun c hc => hz c (List.mem_cons_of_mem _ hc)
    rcases hz b (List.mem_cons_self _ _) with rfl | rfl
    · have e : readMantissa 10 (0x30 :: z) sawdot sawdigits 0 dp 0 false =
          readMantissa 10 z sawdot true 0 (dp - 1) 0 false := by
        rw [readMantissa]; rfl
      rw [e]
      exact ih hz' _ _ _
    · cases sawdot with
      | true =>
        have e : readMantissa 10 (0x2E :: z) true sawdigits 0 dp 0 false =
            (true, sawdigits, 0, dp, 0, false, 0x2E :: z) := by
          rw [readMantissa]; rfl
        rw [e]
        exact ⟨rfl, rfl, rfl, Or.inr ⟨z, rfl⟩⟩
      | false =>
        have e : readMantissa 10 (0x2E :: z) false sawdigits 0 dp 0 false =
            readMantissa 10 z true sawdigits 0 0 0 false := by
          rw [readMantissa]; rfl
        rw [e]
        exact ih hz' _ _ _

theorem parseFloat_zero_literal (z : GoString) (hz : ZeroLiteral z) (Z : Float64)
    (hZ : parseFloat z = some Z) : Float64.isZero Z = true := by
  cases z with
  | nil => cases hZ
  | cons b t =>
    have hb := hz b (List.mem_cons_self _ _)
    have hsp : special (b :: t) = none := by
      rcases hb with rfl | rfl <;> rfl
    have hsign : readSign (b :: t) = (false, b :: t) := by
      rcases hb with rfl | rfl <;> rfl
    have hhex : hasHexPrefix (b :: t) = false := by
      match t, hz with
      | [], _ => rfl
      | [_], _ => rfl
      | c1 :: _ :: _, hz =>
        have h1 := hz c1 (by simp)
        have h2 : ¬ lower (0x30 : Byte).val = 120 ∧ ¬ lower (0x2E : Byte).val = 120 := by
          decide
        rcases h1 with rfl | rfl <;> simp [hasHexPrefix, h2.1, h2.2]
    obtain ⟨r1, r2, r3, r4⟩ := readMantissa_zeros (b :: t) hz false false 0
    unfold parseFloat at hZ
    rw [hsp] at hZ
    simp only [readFloat, hsign, hhex, if_false, Bool.false_eq_true, readFloatDigits] at hZ
    rw [r1, r2, r3] at hZ
    have key : ∀ dp : Int, readExponentPart (b :: t)
        (readMantissa 10 (b :: t) false false 0 0 0 false).2.2.2.2.2.2 false false 0 0 dp false =
          some Z → Float64.isZero Z = true := by
      intro dp hE
      rcases r4 with r4 | ⟨u, r4⟩
      · rw [r4] at hE
        simp [readExponentPart, finishFloat, floatOfParts] at hE
        rw [← hE]
        rfl
      · rw [r4] at hE
        have hl : ¬ (lower ((0x2E : Byte)).val = 101) := by decide
        simp [readExponentPart, finishFloat, hl] at hE
    split_ifs at hZ with h1
    · exact key _ hZ
    · exact key _ hZ

/-! ## Lemmas on expressions containing the square-root sign -/

theorem decodeRunes_append_ascii (x rest : GoString) (h : ∀ b ∈ x, b.val < 0x80) :
    decodeRunes (x ++ rest) = x.map (fun b => b.val) ++ decodeRunes rest := by
  unfold decodeRunes
  induction x with
  | nil => rfl
  | cons b x ih =>
    have hb := h b (List.mem_cons_self _ _)
    rw [List.cons_append, decodeRunesFrom, decodeRune_ascii b (x ++ rest) hb]
    show b.val :: decodeRunesFrom 0 (x ++ rest) = _
    rw [ih (fun c hc => h c (List.mem_cons_of_mem _ hc))]
    rfl

theorem decodeRunes_sqrt (rest : GoString) :
    decodeRunes (goStr "√" ++ rest) = 0x221A :: decodeRunes rest := by
  rfl

theorem evaluateExpression_valid (arch : Arch) (e : GoString) (h1 : removeByte 0x20 e = e)
    (h2 : (decodeRunes e).any (invalidRune arch) = false) :
    evaluateExpression arch e =
      match calculate arch e with
      | (_, some err) => (goStr "Ошибка", err)
      | (result, none) => (sprintf2 result, sprintf2 (calculate arch (removeByte 0x28 e)).1) := by
  unfold evaluateExpression
  simp only [h1, h2]
  rfl

theorem invalidRune_ascii_false (arch : Arch) (r : Nat) (h : r ≤ 0xFF)
    (hr : invalidRune amd64 r = false) : invalidRune arch r = false := by
  rw [invalidRune_latin1 arch amd64 r h, hr]

theorem evaluate_digits_of_toolchain (arch : Arch)
    (h1 : unicodeIsDigit arch.digitTable 0x10D40 = true)
    (h2 : unicodeIsDigit arch.digitTable 0x11DE0 = true) :
    evaluateExpression arch (encodeRune 0x10D40 ++ goStr "1+2") = (goStr "3.00", goStr "3.00") ∧
    evaluateExpression arch (encodeRune 0x11DE0) = (goStr "Ошибка", goStr "ошибка вычисления") := by
  have d1 : decodeRunes (encodeRune 0x10D40 ++ goStr "1+2") = [0x10D40, 0x31, 0x2B, 0x32] := by
    decide
  have d2 : decodeRunes (encodeRune 0x11DE0) = [0x11DE0] := by decide
  have v1 : (decodeRunes (encodeRune 0x10D40 ++ goStr "1+2")).any (invalidRune arch) = false := by
    rw [d1]
    simp only [List.any_cons, List.any_nil, (isAllowedChar_of_digit arch _ h1).2,
      invalidRune_ascii_false arch 0x31 (by decide) (by decide),
      invalidRune_ascii_false arch 0x2B (by decide) (by decide),
      invalidRune_ascii_false arch 0x32 (by decide) (by decide)]
    rfl
  have v2 : (decodeRunes (encodeRune 0x11DE0)).any (invalidRune arch) = false := by
    rw [d2]
    simp only [List.any_cons, List.any_nil, (isAllowedChar_of_digit arch _ h2).2]
    rfl
  constructor
  · rw [evaluateExpression_valid arch _ (by decide) v1]
    rfl
  · rw [evaluateExpression_valid arch _ (by decide) v2]
    rfl

theorem evaluate_digits_of_toolchain_check :
    evaluateExpression ⟨true, fun _ => 0, [(0x10D40, 0x10D49), (0x11DE0, 0x11DE9)]⟩
        (encodeRune 0x10D40 ++ goStr "1+2") = (goStr "3.00", goStr "3.00") ∧
      evaluateExpression ⟨true, fun _ => 0, [(0x10D40, 0x10D49), (0x11DE0, 0x11DE9)]⟩
        (encodeRune 0x11DE0) = (goStr "Ошибка", goStr "ошибка вычисления") :=
  evaluate_digits_of_toolchain ⟨true, fun _ => 0, [(0x10D40, 0x10D49), (0x11DE0, 0x11DE9)]⟩
    (by decide) (by decide)

theorem scan_sqrt (rest num : GoString) (out ops : List GoString) :
    scan (goStr "√" ++ rest) num out ops = scan rest [] (flushNumber num out) ops := by
  have e : goStr "√" ++ rest = 0xE2 :: 0x88 :: 0x9A :: rest := rfl
  have f : ∀ o : List GoString, flushNumber [] o = o := fun o => rfl
  rw [e, scan, scan, scan]
  simp only [f]
  rfl

theorem numberRun_valid_runes (arch : Arch) (x : GoString) (hx : NumberRun x) :
    (∀ b ∈ x, b.val < 0x80) ∧ (x.map (fun b => b.val)).any (invalidRune arch) = false ∧
      removeByte 0x20 x = x ∧ removeByte 0x28 x = x := by
  refine ⟨fun b hb => (number_byte_plain b (hx.2 b hb)).1, ?_, ?_, ?_⟩
  · simp only [List.any_eq_false, List.mem_map]
    rintro r ⟨b, hb, rfl⟩
    rw [invalidRune_latin1 arch amd64 b.val
      (by have := (number_byte_plain b (hx.2 b hb)).1; omega)]
    simpa using (number_byte_plain b (hx.2 b hb)).2.1
  · exact removeByte_of_not_mem _ _ (fun b hb => (number_byte_plain b (hx.2 b hb)).2.2.1)
  · exact removeByte_of_not_mem _ _ (fun b hb => (number_byte_plain b (hx.2 b hb)).2.2.2)

theorem removeByte_append (c : Byte) (x y : GoString) :
    removeByte c (x ++ y) = removeByte c x ++ removeByte c y := by
  simp [removeByte]

theorem shuntingYard_sqrt_between (x y : GoString) (hx : NumberRun x) (hy : NumberRun y) :
    shuntingYard (x ++ goStr "√" ++ y) = ([x, y], none) := by
  have e : x ++ goStr "√" ++ y = x ++ (goStr "√" ++ (y ++ [])) := by simp
  unfold shuntingYard
  rw [e, scan_number x hx.2, scan_sqrt, scan_number y hy.2]
  simp [scan, flushNumber, hx.1, hy.1, drain]

theorem shuntingYard_sqrt_before (x : GoString) (hx : NumberRun x) :
    shuntingYard (goStr "√" ++ x) = ([x], none) := by
  have e : goStr "√" ++ x = goStr "√" ++ (x ++ []) := by simp
  unfold shuntingYard
  rw [e, scan_sqrt, scan_number x hx.2]
  simp [scan, flushNumber, hx.1, drain]

theorem shuntingYard_sqrt_after (x : GoString) (hx : NumberRun x) :
    shuntingYard (x ++ goStr "√") = ([x], none) := by
  have e : x ++ goStr "√" = x ++ (goStr "√" ++ []) := by simp
  unfold shuntingYard
  rw [e, scan_number x hx.2, scan_sqrt]
  simp [scan, flushNumber, hx.1, drain]

theorem evaluate_sqrt_between (arch : Arch) (x y : GoString) (X Y : Float64)
    (hx : NumberRun x) (hy : NumberRun y)
    (hX : parseFloat x = some X) (hY : parseFloat y = some Y) :
    evaluateExpression arch (x ++ goStr "√" ++ y) = (goStr "Ошибка", goStr "ошибка вычисления") := by
  obtain ⟨ax, vx, sx, _⟩ := numberRun_valid_runes arch x hx
  obtain ⟨ay, vy, sy, _⟩ := numberRun_valid_runes arch y hy
  have h1 : removeByte 0x20 (x ++ goStr "√" ++ y) = x ++ goStr "√" ++ y := by
    rw [removeByte_append, removeByte_append, sx, sy]
    rfl
  have h2 : (decodeRunes (x ++ goStr "√" ++ y)).any (invalidRune arch) = false := by
    rw [List.append_assoc, decodeRunes_append_ascii x _ ax, decodeRunes_sqrt,
      decodeRunes_ascii y ay, List.any_append, vx, List.any_cons, vy, invalidRune_sqrt]
    rfl
  rw [evaluateExpression_valid arch _ h1 h2]
  unfold calculate
  rw [shuntingYard_sqrt_between x y hx hy]
  simp only [evalRPN]
  rw [evalLoop_number arch x X hX, evalLoop_number arch y Y hY]
  rfl

theorem evaluate_sqrt_before (arch : Arch) (x : GoString) (X : Float64)
    (hx : NumberRun x) (hX : parseFloat x = some X) :
    evaluateExpression arch (goStr "√" ++ x) = (sprintf2 X, sprintf2 X) := by
  obtain ⟨ax, vx, sx, px⟩ := numberRun_valid_runes arch x hx
  have h1 : removeByte 0x20 (goStr "√" ++ x) = goStr "√" ++ x := by
    rw [removeByte_append, sx]
    rfl
  have h3 : removeByte 0x28 (goStr "√" ++ x) = goStr "√" ++ x := by
    rw [removeByte_append, px]
    rfl
  have h2 : (decodeRunes (goStr "√" ++ x)).any (invalidRune arch) = false := by
    rw [decodeRunes_sqrt, decodeRunes_ascii x ax, List.any_cons, vx, invalidRune_sqrt]
    rfl
  have hc : calculate arch (goStr "√" ++ x) = (X, none) := by
    unfold calculate
    rw [shuntingYard_sqrt_before x hx]
    simp only [evalRPN]
    rw [evalLoop_number arch x X hX]
    rfl
  rw [evaluateExpression_valid arch _ h1 h2, h3, hc]

theorem evaluate_sqrt_after (arch : Arch) (x : GoString) (X : Float64)
    (hx : NumberRun x) (hX : parseFloat x = some X) :
    evaluateExpression arch (x ++ goStr "√") = (sprintf2 X, sprintf2 X) := by
  obtain ⟨ax, vx, sx, px⟩ := numberRun_valid_runes arch x hx
  have h1 : removeByte 0x20 (x ++ goStr "√") = x ++ goStr "√" := by
    rw [removeByte_append, sx]
    rfl
  have h3 : removeByte 0x28 (x ++ goStr "√") = x ++ goStr "√" := by
    rw [removeByte_append, px]
    rfl
  have h2 : (decodeRunes (x ++ goStr "√")).any (invalidRune arch) = false := by
    have hd : decodeRunes (goStr "√") = [0x221A] := by decide
    rw [decodeRunes_append_ascii x _ ax, List.any_append, vx, hd, List.any_cons,
      invalidRune_sqrt]
    rfl
  have hc : calculate arch (x ++ goStr "√") = (X, none) := by
    unfold calculate
    rw [shuntingYard_sqrt_after x hx]
    simp only [evalRPN]
    rw [evalLoop_number arch x X hX]
    rfl
  rw [evaluateExpression_valid arch _ h1 h2, h3, hc]

/-! ## The properties of the specification -/

theorem unbalanced_of_open (x y : GoString) (hy : (0x29 : Byte) ∉ y) :
    Unbalanced (x ++ goStr "(" ++ y) := by
  rw [goStr_lparen]
  by_cases h : ∃ p, p <+: x ∧ p.count 0x28 < p.count 0x29
  · obtain ⟨p, hp, hlt⟩ := h
    left
    refine ⟨p, ?_, hlt⟩
    rw [List.append_assoc]
    exact hp.trans (List.prefix_append _ _)
  · right
    have hx : ¬ (x.count 0x28 < x.count 0x29) := fun hlt => h ⟨x, List.prefix_refl _, hlt⟩
    have h0 : y.count 0x29 = 0 := List.count_eq_zero.mpr hy
    simp only [List.count_append, h0]
    have h1 : List.count (0x29 : Byte) [0x28] = 0 := by decide
    have h2 : List.count (0x28 : Byte) [0x28] = 1 := by decide
    rw [h1, h2]
    omega

theorem shuntingYard_fails_iff (expr : GoString) :
    (shuntingYard expr).2 ≠ none ↔ Unbalanced expr := by
  rw [← parenFail_zero_iff]
  exact (scan_spec expr [] [] [] (by simp)).1

/-- Claim C1 fails on "(1)": the input has the shape `x ++ "(" ++ y`, with `x` empty
and `y = "1)"`, its parentheses are balanced and the converter succeeds with `[1]`. -/
theorem open_paren_counterexample :
    goStr "(1)" = goStr "" ++ goStr "(" ++ goStr "1)" ∧
    shuntingYard (goStr "" ++ goStr "(" ++ goStr "1)") = ([goStr "1"], none) ∧
    ¬ Unbalanced (goStr "" ++ goStr "(" ++ goStr "1)") :=
  ⟨by decide, by decide, fun hu => (shuntingYard_fails_iff _).mpr hu (by decide)⟩

/-- Claim C1, amended: `shuntingYard` fails exactly when the parentheses of the input
are not balanced (some prefix has more `)` than `(`, or the input has more `(` than
`)`), and then returns the error "непарные скобки"; an input `x ++ "(" ++ y` in which
`y` contains no `)` fails, as does "5+(3"; consecutive operators, malformed numbers
and missing operands do not make the converter fail. -/
theorem shuntingYard_fails_iff_unbalanced :
    (∀ expr : GoString,
      ((shuntingYard expr).2 ≠ none ↔ Unbalanced expr) ∧
      ((shuntingYard expr).2 ≠ none → shuntingYard expr = ([], some errUnbalanced))) ∧
    (∀ x y : GoString, (0x29 : Byte) ∉ y →
      shuntingYard (x ++ goStr "(" ++ y) = ([], some (goStr "непарные скобки"))) ∧
    shuntingYard (goStr "5+(3") = ([], some (goStr "непарные скобки")) ∧
    shuntingYard (goStr "1+*2") = ([goStr "1", goStr "2", goStr "*", goStr "+"], none) ∧
    shuntingYard (goStr "1.2.3+") = ([goStr "1.2.3", goStr "+"], none) := by
  refine ⟨fun expr => ⟨shuntingYard_fails_iff expr, shuntingYard_error expr⟩, ?_, ?_, ?_, ?_⟩
  · intro x y hy
    exact shuntingYard_error _ ((shuntingYard_fails_iff _).mpr (unbalanced_of_open x y hy))
  · decide
  · decide
  · decide

theorem shuntingYard_fails_iff_unbalanced_witness :
    (0x29 : Byte) ∉ goStr "3" ∧
    shuntingYard (goStr "5+" ++ goStr "(" ++ goStr "3") = ([], some (goStr "непарные скобки")) ∧
    Unbalanced (goStr "2)") :=
  ⟨by decide, shuntingYard_fails_iff_unbalanced.2.1 (goStr "5+") (goStr "3") (by decide),
    ((shuntingYard_fails_iff_unbalanced.1 (goStr "2)")).1).mp (by decide)⟩

/-- Claim C2: for operators `op1`, `op2` among `+ - * / ^` and numeric literals `x`,
`y`, `z`, `shuntingYard (x op1 y op2 z)` is `[x, y, op1, z, op2]` when
`precedence op1 ≥ precedence op2` and `[x, y, z, op2, op1]` otherwise; the precedence
is 1 for `+ -`, 2 for `* /`, 3 for `^ √`; "2^3^2" gives `[2, 3, ^, 2, ^]` and "2+3*4"
gives `[2, 3, 4, *, +]`. -/
theorem shuntingYard_precedence_order :
    (∀ (op1 op2 : Byte) (x y z : GoString),
      op1 ∈ goStr "+-*/^" → op2 ∈ goStr "+-*/^" → NumberRun x → NumberRun y → NumberRun z →
      shuntingYard (x ++ [op1] ++ y ++ [op2] ++ z) =
        (if precedence [op1] ≥ precedence [op2] then [x, y, [op1], z, [op2]]
          else [x, y, z, [op2], [op1]], none)) ∧
    (precedence (goStr "+") = 1 ∧ precedence (goStr "-") = 1 ∧ precedence (goStr "*") = 2 ∧
      precedence (goStr "/") = 2 ∧ precedence (goStr "^") = 3 ∧ precedence (goStr "√") = 3) ∧
    shuntingYard (goStr "2^3^2") =
      ([goStr "2", goStr "3", goStr "^", goStr "2", goStr "^"], none) ∧
    shuntingYard (goStr "2+3*4") =
      ([goStr "2", goStr "3", goStr "4", goStr "*", goStr "+"], none) := by
  refine ⟨fun op1 op2 x y z h1 h2 hx hy hz =>
    shuntingYard_two_operators op1 op2 x y z h1 h2 hx hy hz, precedence_values, ?_, ?_⟩
  · decide
  · decide

theorem numberRun_of_decide (x : GoString) (h1 : x ≠ [])
    (h2 : x.all isAsciiDigitOrDot = true) : NumberRun x :=
  ⟨h1, fun b hb => List.all_eq_true.mp h2 b hb⟩

theorem shuntingYard_precedence_order_witness :
    shuntingYard (goStr "12" ++ [0x2D] ++ goStr "3.5" ++ [0x2F] ++ goStr "7") =
      ([goStr "12", goStr "3.5", goStr "7", goStr "/", goStr "-"], none) :=
  shuntingYard_precedence_order.1 0x2D 0x2F (goStr "12") (goStr "3.5") (goStr "7")
    (by decide) (by decide) (numberRun_of_decide _ (by decide) (by decide))
    (numberRun_of_decide _ (by decide) (by decide)) (numberRun_of_decide _ (by decide) (by decide))

/-- Claim C3: for valid numeric literals `x`, `y`, `z` with values `X`, `Y`, `Z`,
`calculate (x+y*z)` succeeds with `X + (Y * Z)` and `calculate ((x+y)*z)` succeeds
with `(X + Y) * Z`; `evaluateExpression` gives the final results "14.00" for "2+3*4"
and "20.00" for "(2+3)*4". -/
theorem calculate_respects_precedence :
    (∀ (arch : Arch) (x y z : GoString) (X Y Z : Float64),
      NumberRun x → NumberRun y → NumberRun z →
      parseFloat x = some X → parseFloat y = some Y → parseFloat z = some Z →
      calculate arch (x ++ goStr "+" ++ y ++ goStr "*" ++ z) =
          (Float64.add X (Float64.mul Y Z), none) ∧
        calculate arch (goStr "(" ++ x ++ goStr "+" ++ y ++ goStr ")*" ++ z) =
          (Float64.mul (Float64.add X Y) Z, none)) ∧
    (∀ arch : Arch,
      (evaluateExpression arch (goStr "2+3*4")).1 = goStr "14.00" ∧
      (evaluateExpression arch (goStr "(2+3)*4")).1 = goStr "20.00") := by
  refine ⟨fun arch x y z X Y Z hx hy hz hX hY hZ =>
    ⟨calculate_add_mul arch x y z X Y Z hx hy hz hX hY hZ,
      calculate_paren_sum_times arch x y z X Y Z hx hy hz hX hY hZ⟩, ?_⟩
  intro arch
  constructor <;> rfl

theorem calculate_respects_precedence_witness :
    calculate amd64 (goStr "1.5" ++ goStr "+" ++ goStr "2" ++ goStr "*" ++ goStr "10") =
        (Float64.add (.fin false (3 * 2 ^ 51) (-52))
          (Float64.mul (Float64.ofNat 2) (Float64.ofNat 10)), none) ∧
      calculate amd64 (goStr "(" ++ goStr "1.5" ++ goStr "+" ++ goStr "2" ++ goStr ")*" ++
          goStr "10") =
        (Float64.mul (Float64.add (.fin false (3 * 2 ^ 51) (-52)) (Float64.ofNat 2))
          (Float64.ofNat 10), none) :=
  calculate_respects_precedence.1 amd64 (goStr "1.5") (goStr "2") (goStr "10") _ _ _
    (numberRun_of_decide _ (by decide) (by decide)) (numberRun_of_decide _ (by decide) (by decide))
    (numberRun_of_decide _ (by decide) (by decide)) (by decide) (by decide) (by decide)

/-- Claim C4, as the code behaves: the bytes of `√` match no branch of the byte-wise
scan of `shuntingYard`, so for all valid numeric literals `x`, `y` the expression
`x ++ "√" ++ y` is converted to `[x, y]` and `evaluateExpression` returns the error
marker with "ошибка вычисления"; "4√9" does not give "2.00". -/
theorem sqrt_infix_is_dropped :
    (∀ (arch : Arch) (x y : GoString) (X Y : Float64),
      NumberRun x → NumberRun y → parseFloat x = some X → parseFloat y = some Y →
      shuntingYard (x ++ goStr "√" ++ y) = ([x, y], none) ∧
      evaluateExpression arch (x ++ goStr "√" ++ y) =
        (goStr "Ошибка", goStr "ошибка вычисления")) ∧
    (∀ arch : Arch,
      shuntingYard (goStr "4√9") = ([goStr "4", goStr "9"], none) ∧
      evaluateExpression arch (goStr "4√9") = (goStr "Ошибка", goStr "ошибка вычисления")) := by
  refine ⟨fun arch x y X Y hx hy hX hY =>
    ⟨shuntingYard_sqrt_between x y hx hy, evaluate_sqrt_between arch x y X Y hx hy hX hY⟩, ?_⟩
  intro arch
  exact ⟨rfl, evaluate_sqrt_between arch (goStr "4") (goStr "9") (Float64.ofNat 4)
    (Float64.ofNat 9) (numberRun_of_decide _ (by decide) (by decide))
    (numberRun_of_decide _ (by decide) (by decide)) (by decide) (by decide)⟩

theorem sqrt_infix_is_dropped_witness :
    shuntingYard (goStr "16" ++ goStr "√" ++ goStr "2.5") = ([goStr "16", goStr "2.5"], none) ∧
      evaluateExpression amd64 (goStr "16" ++ goStr "√" ++ goStr "2.5") =
        (goStr "Ошибка", goStr "ошибка вычисления") :=
  sqrt_infix_is_dropped.1 amd64 (goStr "16") (goStr "2.5") (Float64.ofNat 16)
    (.fin false (5 * 2 ^ 50) (-51))
    (numberRun_of_decide _ (by decide) (by decide)) (numberRun_of_decide _ (by decide) (by decide))
    (by decide) (by decide)

/-- Claim C5, as the code behaves: the bytes of `√` are skipped by `shuntingYard`, so
for every valid numeric literal `x` of value `X` the expressions `"√" ++ x` and
`x ++ "√"` are converted to `[x]` and `evaluateExpression` succeeds with the rendering
of `X` in both components; "√9" and "9√" give "9.00" instead of failing with
"недостаточно операндов". -/
theorem sqrt_single_operand_succeeds :
    (∀ (arch : Arch) (x : GoString) (X : Float64), NumberRun x → parseFloat x = some X →
      evaluateExpression arch (goStr "√" ++ x) = (sprintf2 X, sprintf2 X) ∧
      evaluateExpression arch (x ++ goStr "√") = (sprintf2 X, sprintf2 X) ∧
      sprintf2 X ≠ goStr "Ошибка") ∧
    (∀ arch : Arch,
      evaluateExpression arch (goStr "√9") = (goStr "9.00", goStr "9.00") ∧
      evaluateExpression arch (goStr "9√") = (goStr "9.00", goStr "9.00")) := by
  refine ⟨fun arch x X hx hX =>
    ⟨evaluate_sqrt_before arch x X hx hX, evaluate_sqrt_after arch x X hx hX,
      sprintf2_ne_marker X⟩, ?_⟩
  intro arch
  exact ⟨evaluate_sqrt_before arch (goStr "9") (Float64.ofNat 9)
      (numberRun_of_decide _ (by decide) (by decide)) (by decide),
    evaluate_sqrt_after arch (goStr "9") (Float64.ofNat 9)
      (numberRun_of_decide _ (by decide) (by decide)) (by decide)⟩

theorem sqrt_single_operand_succeeds_witness :
    evaluateExpression amd64 (goStr "√" ++ goStr "2.5") =
        (sprintf2 (.fin false (5 * 2 ^ 50) (-51)), sprintf2 (.fin false (5 * 2 ^ 50) (-51))) ∧
      evaluateExpression amd64 (goStr "2.5" ++ goStr "√") =
        (sprintf2 (.fin false (5 * 2 ^ 50) (-51)), sprintf2 (.fin false (5 * 2 ^ 50) (-51))) ∧
      sprintf2 (.fin false (5 * 2 ^ 50) (-51)) ≠ goStr "Ошибка" :=
  sqrt_single_operand_succeeds.1 amd64 (goStr "2.5") (.fin false (5 * 2 ^ 50) (-51))
    (numberRun_of_decide _ (by decide) (by decide)) (by decide)

/-- Claim C6 fails on "2^-1": the result is the error marker with the diagnostic
"недостаточно операндов", not "1.00". -/
theorem negative_exponent_counterexample :
    evaluateExpression amd64 (goStr "2^-1") = (goStr "Ошибка", goStr "недостаточно операндов") ∧
    (evaluateExpression amd64 (goStr "2^-1")).1 ≠ goStr "1.00" := by
  constructor <;> decide

/-- Claim C6, amended: for all numeric literals `x` and `y`, evaluating `x ++ "^-" ++ y`
fails: the converter emits `[x, ^, y, -]`, and `evaluateExpression` returns the error
marker with the diagnostic "недостаточно операндов". -/
theorem negative_exponent_insufficient_operands (arch : Arch) (x y : GoString)
    (hx : NumberRun x) (hy : NumberRun y) :
    shuntingYard (x ++ goStr "^-" ++ y) = ([x, goStr "^", y, goStr "-"], none) ∧
    evaluateExpression arch (x ++ goStr "^-" ++ y) =
      (goStr "Ошибка", goStr "недостаточно операндов") :=
  ⟨shuntingYard_caret_minus x y hx hy, caret_minus_insufficient arch x y hx hy⟩

theorem negative_exponent_insufficient_operands_witness :
    shuntingYard (goStr "2" ++ goStr "^-" ++ goStr "1") =
        ([goStr "2", goStr "^", goStr "1", goStr "-"], none) ∧
      evaluateExpression amd64 (goStr "2" ++ goStr "^-" ++ goStr "1") =
        (goStr "Ошибка", goStr "недостаточно операндов") :=
  negative_exponent_insufficient_operands amd64 (goStr "2") (goStr "1")
    (numberRun_of_decide _ (by decide) (by decide)) (numberRun_of_decide _ (by decide) (by decide))

theorem pow_of_fits (arch : Arch) (a b : Float64) (n : Int) (hn : truncate b = some n)
    (hf : fitsInt arch n = true) :
    pow arch a b = (fun r => Float64.mul r a)^[n.toNat] Float64.one := by
  unfold pow
  rw [intOfFloat_of_fits arch b n hn hf, powLoop_eq_iterate]

/-- Claim C7: when the truncation toward zero `n` of `b` fits in an `int`, `pow a b` is
`1.0` multiplied by `a` exactly `n` times for `n > 0` and `1.0` for `n ≤ 0`; hence for
valid numeric literals `x`, `y`, `calculate (x ++ "^" ++ y)` is `1.0` multiplied by the
value of `x` as many times as the truncated value of `y`; "2^3" gives 8 and "2^0"
gives 1. -/
theorem pow_repeated_multiplication :
    (∀ (arch : Arch) (a b : Float64) (n : Int), truncate b = some n → fitsInt arch n = true →
      intOfFloat arch b = n ∧
      (0 < n → pow arch a b = (fun r => Float64.mul r a)^[n.toNat] Float64.one) ∧
      (n ≤ 0 → pow arch a b = Float64.one)) ∧
    (∀ (arch : Arch) (x y : GoString) (X Y : Float64) (n : Int),
      NumberRun x → NumberRun y → parseFloat x = some X → parseFloat y = some Y →
      truncate Y = some n → fitsInt arch n = true →
      calculate arch (x ++ goStr "^" ++ y) =
        ((fun r => Float64.mul r X)^[n.toNat] Float64.one, none)) ∧
    (∀ arch : Arch,
      calculate arch (goStr "2^3") = (Float64.ofNat 8, none) ∧
      calculate arch (goStr "2^0") = (Float64.ofNat 1, none)) := by
  refine ⟨?_, ?_, ?_⟩
  · intro arch a b n hn hf
    refine ⟨intOfFloat_of_fits arch b n hn hf, fun _ => pow_of_fits arch a b n hn hf, ?_⟩
    intro hle
    rw [pow_of_fits arch a b n hn hf, Int.toNat_of_nonpos hle]
    rfl
  · intro arch x y X Y n hx hy hX hY hn hf
    rw [calculate_pow arch x y X Y hx hy hX hY, pow_of_fits arch X Y n hn hf]
  · intro arch
    obtain ⟨b, f⟩ := arch
    cases b <;> exact ⟨rfl, rfl⟩

theorem pow_repeated_multiplication_witness :
    intOfFloat amd64 (.fin false (5 * 2 ^ 50) (-51)) = 2 ∧
    pow amd64 (Float64.ofNat 3) (.fin false (5 * 2 ^ 50) (-51)) =
      (fun r => Float64.mul r (Float64.ofNat 3))^[(2 : Int).toNat] Float64.one ∧
    pow amd64 (Float64.ofNat 3) (.fin true (3 * 2 ^ 51) (-52)) = Float64.one ∧
    calculate amd64 (goStr "3" ++ goStr "^" ++ goStr "2.5") =
      ((fun r => Float64.mul r (Float64.ofNat 3))^[(2 : Int).toNat] Float64.one, none) ∧
    (fun r => Float64.mul r (Float64.ofNat 3))^[(2 : Int).toNat] Float64.one = Float64.ofNat 9 :=
  ⟨(pow_repeated_multiplication.1 amd64 (Float64.ofNat 3) (.fin false (5 * 2 ^ 50) (-51)) 2
      (by decide) (by decide)).1,
    (pow_repeated_multiplication.1 amd64 (Float64.ofNat 3) (.fin false (5 * 2 ^ 50) (-51)) 2
      (by decide) (by decide)).2.1 (by decide),
    (pow_repeated_multiplication.1 amd64 (Float64.ofNat 3) (.fin true (3 * 2 ^ 51) (-52)) (-1)
      (by decide) (by decide)).2.2 (by decide),
    pow_repeated_multiplication.2.1 amd64 (goStr "3") (goStr "2.5") (Float64.ofNat 3)
      (.fin false (5 * 2 ^ 50) (-51)) 2
      (numberRun_of_decide _ (by decide) (by decide))
      (numberRun_of_decide _ (by decide) (by decide)) (by decide) (by decide) (by decide)
      (by decide),
    by decide⟩

/-- Claim C8: for a valid numeric literal `x` and a numeric literal `z` whose value is
zero, `evaluateExpression (x ++ "/" ++ z)` returns the error marker "Ошибка" and the
diagnostic "деление на ноль"; a literal written with zeros only has value zero;
`evalRPN` fails with that diagnostic whenever it reaches a "/" token with the top
operand equal to zero and no earlier step failed. -/
theorem division_by_zero :
    (∀ (arch : Arch) (x z : GoString) (X Z : Float64),
      NumberRun x → NumberRun z → parseFloat x = some X → parseFloat z = some Z →
      Float64.isZero Z = true →
      evaluateExpression arch (x ++ goStr "/" ++ z) = (goStr "Ошибка", goStr "деление на ноль")) ∧
    (∀ (z : GoString) (Z : Float64), ZeroLiteral z → parseFloat z = some Z →
      Float64.isZero Z = true) ∧
    (∀ (arch : Arch) (pre post : List GoString) (a b : Float64) (stack : List Float64),
      evalLoop arch pre [] = .ok (b :: a :: stack) → Float64.isZero b = true →
      evalRPN arch (pre ++ goStr "/" :: post) = (Float64.zero, some (goStr "деление на ноль"))) ∧
    (∀ arch : Arch,
      evaluateExpression arch (goStr "10/0") = (goStr "Ошибка", goStr "деление на ноль") ∧
      evaluateExpression arch (goStr "10/0.0") = (goStr "Ошибка", goStr "деление на ноль") ∧
      evaluateExpression arch (goStr "10/00") = (goStr "Ошибка", goStr "деление на ноль")) := by
  refine ⟨fun arch x z X Z hx hz hX hZ h0 => evaluate_div_zero arch x z X Z hx hz hX hZ h0,
    fun z Z hz hZ => parseFloat_zero_literal z hz Z hZ,
    fun arch pre post a b stack hpre h0 => evalRPN_div_zero arch pre post a b stack hpre h0, ?_⟩
  intro arch
  exact ⟨rfl, rfl, rfl⟩

theorem division_by_zero_witness :
    evaluateExpression amd64 (goStr "10" ++ goStr "/" ++ goStr "0") =
        (goStr "Ошибка", goStr "деление на ноль") ∧
      Float64.isZero (.fin false 0 0) = true ∧
      evalRPN amd64 ([goStr "1", goStr "2", goStr "2", goStr "-"] ++ goStr "/" :: [goStr "+"]) =
        (Float64.zero, some (goStr "деление на ноль")) :=
  ⟨division_by_zero.1 amd64 (goStr "10") (goStr "0") (Float64.ofNat 10) (.fin false 0 0)
      (numberRun_of_decide _ (by decide) (by decide))
      (numberRun_of_decide _ (by decide) (by decide)) (by decide) (by decide) (by decide),
    division_by_zero.2.1 (goStr "0.0") (.fin false 0 0) (by unfold ZeroLiteral; decide)
      (by decide),
    division_by_zero.2.2.1 amd64 [goStr "1", goStr "2", goStr "2", goStr "-"] [goStr "+"]
      (Float64.ofNat 1) (.fin false 0 0) [] (by rfl) (by decide)⟩

/-- Claim C9 fails on an expression with a tab: "1" TAB "+2" is rejected as an invalid
character although every non-whitespace character of it is allowed (the characters
are ASCII, so this is the same for every toolchain). -/
theorem whitespace_counterexample :
    evaluateExpression amd64 (goStr "1\t+2") = (goStr "Ошибка", goStr "Некорректное выражение") ∧
    (∀ r ∈ (decodeRunes (goStr "1\t+2")).filter (fun r => !isWhitespace r),
      isAllowedChar amd64 r = true) := by
  constructor <;> decide

/-- Claim C9, amended: for every implementation, `evaluateExpression` returns the
pair ("Ошибка", "Некорректное выражение") if and only if the expression with every
space character (U+0020, and no other whitespace) removed contains a character that
is neither a decimal digit (`unicode.IsDigit`, with the range table of the toolchain
in use), nor a decimal point, nor one of `+ - * / ( ) ^ √`. -/
theorem invalid_character_iff (arch : Arch) (e : GoString) :
    evaluateExpression arch e = (goStr "Ошибка", goStr "Некорректное выражение") ↔
      ∃ r ∈ decodeRunes (removeByte 0x20 e), isAllowedChar arch r = false :=
  evaluate_invalid_iff arch e

/-- Claim C10 fails on "(2+3)*4": the primary run succeeds, the run on "2+3)*4" fails,
and the intermediate string is "0.00", not a blank. -/
theorem blank_intermediate_counterexample :
    (calculate amd64 (goStr "(2+3)*4")).2 = none ∧
    (calculate amd64 (removeByte 0x28 (goStr "(2+3)*4"))).2 = some (goStr "непарные скобки") ∧
    evaluateExpression amd64 (goStr "(2+3)*4") = (goStr "20.00", goStr "0.00") := by
  refine ⟨?_, ?_, ?_⟩ <;> decide

/-- Claim C10, amended: when the validation and the primary run succeed and the run
on the expression with every `(` removed fails, the intermediate string returned by
`evaluateExpression` is "0.00", the rendering of the zero that `calculate` returns
with an error. -/
theorem failed_second_run_gives_zero (arch : Arch) (e : GoString)
    (h1 : (decodeRunes (removeByte 0x20 e)).any (invalidRune arch) = false)
    (h2 : (calculate arch (removeByte 0x20 e)).2 = none)
    (h3 : (calculate arch (removeByte 0x28 (removeByte 0x20 e))).2 ≠ none) :
    (evaluateExpression arch e).1 = sprintf2 (calculate arch (removeByte 0x20 e)).1 ∧
    (evaluateExpression arch e).2 = goStr "0.00" := by
  rw [evaluate_intermediate_of_failed_second_run arch e h1 h2 h3]
  exact ⟨rfl, rfl⟩

theorem failed_second_run_gives_zero_witness :
    (evaluateExpression amd64 (goStr "( 2+3 )*4")).1 =
        sprintf2 (calculate amd64 (removeByte 0x20 (goStr "( 2+3 )*4"))).1 ∧
      (evaluateExpression amd64 (goStr "( 2+3 )*4")).2 = goStr "0.00" :=
  failed_second_run_gives_zero amd64 (goStr "( 2+3 )*4") (by decide) (by decide) (by decide)

/-! ## Lemmas on the emitted tokens, the operand count and the explicit-index loops -/

theorem pair_eta {α β : Type} (p : α × β) : p = (p.1, p.2) := rfl

theorem calculate_eq (arch : Arch) (s : GoString) :
    (calculate arch s).2 =
      match (shuntingYard s).2 with
      | some err => some err
      | none => (evalRPN arch (shuntingYard s).1).2 := by
  unfold calculate
  cases h1 : (shuntingYard s).2 with
  | some err =>
    rw [pair_eta (shuntingYard s), h1]
  | none =>
    rw [pair_eta (shuntingYard s), h1]
    simp only []
    cases h2 : (evalRPN arch (shuntingYard s).1).2 with
    | some err => rw [pair_eta (evalRPN arch (shuntingYard s).1), h2]
    | none => rw [pair_eta (evalRPN arch (shuntingYard s).1), h2]

theorem evaluate_of_invalid (arch : Arch) (e : GoString)
    (h : (decodeRunes (removeByte 0x20 e)).any (invalidRune arch) = true) :
    evaluateExpression arch e = (goStr "Ошибка", goStr "Некорректное выражение") := by
  unfold evaluateExpression
  simp [h]

theorem evaluate_of_error (arch : Arch) (e : GoString) (err : GoError)
    (h : (decodeRunes (removeByte 0x20 e)).any (invalidRune arch) = false)
    (hc : (calculate arch (removeByte 0x20 e)).2 = some err) :
    evaluateExpression arch e = (goStr "Ошибка", err) := by
  unfold evaluateExpression
  simp only [h, if_false, Bool.false_eq_true]
  rw [pair_eta (calculate arch (removeByte 0x20 e)), hc]

theorem evaluate_of_success (arch : Arch) (e : GoString)
    (h : (decodeRunes (removeByte 0x20 e)).any (invalidRune arch) = false)
    (hc : (calculate arch (removeByte 0x20 e)).2 = none) :
    evaluateExpression arch e =
      (sprintf2 (calculate arch (removeByte 0x20 e)).1,
        sprintf2 (calculate arch (removeByte 0x28 (removeByte 0x20 e))).1) := by
  unfold evaluateExpression
  simp only [h, if_false, Bool.false_eq_true]
  rw [pair_eta (calculate arch (removeByte 0x20 e)), hc]

theorem evaluate_marker_iff (arch : Arch) (e : GoString) :
    (evaluateExpression arch e).1 = goStr "Ошибка" ↔
      ((decodeRunes (removeByte 0x20 e)).any (invalidRune arch) = true ∨
        (calculate arch (removeByte 0x20 e)).2 ≠ none) := by
  by_cases h : (decodeRunes (removeByte 0x20 e)).any (invalidRune arch) = true
  · rw [evaluate_of_invalid arch e h]
    simp [h]
  · have h' : (decodeRunes (removeByte 0x20 e)).any (invalidRune arch) = false := by simpa using h
    cases hc : (calculate arch (removeByte 0x20 e)).2 with
    | none =>
      rw [evaluate_of_success arch e h' hc]
      simp only [h', Bool.false_eq_true, false_or, ne_eq, not_true_eq_false, iff_false]
      exact sprintf2_ne_marker _
    | some err =>
      rw [evaluate_of_error arch e err h' hc]
      simp

theorem applyOperator_ok (arch : Arch) (token : GoString) (a b : Float64)
    (stack st : List Float64) (h : applyOperator arch token a b stack = .ok st) :
    ∃ v, st = v :: stack := by
  unfold applyOperator at h
  split_ifs at h <;> cases h <;> exact ⟨_, rfl⟩

theorem evalStep_length (arch : Arch) (stack st : List Float64) (token : GoString)
    (h : evalStep arch stack token = .ok st) :
    ((parseFloat token).isSome = true → st.length = stack.length + 1) ∧
    ((parseFloat token).isNone = true → st.length + 1 = stack.length) ∧ 1 ≤ st.length := by
  unfold evalStep at h
  cases hp : parseFloat token with
  | some num =>
    rw [hp] at h
    cases h
    simp
  | none =>
    rw [hp] at h
    match stack, h with
    | b :: a :: rest, h =>
      obtain ⟨v, rfl⟩ := applyOperator_ok arch token a b rest st h
      simp
    | [], h => cases h
    | [_], h => cases h

theorem evalLoop_length (arch : Arch) (rpn : List GoString) :
    ∀ stack st, evalLoop arch rpn stack = .ok st →
      st.length + otherCount rpn = stack.length + numberCount rpn ∧
      (rpn ≠ [] → 1 ≤ st.length) ∧ (1 ≤ stack.length → 1 ≤ st.length) := by
  induction rpn with
  | nil =>
    intro stack st h
    simp only [evalLoop] at h
    cases h
    simp [otherCount, numberCount]
  | cons t rpn ih =>
    intro stack st h
    rw [evalLoop] at h
    cases hs : evalStep arch stack t with
    | error e => rw [hs] at h; cases h
    | ok s1 =>
      rw [hs] at h
      obtain ⟨h1, h2, h3⟩ := evalStep_length arch stack s1 t hs
      obtain ⟨i1, _, i3⟩ := ih s1 st h
      have e1 : numberCount (t :: rpn) =
          numberCount rpn + if (parseFloat t).isSome = true then 1 else 0 := by
        simp [numberCount, List.countP_cons]
      have e2 : otherCount (t :: rpn) =
          otherCount rpn + if (parseFloat t).isNone = true then 1 else 0 := by
        simp [otherCount, List.countP_cons]
      refine ⟨?_, fun _ => i3 h3, fun _ => i3 h3⟩
      rw [e1, e2]
      cases hp : parseFloat t with
      | some v =>
        have := h1 (by simp [hp])
        simp
        omega
      | none =>
        have := h2 (by simp [hp])
        simp
        omega

theorem evalRPN_of_single (arch : Arch) (rpn : List GoString) (v : Float64)
    (h : evalLoop arch rpn [] = .ok [v]) : evalRPN arch rpn = (v, none) := by
  unfold evalRPN
  rw [h]

theorem evalRPN_of_other (arch : Arch) (rpn : List GoString) (stack : List Float64)
    (h : evalLoop arch rpn [] = .ok stack) (hl : stack.length ≠ 1) :
    evalRPN arch rpn = (Float64.zero, some errMismatch) := by
  unfold evalRPN
  rw [h]
  match stack, hl with
  | [], _ => rfl
  | [_], hl => exact absurd rfl hl
  | _ :: _ :: _, _ => rfl

theorem evalRPN_success (arch : Arch) (rpn : List GoString)
    (h : (evalRPN arch rpn).2 = none) :
    ∃ v, evalLoop arch rpn [] = .ok [v] ∧ evalRPN arch rpn = (v, none) := by
  cases hl : evalLoop arch rpn [] with
  | error e =>
    unfold evalRPN at h
    rw [hl] at h
    cases h
  | ok stack =>
    by_cases h1 : stack.length = 1
    · match stack, h1 with
      | [v], _ => exact ⟨v, rfl, evalRPN_of_single arch rpn v hl⟩
    · rw [evalRPN_of_other arch rpn stack hl h1] at h
      cases h

theorem parseFloat_sqrt : parseFloat (goStr "√") = none := by decide

theorem applyOperator_sqrt (arch : Arch) (a _b : Float64) (stack : List Float64) :
    applyOperator arch (goStr "√") a _b stack =
      if Float64.ltZero a then .error errNegativeSqrt else .ok (sqrt a :: stack) := by
  have h1 : goStr "√" ≠ goStr "+" := by decide
  have h2 : goStr "√" ≠ goStr "-" := by decide
  have h3 : goStr "√" ≠ goStr "*" := by decide
  have h4 : goStr "√" ≠ goStr "/" := by decide
  have h5 : goStr "√" ≠ goStr "^" := by decide
  unfold applyOperator
  rw [if_neg h1, if_neg h2, if_neg h3, if_neg h4, if_neg h5, if_pos rfl]

theorem evalStep_sqrt (arch : Arch) (stack : List Float64) :
    evalStep arch stack (goStr "√") =
      match stack with
      | _ :: a :: rest =>
        if Float64.ltZero a then .error errNegativeSqrt else .ok (sqrt a :: rest)
      | _ => .error errInsufficient := by
  unfold evalStep
  rw [parseFloat_sqrt]
  match stack with
  | b :: a :: rest => exact applyOperator_sqrt arch a b rest
  | [] => rfl
  | [_] => rfl

theorem evalLoop_sqrt_tokens (arch : Arch) (a b : GoString) (A B : Float64)
    (hA : parseFloat a = some A) (hB : parseFloat b = some B) (s : List GoString)
    (stack : List Float64) :
    evalLoop arch ([a, b, goStr "√"] ++ s) stack =
      if Float64.ltZero A then .error errNegativeSqrt else evalLoop arch s (sqrt A :: stack) := by
  show evalLoop arch (a :: b :: goStr "√" :: s) stack = _
  rw [evalLoop_number arch a A hA, evalLoop_number arch b B hB, evalLoop, evalStep_sqrt]
  simp only []
  split_ifs <;> rfl

theorem evalRPN_sqrt_independent (arch : Arch) (p s : List GoString) (a b b' : GoString)
    (A B B' : Float64) (hA : parseFloat a = some A) (hB : parseFloat b = some B)
    (hB' : parseFloat b' = some B') :
    evalRPN arch (p ++ [a, b, goStr "√"] ++ s) = evalRPN arch (p ++ [a, b', goStr "√"] ++ s) := by
  unfold evalRPN
  rw [List.append_assoc, List.append_assoc, evalLoop_append, evalLoop_append arch p]
  cases evalLoop arch p [] with
  | error e => rfl
  | ok st =>
    simp only []
    rw [evalLoop_sqrt_tokens arch a b A B hA hB, evalLoop_sqrt_tokens arch a b' A B' hA hB']

theorem removeByte_idem (c : Byte) (s : GoString) :
    removeByte c (removeByte c s) = removeByte c s := by
  simp [removeByte, List.filter_filter]

theorem evaluate_congr_spaces (arch : Arch) (e e' : GoString)
    (h : removeByte 0x20 e = removeByte 0x20 e') :
    evaluateExpression arch e = evaluateExpression arch e' := by
  unfold evaluateExpression
  simp only [h]

theorem removeByte_spaces (u v : GoString) (n : Nat) :
    removeByte 0x20 (u ++ List.replicate n 0x20 ++ v) = removeByte 0x20 (u ++ v) := by
  simp [removeByte, List.filter_append, List.filter_replicate]

theorem byte_kinds (b : Byte) :
    isNumberByte b = isAsciiDigitOrDot b ∧
    (isAsciiDigitOrDot b = true → encodeRune (runeOfByte b) = [b] ∧ isOperatorByte b = false) ∧
    (containsRune "+-*/^√" (runeOfByte b) = isOperatorByte b) ∧
    (isOperatorByte b = true → encodeRune (runeOfByte b) = [b] ∧ isAsciiDigitOrDot b = false ∧
      1 ≤ precedence [b] ∧ isEmittedOperator [b] = true ∧ parseFloat [b] = none) ∧
    ((runeOfByte b = '('.toNat ↔ b = 0x28) ∧ (runeOfByte b = ')'.toNat ↔ b = 0x29)) ∧
    ((b = 0x28 ∨ b = 0x29) → isAsciiDigitOrDot b = false ∧ isOperatorByte b = false) := by
  revert b; decide!

theorem emitted_not_number (t : GoString) (h : isEmittedOperator t = true) :
    isNumberToken t = false ∧ t ≠ goStr "(" ∧ t ≠ goStr ")" ∧ isOperatorToken t = true ∧
      parseFloat t = none ∧ t ≠ goStr "√" := by
  simp only [isEmittedOperator, decide_eq_true_eq, List.mem_cons, List.mem_singleton,
    List.not_mem_nil, or_false] at h
  rcases h with rfl | rfl | rfl | rfl | rfl <;> decide

theorem number_token_of_run (num : GoString) (h1 : num ≠ [])
    (h2 : ∀ b ∈ num, isAsciiDigitOrDot b = true) : isNumberToken num = true := by
  unfold isNumberToken
  rw [Bool.and_eq_true]
  constructor
  · cases num with
    | nil => exact absurd rfl h1
    | cons _ _ => rfl
  · exact List.all_eq_true.mpr h2

theorem numberToken_iff (t : GoString) : isNumberToken t = true ↔ NumberRun t := by
  unfold isNumberToken NumberRun
  rw [Bool.and_eq_true, List.all_eq_true]
  constructor
  · rintro ⟨h1, h2⟩
    refine ⟨?_, h2⟩
    rintro rfl
    simp at h1
  · rintro ⟨h1, h2⟩
    refine ⟨?_, h2⟩
    cases t with
    | nil => exact absurd rfl h1
    | cons _ _ => rfl

theorem numberRuns_run (num : GoString) (h : ∀ b ∈ num, isAsciiDigitOrDot b = true) :
    numberRuns num = if num = [] then [] else [num] := by
  unfold numberRuns
  rw [List.splitOnP_eq_single _ _ (fun b hb => by simp [h b hb])]
  cases num with
  | nil => rfl
  | cons _ _ => rfl

theorem numberRuns_cut (num : GoString) (h : ∀ b ∈ num, isAsciiDigitOrDot b = true)
    (b : Byte) (hb : isAsciiDigitOrDot b = false) (s : GoString) :
    numberRuns (num ++ b :: s) = (if num = [] then [] else [num]) ++ numberRuns s := by
  unfold numberRuns
  rw [List.splitOnP_first _ _ (fun b hb => by simp [h b hb]) b (by simp [hb])]
  cases num with
  | nil => rfl
  | cons _ _ => rfl

theorem flushNumber_eq (num : GoString) (out : List GoString) :
    flushNumber num out = out ++ (if num = [] then [] else [num]) := by
  unfold flushNumber
  split_ifs <;> simp

theorem popWhileGe_split (p : Int) (hp : 1 ≤ p) (ops : List GoString) :
    ∀ out, ∃ popped rest, popWhileGe p out ops = (out ++ popped, rest) ∧ popped ++ rest = ops ∧
      goStr "(" ∉ popped := by
  induction ops with
  | nil => intro out; exact ⟨[], [], by simp [popWhileGe], rfl, by simp⟩
  | cons top ops ih =>
    intro out
    unfold popWhileGe
    by_cases h : precedence top ≥ p
    · have hne : top ≠ goStr "(" := by
        intro heq
        rw [heq, precedence_lparen] at h
        omega
      rw [if_pos h]
      obtain ⟨popped, rest, h1, h2, h3⟩ := ih (out ++ [top])
      refine ⟨top :: popped, rest, by rw [h1]; simp, by rw [← h2]; rfl, ?_⟩
      intro hc
      rcases List.mem_cons.mp hc with hc | hc
      · exact hne hc.symm
      · exact h3 hc
    · rw [if_neg h]
      exact ⟨[], top :: ops, by simp, rfl, by simp⟩

theorem popUntilParen_split (ops : List GoString) :
    ∀ out, ∃ popped rest, popUntilParen out ops = (out ++ popped, rest) ∧ popped ++ rest = ops ∧
      goStr "(" ∉ popped ∧ (rest = [] ∨ ∃ rest', rest = goStr "(" :: rest') := by
  induction ops with
  | nil => intro out; exact ⟨[], [], by simp [popUntilParen], rfl, by simp, Or.inl rfl⟩
  | cons top ops ih =>
    intro out
    unfold popUntilParen
    by_cases h : top = goStr "("
    · subst h
      exact ⟨[], goStr "(" :: ops, by simp, rfl, by simp, Or.inr ⟨ops, rfl⟩⟩
    · rw [if_pos h]
      obtain ⟨popped, rest, h1, h2, h3, h4⟩ := ih (out ++ [top])
      refine ⟨top :: popped, rest, by rw [h1]; simp, by rw [← h2]; rfl, ?_, h4⟩
      intro hc
      rcases List.mem_cons.mp hc with hc | hc
      · exact h hc.symm
      · exact h3 hc

theorem drain_success (ops : List GoString) :
    ∀ out res, drain out ops = (res, none) → res = out ++ ops ∧ goStr "(" ∉ ops := by
  induction ops with
  | nil =>
    intro out res h
    simp only [drain, Prod.mk.injEq, and_true] at h
    simp [h]
  | cons top ops ih =>
    intro out res h
    unfold drain at h
    by_cases hc : top = goStr "(" ∨ top = goStr ")"
    · rw [if_pos hc] at h
      cases h
    · rw [if_neg hc] at h
      obtain ⟨h1, h2⟩ := ih _ _ h
      refine ⟨by rw [h1]; simp, ?_⟩
      intro hm
      rcases List.mem_cons.mp hm with hm | hm
      · exact hc (Or.inl hm.symm)
      · exact h2 hm

theorem filter_number_of_emitted (l : List GoString)
    (h : ∀ t ∈ l, isEmittedOperator t = true) : l.filter isNumberToken = [] := by
  rw [List.filter_eq_nil_iff]
  intro t ht
  simp [(emitted_not_number t (h t ht)).1]

theorem countP_emitted_of_emitted (l : List GoString)
    (h : ∀ t ∈ l, isEmittedOperator t = true) : l.countP isEmittedOperator = l.length := by
  rw [List.countP_eq_length]
  exact h

theorem emitted_of_ops_part (popped rest ops : List GoString) (h : popped ++ rest = ops)
    (hops : ∀ t ∈ ops, isEmittedOperator t = true ∨ t = goStr "(") (hp : goStr "(" ∉ popped) :
    (∀ t ∈ popped, isEmittedOperator t = true) ∧
      (∀ t ∈ rest, isEmittedOperator t = true ∨ t = goStr "(") := by
  subst h
  constructor
  · intro t ht
    rcases hops t (List.mem_append_left _ ht) with h1 | h1
    · exact h1
    · exact absurd (h1 ▸ ht) hp
  · intro t ht
    exact hops t (List.mem_append_right _ ht)

theorem lparen_not_emitted : isEmittedOperator (goStr "(") = false := by decide

theorem pending_facts (num : GoString) (h : ∀ b ∈ num, isAsciiDigitOrDot b = true) :
    (pendingToken num).filter isNumberToken = pendingToken num ∧
    (pendingToken num).countP isEmittedOperator = 0 ∧
    (∀ t ∈ pendingToken num, isNumberToken t = true ∨ isEmittedOperator t = true) := by
  unfold pendingToken
  by_cases hn : num = []
  · simp [hn]
  · have hnum := number_token_of_run num hn h
    have hem : isEmittedOperator num = false := by
      cases he : isEmittedOperator num with
      | false => rfl
      | true => rw [(emitted_not_number num he).1] at hnum; cases hnum
    simp [hn, hnum, hem]

theorem scan_tokens (s : GoString) :
    ∀ num out ops res, (∀ b ∈ num, isAsciiDigitOrDot b = true) →
      (∀ t ∈ ops, isEmittedOperator t = true ∨ t = goStr "(") →
      scan s num out ops = (res, none) →
      ∃ tail, res = out ++ tail ∧
        (∀ t ∈ tail, isNumberToken t = true ∨ isEmittedOperator t = true) ∧
        tail.filter isNumberToken = numberRuns (num ++ s) ∧
        tail.countP isEmittedOperator =
          ops.countP isEmittedOperator + s.countP isOperatorByte := by
  induction s with
  | nil =>
    intro num out ops res hnum hops h
    rw [scan, flushNumber_eq] at h
    obtain ⟨h1, h2⟩ := drain_success ops _ res h
    obtain ⟨e1, _⟩ := emitted_of_ops_part ops [] ops (by simp) hops h2
    obtain ⟨p1, p2, p3⟩ := pending_facts num hnum
    refine ⟨pendingToken num ++ ops, by rw [h1]; simp [pendingToken], ?_, ?_, ?_⟩
    · intro t ht
      rcases List.mem_append.mp ht with ht | ht
      · exact p3 t ht
      · exact Or.inr (e1 t ht)
    · rw [List.filter_append, p1, filter_number_of_emitted ops e1, List.append_nil,
        List.append_nil, numberRuns_run num hnum]
      rfl
    · rw [List.countP_append, p2]
      simp
  | cons b s ih =>
    intro num out ops res hnum hops h
    obtain ⟨k1, k2, k3, k4, ⟨k5, k6⟩, k7⟩ := byte_kinds b
    rw [scan, k1, k3] at h
    by_cases c1 : isAsciiDigitOrDot b = true
    · rw [if_pos c1, (k2 c1).1] at h
      have hnum' : ∀ c ∈ num ++ [b], isAsciiDigitOrDot c = true := by
        intro c hc
        rcases List.mem_append.mp hc with hc | hc
        · exact hnum c hc
        · rw [List.mem_singleton.mp hc]; exact c1
      obtain ⟨tail, t1, t2, t3, t4⟩ := ih _ _ _ _ hnum' hops h
      refine ⟨tail, t1, t2, ?_, ?_⟩
      · rw [t3]; simp
      · rw [t4, List.countP_cons, (k2 c1).2]; simp
    · rw [if_neg c1] at h
      have c1' : isAsciiDigitOrDot b = false := by simpa using c1
      obtain ⟨p1, p2, p3⟩ := pending_facts num hnum
      have hcut := numberRuns_cut num hnum b c1' s
      rw [flushNumber_eq] at h
      by_cases c2 : isOperatorByte b = true
      · obtain ⟨o1, _, o3, o4, _⟩ := k4 c2
        rw [if_pos c2, o1] at h
        simp only [] at h
        obtain ⟨popped, rest, q1, q2, q3⟩ :=
          popWhileGe_split (precedence [b]) o3 ops (out ++ pendingToken num)
        have q1' : popWhileGe (precedence [b]) (out ++ if num = [] then [] else [num]) ops =
            (out ++ pendingToken num ++ popped, rest) := q1
        rw [q1'] at h
        obtain ⟨e1, e2⟩ := emitted_of_ops_part popped rest ops q2 hops q3
        have hops' : ∀ t ∈ [b] :: rest, isEmittedOperator t = true ∨ t = goStr "(" := by
          intro t ht
          rcases List.mem_cons.mp ht with ht | ht
          · exact Or.inl (ht ▸ o4)
          · exact e2 t ht
        obtain ⟨tail, t1, t2, t3, t4⟩ := ih [] _ _ _ (by simp) hops' h
        refine ⟨pendingToken num ++ popped ++ tail, by rw [t1]; simp, ?_, ?_, ?_⟩
        · intro t ht
          rcases List.mem_append.mp ht with ht | ht
          · rcases List.mem_append.mp ht with ht | ht
            · exact p3 t ht
            · exact Or.inr (e1 t ht)
          · exact t2 t ht
        · rw [List.filter_append, List.filter_append, p1, filter_number_of_emitted popped e1,
            t3, hcut]
          simp [pendingToken]
        · rw [List.countP_append, List.countP_append, p2, countP_emitted_of_emitted popped e1,
            t4, ← q2, List.countP_append, countP_emitted_of_emitted popped e1,
            List.countP_cons, List.countP_cons, o4, c2]
          simp
          omega
      · rw [if_neg c2] at h
        have c2' : isOperatorByte b = false := by simpa using c2
        by_cases c3 : runeOfByte b = '('.toNat
        · rw [if_pos c3, encodeRune_lparen b c3] at h
          have hops' : ∀ t ∈ goStr "(" :: ops, isEmittedOperator t = true ∨ t = goStr "(" := by
            intro t ht
            rcases List.mem_cons.mp ht with ht | ht
            · exact Or.inr ht
            · exact hops t ht
          obtain ⟨tail, t1, t2, t3, t4⟩ := ih [] _ _ _ (by simp) hops' h
          refine ⟨pendingToken num ++ tail, by rw [t1]; simp [pendingToken], ?_, ?_, ?_⟩
          · intro t ht
            rcases List.mem_append.mp ht with ht | ht
            · exact p3 t ht
            · exact t2 t ht
          · rw [List.filter_append, p1, t3, hcut]
            simp [pendingToken]
          · rw [List.countP_append, p2, t4, List.countP_cons, List.countP_cons,
              lparen_not_emitted, c2']
            simp
        · rw [if_neg c3] at h
          by_cases c4 : runeOfByte b = ')'.toNat
          · rw [if_pos c4] at h
            obtain ⟨popped, rest, q1, q2, q3, q4⟩ :=
              popUntilParen_split ops (out ++ pendingToken num)
            have q1' : popUntilParen (out ++ if num = [] then [] else [num]) ops =
                (out ++ pendingToken num ++ popped, rest) := q1
            rw [q1'] at h
            obtain ⟨e1, e2⟩ := emitted_of_ops_part popped rest ops q2 hops q3
            rcases q4 with rfl | ⟨rest', rfl⟩
            · cases h
            · simp only [] at h
              have hops' : ∀ t ∈ rest', isEmittedOperator t = true ∨ t = goStr "(" :=
                fun t ht => e2 t (List.mem_cons_of_mem _ ht)
              obtain ⟨tail, t1, t2, t3, t4⟩ := ih [] _ _ _ (by simp) hops' h
              refine ⟨pendingToken num ++ popped ++ tail, by rw [t1]; simp, ?_, ?_, ?_⟩
              · intro t ht
                rcases List.mem_append.mp ht with ht | ht
                · rcases List.mem_append.mp ht with ht | ht
                  · exact p3 t ht
                  · exact Or.inr (e1 t ht)
                · exact t2 t ht
              · rw [List.filter_append, List.filter_append, p1,
                  filter_number_of_emitted popped e1, t3, hcut]
                simp [pendingToken]
              · rw [List.countP_append, List.countP_append, p2,
                  countP_emitted_of_emitted popped e1, t4, ← q2, List.countP_append,
                  countP_emitted_of_emitted popped e1, List.countP_cons, List.countP_cons,
                  lparen_not_emitted, c2']
                simp
                omega
          · rw [if_neg c4] at h
            obtain ⟨tail, t1, t2, t3, t4⟩ := ih [] _ _ _ (by simp) hops h
            refine ⟨pendingToken num ++ tail, by rw [t1]; simp [pendingToken], ?_, ?_, ?_⟩
            · intro t ht
              rcases List.mem_append.mp ht with ht | ht
              · exact p3 t ht
              · exact t2 t ht
            · rw [List.filter_append, p1, t3, hcut]
              simp [pendingToken]
            · rw [List.countP_append, p2, t4, List.countP_cons, c2']
              simp

theorem shuntingYard_tokens (e : GoString) (h : (shuntingYard e).2 = none) :
    (∀ t ∈ (shuntingYard e).1, isNumberToken t = true ∨ isEmittedOperator t = true) ∧
    (shuntingYard e).1.filter isNumberToken = numberRuns e ∧
    (shuntingYard e).1.countP isEmittedOperator = e.countP isOperatorByte := by
  have h' : scan e [] [] [] = ((shuntingYard e).1, none) := by
    rw [← h]
    rfl
  obtain ⟨tail, t1, t2, t3, t4⟩ := scan_tokens e [] [] [] _ (by simp) (by simp) h'
  simp only [List.nil_append] at t1 t3
  rw [t1]
  exact ⟨t2, t3, by simpa using t4⟩

theorem applyOperator_error_emitted (arch : Arch) (token : GoString) (a b : Float64)
    (stack : List Float64) (err : GoError) (ht : isEmittedOperator token = true)
    (h : applyOperator arch token a b stack = .error err) : err = errDivZero := by
  simp only [isEmittedOperator, decide_eq_true_eq, List.mem_cons, List.mem_singleton,
    List.not_mem_nil, or_false] at ht
  have d1 : goStr "-" ≠ goStr "+" := by decide
  have d2 : goStr "*" ≠ goStr "+" ∧ goStr "*" ≠ goStr "-" := by decide
  have d3 : goStr "/" ≠ goStr "+" ∧ goStr "/" ≠ goStr "-" ∧ goStr "/" ≠ goStr "*" := by decide
  have d4 : goStr "^" ≠ goStr "+" ∧ goStr "^" ≠ goStr "-" ∧ goStr "^" ≠ goStr "*" ∧
      goStr "^" ≠ goStr "/" := by decide
  unfold applyOperator at h
  rcases ht with rfl | rfl | rfl | rfl | rfl
  · rw [if_pos rfl] at h; cases h
  · rw [if_neg d1, if_pos rfl] at h; cases h
  · rw [if_neg d2.1, if_neg d2.2, if_pos rfl] at h; cases h
  · rw [if_neg d3.1, if_neg d3.2.1, if_neg d3.2.2, if_pos rfl] at h
    split_ifs at h
    cases h
    rfl
  · rw [if_neg d4.1, if_neg d4.2.1, if_neg d4.2.2.1, if_neg d4.2.2.2, if_pos rfl] at h; cases h

theorem applyOperator_error_number (arch : Arch) (token : GoString) (a b : Float64)
    (stack : List Float64) (err : GoError) (ht : isNumberToken token = true)
    (h : applyOperator arch token a b stack = .error err) : err = errUnknownOperator token := by
  have hne : ∀ t, isEmittedOperator t = true ∨ t = goStr "√" → token ≠ t := by
    intro t ht' heq
    subst heq
    rcases ht' with h1 | h1
    · rw [(emitted_not_number token h1).1] at ht; cases ht
    · subst h1
      exact absurd ht (by decide)
  unfold applyOperator at h
  rw [if_neg (hne _ (Or.inl (by decide))), if_neg (hne _ (Or.inl (by decide))),
    if_neg (hne _ (Or.inl (by decide))), if_neg (hne _ (Or.inl (by decide))),
    if_neg (hne _ (Or.inl (by decide))), if_neg (hne _ (Or.inr rfl))] at h
  cases h
  rfl

theorem evalLoop_error_tokens (arch : Arch) (rpn : List GoString)
    (hall : ∀ t ∈ rpn, isNumberToken t = true ∨ isEmittedOperator t = true) :
    ∀ stack err, evalLoop arch rpn stack = .error err →
      err = errInsufficient ∨ err = errDivZero ∨
        ∃ t ∈ rpn, isNumberToken t = true ∧ parseFloat t = none ∧ err = errUnknownOperator t := by
  induction rpn with
  | nil => intro stack err h; simp [evalLoop] at h
  | cons t rpn ih =>
    intro stack err h
    rw [evalLoop] at h
    cases hs : evalStep arch stack t with
    | ok st =>
      rw [hs] at h
      rcases ih (fun u hu => hall u (List.mem_cons_of_mem _ hu)) st err h with h1 | h1 | h1
      · exact Or.inl h1
      · exact Or.inr (Or.inl h1)
      · obtain ⟨u, hu, h2⟩ := h1
        exact Or.inr (Or.inr ⟨u, List.mem_cons_of_mem _ hu, h2⟩)
    | error e =>
      rw [hs] at h
      injection h with h
      subst h
      unfold evalStep at hs
      cases hp : parseFloat t with
      | some v => rw [hp] at hs; cases hs
      | none =>
        rw [hp] at hs
        match stack, hs with
        | [], hs => cases hs; exact Or.inl rfl
        | [_], hs => cases hs; exact Or.inl rfl
        | b :: a :: rest, hs =>
          rcases hall t (List.mem_cons_self _ _) with ht | ht
          · exact Or.inr (Or.inr ⟨t, List.mem_cons_self _ _, ht, hp,
              applyOperator_error_number arch t a b rest _ ht hs⟩)
          · exact Or.inr (Or.inl (applyOperator_error_emitted arch t a b rest _ ht hs))

theorem unknown_ne_others (token : GoString) :
    errUnknownOperator token ≠ errInsufficient ∧ errUnknownOperator token ≠ errDivZero ∧
    errUnknownOperator token ≠ errMismatch ∧ errUnknownOperator token ≠ errNegativeSqrt ∧
    errUnknownOperator token ≠ errUnbalanced := by
  have e1 : goStr "неизвестный оператор: " =
      (goStr "неизвестный оператор: ").take 6 ++ (goStr "неизвестный оператор: ").drop 6 :=
    (List.take_append_drop 6 _).symm
  have e2 : ((goStr "неизвестный оператор: ").take 6).length = 6 := by decide
  have key : ∀ err : GoError, err.take 6 ≠ (goStr "неизвестный оператор: ").take 6 →
      errUnknownOperator token ≠ err := by
    intro err hne heq
    apply hne
    rw [← heq, errUnknownOperator, e1, List.append_assoc, List.take_left' e2]
    rw [← e1]
  exact ⟨key _ (by decide), key _ (by decide), key _ (by decide), key _ (by decide),
    key _ (by decide)⟩

theorem evalRPN_error_tokens (arch : Arch) (rpn : List GoString)
    (hall : ∀ t ∈ rpn, isNumberToken t = true ∨ isEmittedOperator t = true) (err : GoError)
    (h : (evalRPN arch rpn).2 = some err) :
    err = errInsufficient ∨ err = errDivZero ∨ err = errMismatch ∨
      ∃ t ∈ rpn, isNumberToken t = true ∧ parseFloat t = none ∧ err = errUnknownOperator t := by
  cases hl : evalLoop arch rpn [] with
  | error e =>
    have : err = e := by
      unfold evalRPN at h
      rw [hl] at h
      simpa using h.symm
    subst this
    rcases evalLoop_error_tokens arch rpn hall [] err hl with h1 | h1 | h1
    · exact Or.inl h1
    · exact Or.inr (Or.inl h1)
    · exact Or.inr (Or.inr (Or.inr h1))
  | ok stack =>
    by_cases h1 : stack.length = 1
    · match stack, h1 with
      | [v], _ =>
        rw [evalRPN_of_single arch rpn v hl] at h
        cases h
    · rw [evalRPN_of_other arch rpn stack hl h1] at h
      simp at h
      exact Or.inr (Or.inr (Or.inl h.symm))

theorem mem_numberRuns_of_token (e : GoString) (h : (shuntingYard e).2 = none) (t : GoString)
    (ht : t ∈ (shuntingYard e).1) (hn : isNumberToken t = true) : t ∈ numberRuns e := by
  rw [← (shuntingYard_tokens e h).2.1]
  exact List.mem_filter.mpr ⟨ht, hn⟩

theorem no_unknown_operator (arch : Arch) (e : GoString) (h : (shuntingYard e).2 = none)
    (hv : ∀ t ∈ numberRuns e, (parseFloat t).isSome = true) (token : GoString) :
    (evalRPN arch (shuntingYard e).1).2 ≠ some (errUnknownOperator token) := by
  intro hc
  obtain ⟨u1, u2, u3, _, _⟩ := unknown_ne_others token
  rcases evalRPN_error_tokens arch _ (shuntingYard_tokens e h).1 _ hc with h1 | h1 | h1 | h1
  · exact u1 h1
  · exact u2 h1
  · exact u3 h1
  · obtain ⟨t, ht, hn, hp, _⟩ := h1
    have := hv t (mem_numberRuns_of_token e h t ht hn)
    rw [hp] at this
    cases this

theorem numberRuns_step (num : GoString) (hnum : ∀ b ∈ num, isAsciiDigitOrDot b = true)
    (b : Byte) (s : GoString) :
    numberRuns (num ++ b :: s) =
      if isAsciiDigitOrDot b = true then numberRuns ((num ++ [b]) ++ s)
      else pendingToken num ++ numberRuns s := by
  split_ifs with h
  · simp
  · exact numberRuns_cut num hnum b (by simpa using h) s

theorem pendingToken_length (num : GoString) : (pendingToken num).length ≤ 1 := by
  unfold pendingToken
  split_ifs <;> simp

theorem numberRuns_length_le (s : GoString)
    (hs : ∀ b ∈ s, isAsciiDigitOrDot b = true ∨ isOperatorByte b = true) :
    ∀ num, (∀ b ∈ num, isAsciiDigitOrDot b = true) →
      (numberRuns (num ++ s)).length ≤ s.countP isOperatorByte + 1 := by
  induction s with
  | nil =>
    intro num hnum
    rw [List.append_nil, numberRuns_run num hnum]
    exact pendingToken_length num
  | cons b s ih =>
    intro num hnum
    have hs' : ∀ c ∈ s, isAsciiDigitOrDot c = true ∨ isOperatorByte c = true :=
      fun c hc => hs c (List.mem_cons_of_mem _ hc)
    rw [numberRuns_step num hnum]
    by_cases h : isAsciiDigitOrDot b = true
    · rw [if_pos h, List.countP_cons, ((byte_kinds b).2.1 h).2]
      have hnum' : ∀ c ∈ num ++ [b], isAsciiDigitOrDot c = true := by
        intro c hc
        rcases List.mem_append.mp hc with hc | hc
        · exact hnum c hc
        · rw [List.mem_singleton.mp hc]; exact h
      simpa using ih hs' _ hnum'
    · rw [if_neg h]
      have hop : isOperatorByte b = true := by
        rcases hs b (List.mem_cons_self _ _) with h1 | h1
        · exact absurd h1 h
        · exact h1
      rw [List.countP_cons, hop, List.length_append]
      have := ih hs' [] (by simp)
      have := pendingToken_length num
      simp only [List.nil_append] at *
      simp
      omega

theorem numberRuns_length_consecutive (u v : GoString) (op1 op2 : Byte)
    (hu : ∀ b ∈ u, isAsciiDigitOrDot b = true ∨ isOperatorByte b = true)
    (hv : ∀ b ∈ v, isAsciiDigitOrDot b = true ∨ isOperatorByte b = true)
    (h1 : isOperatorByte op1 = true) (h2 : isOperatorByte op2 = true) :
    ∀ num, (∀ b ∈ num, isAsciiDigitOrDot b = true) →
      (numberRuns (num ++ (u ++ op1 :: op2 :: v))).length ≤
        (u ++ op1 :: op2 :: v).countP isOperatorByte := by
  have n1 : isAsciiDigitOrDot op1 = false := ((byte_kinds op1).2.2.2.1 h1).2.1
  have n2 : isAsciiDigitOrDot op2 = false := ((byte_kinds op2).2.2.2.1 h2).2.1
  induction u with
  | nil =>
    intro num hnum
    rw [List.nil_append, numberRuns_cut num hnum op1 n1,
      show op2 :: v = [] ++ op2 :: v from rfl, numberRuns_cut [] (by simp) op2 n2]
    have := numberRuns_length_le v hv [] (by simp)
    have := pendingToken_length num
    simp only [List.nil_append, List.length_append, List.countP_cons, h1, h2] at *
    simp [pendingToken] at *
    omega
  | cons b u ih =>
    intro num hnum
    have hu' : ∀ c ∈ u, isAsciiDigitOrDot c = true ∨ isOperatorByte c = true :=
      fun c hc => hu c (List.mem_cons_of_mem _ hc)
    rw [List.cons_append, numberRuns_step num hnum]
    by_cases h : isAsciiDigitOrDot b = true
    · rw [if_pos h, List.countP_cons, ((byte_kinds b).2.1 h).2]
      have hnum' : ∀ c ∈ num ++ [b], isAsciiDigitOrDot c = true := by
        intro c hc
        rcases List.mem_append.mp hc with hc | hc
        · exact hnum c hc
        · rw [List.mem_singleton.mp hc]; exact h
      simpa using ih hu' _ hnum'
    · rw [if_neg h]
      have hop : isOperatorByte b = true := by
        rcases hu b (List.mem_cons_self _ _) with h1 | h1
        · exact absurd h1 h
        · exact h1
      rw [List.countP_cons, hop, List.length_append]
      have i1 := ih hu' [] (by simp)
      have i2 := pendingToken_length num
      rw [List.nil_append] at i1
      simp only [if_true]
      omega

theorem balanced_of_no_parens (e : GoString)
    (h : ∀ b ∈ e, isAsciiDigitOrDot b = true ∨ isOperatorByte b = true) :
    (shuntingYard e).2 = none := by
  by_contra hc
  have hu := (shuntingYard_fails_iff e).mp hc
  have c1 : e.count 0x28 = 0 := by
    rw [List.count_eq_zero]
    intro hm
    have := (byte_kinds 0x28).2.2.2.2.2 (Or.inl rfl)
    rcases h _ hm with h1 | h1
    · rw [this.1] at h1; cases h1
    · rw [this.2] at h1; cases h1
  have c2 : ∀ p : GoString, p <+: e → p.count 0x29 = 0 := by
    intro p hp
    rw [List.count_eq_zero]
    intro hm
    have := (byte_kinds 0x29).2.2.2.2.2 (Or.inr rfl)
    rcases h _ (hp.subset hm) with h1 | h1
    · rw [this.1] at h1; cases h1
    · rw [this.2] at h1; cases h1
  rcases hu with ⟨p, hp, hlt⟩ | hlt
  · rw [c2 p hp] at hlt
    omega
  · rw [c1] at hlt
    omega

theorem consecutive_operators_error (arch : Arch) (u v : GoString) (op1 op2 : Byte)
    (hu : ∀ b ∈ u, isAsciiDigitOrDot b = true ∨ isOperatorByte b = true)
    (hv : ∀ b ∈ v, isAsciiDigitOrDot b = true ∨ isOperatorByte b = true)
    (h1 : isOperatorByte op1 = true) (h2 : isOperatorByte op2 = true) :
    (shuntingYard (u ++ op1 :: op2 :: v)).2 = none ∧
    ∃ err, (evalRPN arch (shuntingYard (u ++ op1 :: op2 :: v)).1).2 = some err ∧
      (err = errInsufficient ∨ err = errDivZero ∨
        ∃ t ∈ numberRuns (u ++ op1 :: op2 :: v), parseFloat t = none ∧
          err = errUnknownOperator t) := by
  have hall : ∀ b ∈ u ++ op1 :: op2 :: v, isAsciiDigitOrDot b = true ∨ isOperatorByte b = true := by
    intro b hb
    rcases List.mem_append.mp hb with hb | hb
    · exact hu b hb
    · rcases List.mem_cons.mp hb with hb | hb
      · exact Or.inr (hb ▸ h1)
      · rcases List.mem_cons.mp hb with hb | hb
        · exact Or.inr (hb ▸ h2)
        · exact hv b hb
  have hs := balanced_of_no_parens _ hall
  obtain ⟨t1, t2, t3⟩ := shuntingYard_tokens _ hs
  refine ⟨hs, ?_⟩
  generalize hr : (shuntingYard (u ++ op1 :: op2 :: v)).1 = rpn at t1 t2 t3
  have hcount := numberRuns_length_consecutive u v op1 op2 hu hv h1 h2 [] (by simp)
  rw [List.nil_append, ← t2, ← t3, ← List.countP_eq_length_filter] at hcount
  have hN : numberCount rpn ≤ rpn.countP isNumberToken := by
    unfold numberCount
    apply List.countP_mono_left
    intro t ht hp
    rcases t1 t ht with h3 | h3
    · exact h3
    · rw [(emitted_not_number t h3).2.2.2.2.1] at hp
      cases hp
  have hO : rpn.countP isEmittedOperator ≤ otherCount rpn := by
    unfold otherCount
    apply List.countP_mono_left
    intro t _ hp
    rw [(emitted_not_number t hp).2.2.2.2.1]
    rfl
  have hne : rpn ≠ [] := by
    intro h0
    rw [h0] at t3
    simp only [List.countP_nil, List.countP_append, List.countP_cons, h1, h2] at t3
    simp at t3
    omega
  cases hl : evalLoop arch rpn [] with
  | ok stack =>
    obtain ⟨l1, l2, _⟩ := evalLoop_length arch rpn [] stack hl
    have := l2 hne
    simp only [List.length_nil, Nat.zero_add] at l1
    omega
  | error e =>
    refine ⟨e, ?_, ?_⟩
    · unfold evalRPN
      rw [hl]
    · rcases evalLoop_error_tokens arch rpn t1 [] e hl with h3 | h3 | ⟨t, ht, hn, hp, he⟩
      · exact Or.inl h3
      · exact Or.inr (Or.inl h3)
      · refine Or.inr (Or.inr ⟨t, ?_, hp, he⟩)
        rw [← t2]
        exact List.mem_filter.mpr ⟨ht, hn⟩

theorem unbalanced_without_open (s : GoString) (h1 : ¬ Unbalanced s) (h2 : (0x28 : Byte) ∈ s) :
    Unbalanced (removeByte 0x28 s) := by
  have a1 : ¬ (s.count 0x29 < s.count 0x28) := fun h => h1 (Or.inr h)
  have a2 : ¬ (s.count 0x28 < s.count 0x29) :=
    fun h => h1 (Or.inl ⟨s, List.prefix_refl _, h⟩)
  have a3 : 0 < s.count 0x28 := List.count_pos_iff.mpr h2
  have c1 : (removeByte 0x28 s).count 0x28 = 0 := by
    rw [List.count_eq_zero]
    intro hm
    have := (List.mem_filter.mp hm).2
    simp at this
  have c2 : (removeByte 0x28 s).count 0x29 = s.count 0x29 := by
    unfold removeByte
    rw [List.count_filter]
    decide
  left
  refine ⟨removeByte 0x28 s, List.prefix_refl _, ?_⟩
  rw [c1, c2]
  omega

theorem calculate_of_unbalanced (arch : Arch) (s : GoString) (h : Unbalanced s) :
    calculate arch s = (Float64.zero, some errUnbalanced) := by
  unfold calculate
  rw [shuntingYard_error s ((shuntingYard_fails_iff s).mpr h)]

theorem calculate_success_balanced (arch : Arch) (s : GoString)
    (h : (calculate arch s).2 = none) : ¬ Unbalanced s := by
  intro hu
  rw [calculate_of_unbalanced arch s hu] at h
  cases h

theorem evaluate_intermediate (arch : Arch) (e : GoString)
    (h : (evaluateExpression arch e).1 ≠ goStr "Ошибка") :
    ((0x28 : Byte) ∉ removeByte 0x20 e →
      (evaluateExpression arch e).2 = (evaluateExpression arch e).1) ∧
    ((0x28 : Byte) ∈ removeByte 0x20 e →
      calculate arch (removeByte 0x28 (removeByte 0x20 e)) = (Float64.zero, some errUnbalanced) ∧
      (evaluateExpression arch e).2 = goStr "0.00") := by
  have hm := (evaluate_marker_iff arch e).not.mp h
  rw [not_or] at hm
  have hv : (decodeRunes (removeByte 0x20 e)).any (invalidRune arch) = false := by simpa using hm.1
  have hc : (calculate arch (removeByte 0x20 e)).2 = none := by simpa using hm.2
  rw [evaluate_of_success arch e hv hc]
  constructor
  · intro hno
    have : removeByte 0x28 (removeByte 0x20 e) = removeByte 0x20 e :=
      removeByte_of_not_mem _ _ (fun b hb heq => hno (heq ▸ hb))
    simp only [this]
  · intro hin
    have hu := unbalanced_without_open _ (calculate_success_balanced arch _ hc) hin
    have hcal := calculate_of_unbalanced arch _ hu
    refine ⟨hcal, ?_⟩
    simp only [hcal]
    decide

theorem indexAt_drop {α : Type} (s : List α) (n : Nat) (b : α) (rest : List α)
    (h : s.drop n = b :: rest) : indexAt s (n : Int) = some b := by
  unfold indexAt
  rw [if_pos (Int.ofNat_nonneg n), Int.toNat_ofNat, List.get?_eq_getElem?, ← List.head?_drop, h]
  rfl

theorem fromTop_one {α : Type} (x : α) (s : List α) : fromTop (x :: s) 1 = some x := by
  unfold fromTop
  have h : ((x :: s).length : Int) - ((1 : Nat) : Int) = ((s.length : Nat) : Int) := by
    simp
  rw [h]
  apply indexAt_drop _ _ _ []
  rw [List.reverse_cons, List.drop_left']
  simp

theorem fromTop_two {α : Type} (x y : α) (s : List α) : fromTop (x :: y :: s) 2 = some y := by
  unfold fromTop
  have h : ((x :: y :: s).length : Int) - ((2 : Nat) : Int) = ((s.length : Nat) : Int) := by
    simp only [List.length_cons]
    push_cast
    ring
  rw [h]
  apply indexAt_drop _ _ _ [x]
  rw [List.reverse_cons, List.reverse_cons, List.append_assoc, List.drop_left']
  · rfl
  · simp

theorem dropTop_one {α : Type} (x : α) (s : List α) : dropTop (x :: s) 1 = some s := by
  unfold dropTop
  have h : ((x :: s).length : Int) - ((1 : Nat) : Int) = ((s.length : Nat) : Int) := by
    simp
  rw [h, if_pos (Int.ofNat_nonneg _), Int.toNat_ofNat, List.reverse_cons, List.take_left']
  · simp
  · simp

theorem dropTop_two {α : Type} (x y : α) (s : List α) : dropTop (x :: y :: s) 2 = some s := by
  unfold dropTop
  have h : ((x :: y :: s).length : Int) - ((2 : Nat) : Int) = ((s.length : Nat) : Int) := by
    simp only [List.length_cons]
    push_cast
    ring
  rw [h, if_pos (Int.ofNat_nonneg _), Int.toNat_ofNat, List.reverse_cons, List.reverse_cons,
    List.append_assoc, List.take_left']
  · simp
  · simp

theorem popWhileGe_length (p : Int) (ops : List GoString) :
    ∀ out, (popWhileGe p out ops).2.length ≤ ops.length := by
  induction ops with
  | nil => intro out; simp [popWhileGe]
  | cons top ops ih =>
    intro out
    unfold popWhileGe
    split_ifs
    · exact Nat.le_succ_of_le (ih _)
    · exact Nat.le_refl _

theorem popUntilParen_length (ops : List GoString) :
    ∀ out, (popUntilParen out ops).2.length ≤ ops.length := by
  induction ops with
  | nil => intro out; simp [popUntilParen]
  | cons top ops ih =>
    intro out
    unfold popUntilParen
    split_ifs
    · exact Nat.le_succ_of_le (ih _)
    · exact Nat.le_refl _

theorem popWhileGeRun_eq (p : Int) (ops : List GoString) :
    ∀ fuel out, ops.length + 1 ≤ fuel →
      popWhileGeRun p fuel out ops = .done (popWhileGe p out ops) := by
  induction ops with
  | nil =>
    intro fuel out h
    obtain ⟨f, rfl⟩ : ∃ f, fuel = f + 1 := ⟨fuel - 1, by omega⟩
    simp [popWhileGeRun, popWhileGe]
  | cons top ops ih =>
    intro fuel out h
    obtain ⟨f, rfl⟩ : ∃ f, fuel = f + 1 := ⟨fuel - 1, by omega⟩
    have hf : ops.length + 1 ≤ f := by simpa using h
    unfold popWhileGeRun popWhileGe
    rw [if_pos (by simp), fromTop_one]
    simp only
    split_ifs
    · rw [dropTop_one]
      exact ih f _ hf
    · rfl

theorem popUntilParenRun_eq (ops : List GoString) :
    ∀ fuel out, ops.length + 1 ≤ fuel →
      popUntilParenRun fuel out ops = .done (popUntilParen out ops) := by
  induction ops with
  | nil =>
    intro fuel out h
    obtain ⟨f, rfl⟩ : ∃ f, fuel = f + 1 := ⟨fuel - 1, by omega⟩
    simp [popUntilParenRun, popUntilParen]
  | cons top ops ih =>
    intro fuel out h
    obtain ⟨f, rfl⟩ : ∃ f, fuel = f + 1 := ⟨fuel - 1, by omega⟩
    have hf : ops.length + 1 ≤ f := by simpa using h
    unfold popUntilParenRun popUntilParen
    rw [if_pos (by simp), fromTop_one]
    simp only
    split_ifs
    · rw [dropTop_one]
      exact ih f _ hf
    · rfl

theorem drainRun_eq (ops : List GoString) :
    ∀ fuel out, ops.length + 1 ≤ fuel → drainRun fuel out ops = .done (drain out ops) := by
  induction ops with
  | nil =>
    intro fuel out h
    obtain ⟨f, rfl⟩ : ∃ f, fuel = f + 1 := ⟨fuel - 1, by omega⟩
    simp [drainRun, drain]
  | cons top ops ih =>
    intro fuel out h
    obtain ⟨f, rfl⟩ : ∃ f, fuel = f + 1 := ⟨fuel - 1, by omega⟩
    have hf : ops.length + 1 ≤ f := by simpa using h
    unfold drainRun drain
    rw [if_pos (by simp), fromTop_one]
    simp only
    split_ifs
    · rfl
    · rw [dropTop_one]
      exact ih f _ hf

theorem scan_flush (rest num : GoString) (out ops : List GoString) (hnum : num ≠ [])
    (hrest : ∀ b r, rest = b :: r → isNumberByte b = false) :
    scan rest num out ops = scan rest [] (out ++ [num]) ops := by
  have e1 : flushNumber num out = out ++ [num] := by simp [flushNumber, hnum]
  have e2 : flushNumber [] (out ++ [num]) = out ++ [num] := by simp [flushNumber]
  cases rest with
  | nil => simp only [scan, e1, e2]
  | cons b r =>
    have hb := hrest b r rfl
    unfold scan
    simp only [hb, e1, e2, Bool.false_eq_true, if_false]

theorem readNumberRun_spec (expr : GoString) :
    ∀ fuel n num, n ≤ expr.length → expr.length - n + 1 ≤ fuel →
      ∃ (j : Nat) (num' : GoString), readNumberRun expr fuel (n : Int) num = .done ((j : Int), num') ∧
        n ≤ j ∧ j ≤ expr.length ∧ (num ≠ [] → num' ≠ []) ∧
        (∀ b r, expr.drop n = b :: r → isNumberByte b = true → n < j ∧ num' ≠ []) ∧
        (∀ b r, expr.drop j = b :: r → isNumberByte b = false) ∧
        ∀ out ops, scan (expr.drop n) num out ops = scan (expr.drop j) num' out ops := by
  intro fuel
  induction fuel with
  | zero => intro n num _ h; omega
  | succ f ih =>
    intro n num hn hf
    unfold readNumberRun
    by_cases hlt : n < expr.length
    · have hd : expr.drop n = expr[n] :: expr.drop (n + 1) := List.drop_eq_getElem_cons hlt
      rw [if_pos (by exact_mod_cast hlt), indexAt_drop expr n _ _ hd]
      simp only
      by_cases hb : isNumberByte expr[n] = true
      · rw [if_pos hb]
        obtain ⟨j, num', h1, h2, h3, h4, _, h6, h7⟩ :=
          ih (n + 1) (num ++ encodeRune (runeOfByte expr[n])) hlt (by omega)
        have hne : num ++ encodeRune (runeOfByte expr[n]) ≠ [] := by
          rw [((byte_kinds expr[n]).2.1 ((byte_kinds expr[n]).1 ▸ hb)).1]
          simp
        refine ⟨j, num', ?_, by omega, h3, fun _ => h4 hne, fun _ _ _ _ => ⟨by omega, h4 hne⟩,
          h6, ?_⟩
        · rw [← h1]; push_cast; rfl
        · intro out ops
          rw [hd, ← h7]
          conv_lhs => unfold scan
          rw [if_pos hb]
      · rw [if_neg hb]
        refine ⟨n, num, rfl, le_refl _, hn, id, ?_, ?_, fun _ _ => rfl⟩
        · intro b r hbr hnb
          rw [hd] at hbr
          injection hbr with e1 _
          rw [e1] at hb
          exact absurd hnb hb
        · intro b r hbr
          rw [hd] at hbr
          injection hbr with e1 _
          rw [← e1]
          simpa using hb
    · have hlen : n = expr.length := by omega
      rw [if_neg (by exact_mod_cast hlt)]
      refine ⟨n, num, rfl, le_refl _, hn, id, ?_, ?_, fun _ _ => rfl⟩
      · intro b r hbr
        rw [hlen, List.drop_length] at hbr
        cases hbr
      · intro b r hbr
        rw [hlen, List.drop_length] at hbr
        cases hbr

theorem scanRun_eq (expr : GoString) :
    ∀ fuel n out ops, n ≤ expr.length → 2 * (expr.length - n) + ops.length + 2 ≤ fuel →
      scanRun expr fuel (n : Int) out ops = .done (scan (expr.drop n) [] out ops) := by
  intro fuel
  induction fuel with
  | zero => intro n out ops _ h; omega
  | succ f ih =>
    intro n out ops hn hf
    have e0 : ∀ o : List GoString, flushNumber [] o = o := fun o => by simp [flushNumber]
    unfold scanRun
    by_cases hlt : n < expr.length
    · have hd : expr.drop n = expr[n] :: expr.drop (n + 1) := List.drop_eq_getElem_cons hlt
      have hi : ((n : Int) + 1) = ((n + 1 : Nat) : Int) := by push_cast; rfl
      rw [if_pos (by exact_mod_cast hlt), indexAt_drop expr n _ _ hd, hd]
      simp only
      conv_rhs => unfold scan
      simp only [e0]
      by_cases hb : isNumberByte expr[n] = true
      · rw [if_pos hb, if_pos hb]
        obtain ⟨j, num', h1, h2, h3, _, h5, h6, h7⟩ :=
          readNumberRun_spec expr f n [] hn (by omega)
        obtain ⟨h8, h9⟩ := h5 _ _ hd hb
        rw [h1]
        simp only [Run.bind]
        have hj : ((j : Int) - 1 + 1) = (j : Int) := by ring
        rw [hj, ih j _ _ h3 (by omega), ← scan_flush _ _ _ _ h9 h6, ← h7, hd]
        conv_lhs => unfold scan
        rw [if_pos hb]
      · rw [if_neg hb, if_neg hb]
        by_cases hop : containsRune "+-*/^√" (runeOfByte expr[n]) = true
        · rw [if_pos hop, if_pos hop, popWhileGeRun_eq _ _ _ _ (by omega)]
          simp only [Run.bind]
          rw [hi]
          have := popWhileGe_length (precedence (encodeRune (runeOfByte expr[n]))) ops out
          exact ih (n + 1) _ _ hlt (by simp only [List.length_cons]; omega)
        · rw [if_neg hop, if_neg hop]
          by_cases hl : runeOfByte expr[n] = '('.toNat
          · rw [if_pos hl, if_pos hl, hi]
            exact ih (n + 1) _ _ hlt (by simp only [List.length_cons]; omega)
          · rw [if_neg hl, if_neg hl]
            by_cases hr : runeOfByte expr[n] = ')'.toNat
            · rw [if_pos hr, if_pos hr, popUntilParenRun_eq _ _ _ (by omega)]
              simp only [Run.bind]
              have := popUntilParen_length ops out
              rcases hp : popUntilParen out ops with ⟨o, _ | ⟨top, rest⟩⟩
              · simp
              · rw [hp] at this
                simp only [List.length_cons] at this
                simp only [List.length_cons, Nat.add_one_ne_zero, if_false, dropTop_one, hi]
                exact ih (n + 1) _ _ hlt (by omega)
            · rw [if_neg hr, if_neg hr, hi]
              exact ih (n + 1) _ _ hlt (by omega)
    · have hlen : n = expr.length := by omega
      rw [if_neg (by exact_mod_cast hlt), hlen, List.drop_length]
      simp only [scan, e0]
      exact drainRun_eq ops f out (by omega)

theorem shuntingYardRun_eq (expr : GoString) (fuel : Nat) (h : 2 * expr.length + 2 ≤ fuel) :
    shuntingYardRun fuel expr = .done (shuntingYard expr) := by
  unfold shuntingYardRun shuntingYard
  have := scanRun_eq expr fuel 0 [] [] (Nat.zero_le _) (by simpa using h)
  simpa using this

theorem evalStepRun_eq (arch : Arch) (stack : List Float64) (token : GoString) :
    evalStepRun arch stack token = .done (evalStep arch stack token) := by
  unfold evalStepRun evalStep
  cases parseFloat token with
  | some num => rfl
  | none =>
    match stack with
    | [] => rfl
    | [_] => rfl
    | b :: a :: rest =>
      simp only [List.length_cons]
      rw [if_neg (by omega), fromTop_one, fromTop_two, dropTop_two]

theorem evalLoopRun_eq (arch : Arch) (rpn : List GoString) :
    ∀ stack, evalLoopRun arch rpn stack = .done (evalLoop arch rpn stack) := by
  induction rpn with
  | nil => intro stack; rfl
  | cons token rpn ih =>
    intro stack
    unfold evalLoopRun evalLoop
    rw [evalStepRun_eq]
    simp only [Run.bind]
    cases evalStep arch stack token with
    | ok st => exact ih st
    | error err => rfl

theorem evalRPNRun_eq (arch : Arch) (rpn : List GoString) :
    evalRPNRun arch rpn = .done (evalRPN arch rpn) := by
  unfold evalRPNRun evalRPN
  rw [evalLoopRun_eq]
  simp only [Run.bind]
  cases evalLoop arch rpn [] with
  | error err => rfl
  | ok st =>
    match st with
    | [] => rfl
    | [v] => rfl
    | _ :: _ :: _ => rfl

theorem calculateRun_eq (arch : Arch) (expr : GoString) (fuel : Nat)
    (h : 2 * expr.length + 2 ≤ fuel) :
    calculateRun arch fuel expr = .done (calculate arch expr) := by
  unfold calculateRun calculate
  rw [shuntingYardRun_eq expr fuel h]
  simp only [Run.bind]
  rcases shuntingYard expr with ⟨rpn, _ | err⟩
  · simp only [evalRPNRun_eq, Run.bind]
    rcases evalRPN arch rpn with ⟨v, _ | err⟩ <;> rfl
  · rfl

theorem removeByte_length (b : Byte) (s : GoString) : (removeByte b s).length ≤ s.length :=
  List.length_filter_le _ _

theorem evaluateExpressionRun_eq (arch : Arch) (expr : GoString) (fuel : Nat)
    (h : 2 * expr.length + 2 ≤ fuel) :
    evaluateExpressionRun arch fuel expr = .done (evaluateExpression arch expr) := by
  unfold evaluateExpressionRun evaluateExpression
  have l1 := removeByte_length 0x20 expr
  have l2 := removeByte_length 0x28 (removeByte 0x20 expr)
  simp only
  split_ifs
  · rfl
  · rw [calculateRun_eq arch _ fuel (by omega)]
    simp only [Run.bind]
    rcases calculate arch (removeByte 0x20 expr) with ⟨v, _ | err⟩
    · rw [calculateRun_eq arch (removeByte 0x28 (removeByte 0x20 expr)) fuel (by omega)]
    · rfl

theorem run_checks :
    indexAt (goStr "12") 2 = none ∧ indexAt (goStr "12") (-1) = none ∧
    indexAt (goStr "12") 1 = some 0x32 ∧
    fromTop ([] : List GoString) 1 = none ∧ dropTop ([] : List GoString) 1 = none ∧
    fromTop [Float64.one] 2 = none ∧ dropTop [Float64.one] 2 = none ∧
    fromTop [goStr "*", goStr "+"] 1 = some (goStr "*") ∧
    dropTop [goStr "*", goStr "+"] 1 = some [goStr "+"] ∧
    shuntingYardRun 3 (goStr "1+2") = .timeout ∧
    shuntingYardRun 8 (goStr "1+2") = .done ([goStr "1", goStr "2", goStr "+"], none) ∧
    shuntingYardRun 9 (goStr "12)") = .done ([], some errUnbalanced) ∧
    evalRPNRun amd64 [goStr "+"] = .done (Float64.zero, some errInsufficient) ∧
    evaluateExpressionRun amd64 16 (goStr "(1+2)*3") = .done (goStr "9.00", goStr "0.00") := by
  refine ⟨?_, ?_, ?_, ?_, ?_, ?_, ?_, ?_, ?_, ?_, ?_, ?_, ?_, ?_⟩ <;> decide

theorem not_unbalanced_of_success (e : GoString) (h : (shuntingYard e).2 = none) :
    ¬ Unbalanced e :=
  fun hu => (shuntingYard_fails_iff e).mpr hu h

theorem success_of_not_unbalanced (e : GoString) (h : ¬ Unbalanced e) :
    (shuntingYard e).2 = none := by
  by_contra hc
  exact h ((shuntingYard_fails_iff e).mp hc)

theorem number_token_not_paren (t : GoString) (h : isNumberToken t = true) :
    t ≠ goStr "(" ∧ t ≠ goStr ")" := by
  constructor
  · rintro rfl
    revert h
    decide
  · rintro rfl
    revert h
    decide

theorem mem_operators_iff (b : Byte) : b ∈ goStr "+-*/^" ↔ isOperatorByte b = true := by
  unfold isOperatorByte
  simp

/-! ## The properties of the specification, continued -/

/-- Claim C11: for every implementation (the width of `int` and the digits of
`unicode.IsDigit` are those of the toolchain in use), the first component of
`evaluateExpression` is the marker "Ошибка" exactly when the validator rejects the
expression without its spaces or `calculate` fails on it; the second component is then "Некорректное выражение" for a rejected
character, and otherwise the error of `calculate`, which is the error returned by
`shuntingYard` or by `evalRPN`; when the marker is not returned both components are
two-decimal renderings of floating-point values. -/
theorem evaluateExpression_error_marker (arch : Arch) (e : GoString) :
    ((evaluateExpression arch e).1 = goStr "Ошибка" ↔
      ((decodeRunes (removeByte 0x20 e)).any (invalidRune arch) = true ∨
        (calculate arch (removeByte 0x20 e)).2 ≠ none)) ∧
    ((decodeRunes (removeByte 0x20 e)).any (invalidRune arch) = true →
      evaluateExpression arch e = (goStr "Ошибка", goStr "Некорректное выражение")) ∧
    (∀ err : GoError, (decodeRunes (removeByte 0x20 e)).any (invalidRune arch) = false →
      (calculate arch (removeByte 0x20 e)).2 = some err →
      evaluateExpression arch e = (goStr "Ошибка", err) ∧
      ((shuntingYard (removeByte 0x20 e)).2 = some err ∨
        ((shuntingYard (removeByte 0x20 e)).2 = none ∧
          (evalRPN arch (shuntingYard (removeByte 0x20 e)).1).2 = some err))) ∧
    ((evaluateExpression arch e).1 ≠ goStr "Ошибка" →
      evaluateExpression arch e =
        (sprintf2 (calculate arch (removeByte 0x20 e)).1,
          sprintf2 (calculate arch (removeByte 0x28 (removeByte 0x20 e))).1)) := by
  refine ⟨evaluate_marker_iff arch e, evaluate_of_invalid arch e, ?_, ?_⟩
  · intro err hv hc
    refine ⟨evaluate_of_error arch e err hv hc, ?_⟩
    rw [calculate_eq] at hc
    cases hs : (shuntingYard (removeByte 0x20 e)).2 with
    | none =>
      rw [hs] at hc
      exact Or.inr ⟨rfl, hc⟩
    | some err' =>
      rw [hs] at hc
      exact Or.inl hc
  · intro h
    have hm := (evaluate_marker_iff arch e).not.mp h
    rw [not_or] at hm
    exact evaluate_of_success arch e (by simpa using hm.1) (by simpa using hm.2)

theorem evaluateExpression_error_marker_witness :
    (decodeRunes (removeByte 0x20 (goStr "2a"))).any (invalidRune amd64) = true ∧
    evaluateExpression amd64 (goStr "2a") = (goStr "Ошибка", goStr "Некорректное выражение") ∧
    (calculate amd64 (removeByte 0x20 (goStr "1/0"))).2 = some (goStr "деление на ноль") ∧
    evaluateExpression amd64 (goStr "1/0") = (goStr "Ошибка", goStr "деление на ноль") ∧
    (evaluateExpression amd64 (goStr "1+2")).1 ≠ goStr "Ошибка" ∧
    evaluateExpression amd64 (goStr "1+2") =
      (sprintf2 (calculate amd64 (removeByte 0x20 (goStr "1+2"))).1,
        sprintf2 (calculate amd64 (removeByte 0x28 (removeByte 0x20 (goStr "1+2")))).1) :=
  ⟨by decide, (evaluateExpression_error_marker amd64 (goStr "2a")).2.1 (by decide),
    by decide,
    ((evaluateExpression_error_marker amd64 (goStr "1/0")).2.2.1 (goStr "деление на ноль")
      (by decide) (by decide)).1,
    by decide, (evaluateExpression_error_marker amd64 (goStr "1+2")).2.2.2 (by decide)⟩

/-- Claim C12 fails on "1+2*1.2.3": the expression passes the validator, `shuntingYard`
succeeds with the run "1.2.3" as one token, `strconv.ParseFloat` rejects that token and
`evalRPN` returns "неизвестный оператор: 1.2.3". -/
theorem unknown_operator_counterexample :
    (decodeRunes (removeByte 0x20 (goStr "1+2*1.2.3"))).any (invalidRune amd64) = false ∧
    shuntingYard (goStr "1+2*1.2.3") =
      ([goStr "1", goStr "2", goStr "1.2.3", goStr "*", goStr "+"], none) ∧
    evalRPN amd64 (shuntingYard (goStr "1+2*1.2.3")).1 =
      (Float64.zero, some (goStr "неизвестный оператор: 1.2.3")) ∧
    evaluateExpression amd64 (goStr "1+2*1.2.3") =
      (goStr "Ошибка", goStr "неизвестный оператор: 1.2.3") := by
  refine ⟨?_, ?_, ?_, ?_⟩ <;> decide

/-- Claim C12, amended: for every expression on which `shuntingYard` succeeds and
whose maximal runs of digits and decimal points are all accepted by
`strconv.ParseFloat`, `evalRPN` applied to the output of the converter never returns
the error "неизвестный оператор: ..." (for any token). -/
theorem unknown_operator_unreachable (arch : Arch) (e : GoString)
    (h : (shuntingYard e).2 = none)
    (hv : ∀ t ∈ numberRuns e, (parseFloat t).isSome = true) (token : GoString) :
    (evalRPN arch (shuntingYard e).1).2 ≠ some (goStr "неизвестный оператор: " ++ token) :=
  no_unknown_operator arch e h hv token

theorem unknown_operator_unreachable_witness :
    (shuntingYard (goStr "1+2*3.5")).2 = none ∧
    (∀ t ∈ numberRuns (goStr "1+2*3.5"), (parseFloat t).isSome = true) ∧
    (evalRPN amd64 (shuntingYard (goStr "1+2*3.5")).1).2 ≠
      some (goStr "неизвестный оператор: " ++ goStr "3.5") :=
  ⟨by decide, by decide,
    unknown_operator_unreachable amd64 (goStr "1+2*3.5") (by decide) (by decide) (goStr "3.5")⟩

/-- Claim C13: when no step of the loop of `evalRPN` fails, the final stack holds
as many values as the number tokens (tokens accepted by `strconv.ParseFloat`) exceed
the other tokens; `evalRPN` succeeds exactly when that excess is one, returning the
single value of the stack, and returns "ошибка вычисления" otherwise; whenever
`evalRPN` returns without error the loop has ended with exactly one value. -/
theorem evalRPN_single_value (arch : Arch) (rpn : List GoString) :
    (∀ stack : List Float64, evalLoop arch rpn [] = .ok stack →
      stack.length + otherCount rpn = numberCount rpn ∧
      ((evalRPN arch rpn).2 = none ↔ numberCount rpn = otherCount rpn + 1) ∧
      (numberCount rpn = otherCount rpn + 1 →
        ∃ v, stack = [v] ∧ evalRPN arch rpn = (v, none)) ∧
      (numberCount rpn ≠ otherCount rpn + 1 →
        evalRPN arch rpn = (Float64.zero, some (goStr "ошибка вычисления")))) ∧
    ((evalRPN arch rpn).2 = none →
      ∃ v, evalLoop arch rpn [] = .ok [v] ∧ evalRPN arch rpn = (v, none)) := by
  refine ⟨?_, evalRPN_success arch rpn⟩
  intro stack h
  have hl := (evalLoop_length arch rpn [] stack h).1
  simp only [List.length_nil, Nat.zero_add] at hl
  have hone : numberCount rpn = otherCount rpn + 1 → ∃ v, stack = [v] := by
    intro hc
    match stack, hl with
    | [v], _ => exact ⟨v, rfl⟩
    | [], hl => simp only [List.length_nil] at hl; omega
    | _ :: _ :: _, hl => simp only [List.length_cons] at hl; omega
  have hother : numberCount rpn ≠ otherCount rpn + 1 →
      evalRPN arch rpn = (Float64.zero, some errMismatch) := by
    intro hc
    exact evalRPN_of_other arch rpn stack h (by omega)
  refine ⟨hl, ?_, ?_, hother⟩
  · constructor
    · intro hs
      by_contra hc
      rw [hother hc] at hs
      cases hs
    · intro hc
      obtain ⟨v, rfl⟩ := hone hc
      rw [evalRPN_of_single arch rpn v h]
  · intro hc
    obtain ⟨v, rfl⟩ := hone hc
    exact ⟨v, rfl, evalRPN_of_single arch rpn v h⟩

theorem evalRPN_single_value_witness :
    evalLoop amd64 [goStr "1", goStr "2"] [] = .ok [Float64.ofNat 2, Float64.ofNat 1] ∧
    numberCount [goStr "1", goStr "2"] ≠ otherCount [goStr "1", goStr "2"] + 1 ∧
    evalRPN amd64 [goStr "1", goStr "2"] = (Float64.zero, some (goStr "ошибка вычисления")) ∧
    (evalRPN amd64 [goStr "1", goStr "2", goStr "+"]).2 = none ∧
    (∃ v, evalLoop amd64 [goStr "1", goStr "2", goStr "+"] [] = .ok [v] ∧
      evalRPN amd64 [goStr "1", goStr "2", goStr "+"] = (v, none)) :=
  ⟨rfl, by decide,
    ((evalRPN_single_value amd64 [goStr "1", goStr "2"]).1 _ rfl).2.2.2 (by decide),
    by decide, (evalRPN_single_value amd64 [goStr "1", goStr "2", goStr "+"]).2 (by decide)⟩

/-- Claim C14 fails on "(1)2+*3": the expression is over the validated alphabet, its
parentheses are balanced and it contains the consecutive operators "+*", yet
`evalRPN` succeeds on the output of the converter with the value 7; and on "1/0++2" the
failure of `evalRPN` is "деление на ноль", not "недостаточно операндов". -/
theorem consecutive_operators_counterexample :
    (decodeRunes (goStr "(1)2+*3")).any (invalidRune amd64) = false ∧
    ¬ Unbalanced (goStr "(1)2+*3") ∧
    shuntingYard (goStr "(1)2+*3") =
      ([goStr "1", goStr "2", goStr "3", goStr "*", goStr "+"], none) ∧
    evalRPN amd64 (shuntingYard (goStr "(1)2+*3")).1 = (Float64.ofNat 7, none) ∧
    evaluateExpression amd64 (goStr "(1)2+*3") = (goStr "7.00", goStr "0.00") ∧
    evalRPN amd64 (shuntingYard (goStr "1/0++2")).1 =
      (Float64.zero, some (goStr "деление на ноль")) := by
  refine ⟨by decide, not_unbalanced_of_success _ (by decide), by decide, by decide, by decide,
    by decide⟩

/-- Claim C14, amended: `shuntingYard` succeeds on every expression with balanced
parentheses, whatever its operators; and on every expression made only of ASCII
digits, decimal points and the operators `+ - * / ^` that contains two consecutive
operators, `shuntingYard` succeeds and `evalRPN` fails on its output, with
"недостаточно операндов", or "деление на ноль", or "неизвестный оператор: t" for a run
`t` of digits and points of the expression that `strconv.ParseFloat` rejects. -/
theorem consecutive_operators_fail (arch : Arch) :
    (∀ e : GoString, ¬ Unbalanced e → (shuntingYard e).2 = none) ∧
    (∀ (u v : GoString) (op1 op2 : Byte),
      (∀ b ∈ u, isAsciiDigitOrDot b = true ∨ b ∈ goStr "+-*/^") →
      (∀ b ∈ v, isAsciiDigitOrDot b = true ∨ b ∈ goStr "+-*/^") →
      op1 ∈ goStr "+-*/^" → op2 ∈ goStr "+-*/^" →
      (shuntingYard (u ++ op1 :: op2 :: v)).2 = none ∧
      ∃ err, (evalRPN arch (shuntingYard (u ++ op1 :: op2 :: v)).1).2 = some err ∧
        (err = goStr "недостаточно операндов" ∨ err = goStr "деление на ноль" ∨
          ∃ t ∈ numberRuns (u ++ op1 :: op2 :: v), parseFloat t = none ∧
            err = goStr "неизвестный оператор: " ++ t)) := by
  refine ⟨success_of_not_unbalanced, ?_⟩
  intro u v op1 op2 hu hv h1 h2
  exact consecutive_operators_error arch u v op1 op2
    (fun b hb => (hu b hb).imp id (mem_operators_iff b).mp)
    (fun b hb => (hv b hb).imp id (mem_operators_iff b).mp)
    ((mem_operators_iff op1).mp h1) ((mem_operators_iff op2).mp h2)

theorem consecutive_operators_fail_witness :
    ¬ Unbalanced (goStr "(1)2+*3") ∧ (shuntingYard (goStr "(1)2+*3")).2 = none ∧
    ((shuntingYard (goStr "1" ++ 0x2B :: 0x2A :: goStr "2")).2 = none ∧
      ∃ err, (evalRPN amd64 (shuntingYard (goStr "1" ++ 0x2B :: 0x2A :: goStr "2")).1).2 =
          some err ∧
        (err = goStr "недостаточно операндов" ∨ err = goStr "деление на ноль" ∨
          ∃ t ∈ numberRuns (goStr "1" ++ 0x2B :: 0x2A :: goStr "2"), parseFloat t = none ∧
            err = goStr "неизвестный оператор: " ++ t)) :=
  ⟨not_unbalanced_of_success _ (by decide),
    (consecutive_operators_fail amd64).1 _ (not_unbalanced_of_success _ (by decide)),
    (consecutive_operators_fail amd64).2 (goStr "1") (goStr "2") 0x2B 0x2A (by decide)
      (by decide) (by decide) (by decide)⟩

/-- Claim C15: on the token "√" with `b` on top of the stack and `a` below it,
`evalRPN` fails with "корень из отрицательного числа" exactly when `a < 0` and
otherwise replaces both by `sqrt a`; hence for all token lists `p`, `s` and number
tokens `a`, `b`, `b'`, `evalRPN (p ++ [a, b, "√"] ++ s)` and
`evalRPN (p ++ [a, b', "√"] ++ s)` are equal, value and error alike. -/
theorem sqrt_ignores_top_operand (arch : Arch) :
    (∀ (stack : List Float64) (a b : Float64),
      evalStep arch (b :: a :: stack) (goStr "√") =
        if Float64.ltZero a then .error (goStr "корень из отрицательного числа")
        else .ok (sqrt a :: stack)) ∧
    (∀ (p s : List GoString) (a b b' : GoString),
      (parseFloat a).isSome = true → (parseFloat b).isSome = true →
      (parseFloat b').isSome = true →
      evalRPN arch (p ++ [a, b, goStr "√"] ++ s) =
        evalRPN arch (p ++ [a, b', goStr "√"] ++ s)) := by
  constructor
  · intro stack a b
    rw [evalStep_sqrt]
    rfl
  · intro p s a b b' ha hb hb'
    obtain ⟨A, hA⟩ := Option.isSome_iff_exists.mp ha
    obtain ⟨B, hB⟩ := Option.isSome_iff_exists.mp hb
    obtain ⟨B', hB'⟩ := Option.isSome_iff_exists.mp hb'
    exact evalRPN_sqrt_independent arch p s a b b' A B B' hA hB hB'

theorem sqrt_ignores_top_operand_witness :
    (parseFloat (goStr "9")).isSome = true ∧ (parseFloat (goStr "1")).isSome = true ∧
    (parseFloat (goStr "7.5")).isSome = true ∧
    evalRPN amd64 ([goStr "2"] ++ [goStr "9", goStr "1", goStr "√"] ++ [goStr "+"]) =
      evalRPN amd64 ([goStr "2"] ++ [goStr "9", goStr "7.5", goStr "√"] ++ [goStr "+"]) :=
  ⟨by decide, by decide, by decide,
    (sqrt_ignores_top_operand amd64).2 [goStr "2"] [goStr "+"] (goStr "9") (goStr "1")
      (goStr "7.5") (by decide) (by decide) (by decide)⟩

/-- Claim C16: when `shuntingYard` succeeds, every token of the returned sequence is
a non-empty run of ASCII digits and decimal points or one of the operator symbols
`+ - * / ^ √`, and none is "(" or ")". -/
theorem shuntingYard_output_tokens (e : GoString) (h : (shuntingYard e).2 = none) :
    ∀ t ∈ (shuntingYard e).1,
      (NumberRun t ∨
        t ∈ [goStr "+", goStr "-", goStr "*", goStr "/", goStr "^", goStr "√"]) ∧
      t ≠ goStr "(" ∧ t ≠ goStr ")" := by
  intro t ht
  rcases (shuntingYard_tokens e h).1 t ht with hn | ho
  · exact ⟨Or.inl ((numberToken_iff t).mp hn), number_token_not_paren t hn⟩
  · obtain ⟨_, h1, h2, h3, _⟩ := emitted_not_number t ho
    refine ⟨Or.inr ?_, h1, h2⟩
    simpa [isOperatorToken] using h3

theorem shuntingYard_output_tokens_witness :
    (shuntingYard (goStr "(1+2)*3")).2 = none ∧
    goStr "+" ∈ (shuntingYard (goStr "(1+2)*3")).1 ∧
    ((NumberRun (goStr "+") ∨
        goStr "+" ∈ [goStr "+", goStr "-", goStr "*", goStr "/", goStr "^", goStr "√"]) ∧
      goStr "+" ≠ goStr "(" ∧ goStr "+" ≠ goStr ")") :=
  ⟨by decide, by decide,
    shuntingYard_output_tokens (goStr "(1+2)*3") (by decide) (goStr "+") (by decide)⟩

/-- Claim C17: run with explicit indices and with at least `2 * len(expr) + 2`
iterations allowed to each loop, `shuntingYard` ends without a panic and returns
the result of the recursive definition; `evalRPN` ends without a panic on every
token sequence; and `evaluateExpression` returns its pair of strings. -/
theorem pipeline_total (arch : Arch) (expr : GoString) (fuel : Nat)
    (h : 2 * expr.length + 2 ≤ fuel) :
    shuntingYardRun fuel expr = .done (shuntingYard expr) ∧
    (∀ rpn : List GoString, evalRPNRun arch rpn = .done (evalRPN arch rpn)) ∧
    evaluateExpressionRun arch fuel expr = .done (evaluateExpression arch expr) :=
  ⟨shuntingYardRun_eq expr fuel h, evalRPNRun_eq arch, evaluateExpressionRun_eq arch expr fuel h⟩

theorem pipeline_total_witness :
    2 * (goStr "(1+2)*3").length + 2 ≤ 16 ∧
    (shuntingYardRun 16 (goStr "(1+2)*3") = .done (shuntingYard (goStr "(1+2)*3")) ∧
      (∀ rpn : List GoString, evalRPNRun amd64 rpn = .done (evalRPN amd64 rpn)) ∧
      evaluateExpressionRun amd64 16 (goStr "(1+2)*3") =
        .done (evaluateExpression amd64 (goStr "(1+2)*3"))) :=
  ⟨by decide, pipeline_total amd64 (goStr "(1+2)*3") 16 (by decide)⟩

/-- Claim C18: when `shuntingYard` succeeds, the number tokens of its output, in
order, are the maximal runs of ASCII digits and decimal points of the input, from
left to right; a number token is any non-empty such run, whatever its shape, so
"1.2.3" is emitted as one token. The runs are what remains between the bytes that
are neither a digit nor a point. -/
theorem shuntingYard_number_tokens :
    (∀ e : GoString, (shuntingYard e).2 = none →
      (shuntingYard e).1.filter isNumberToken = numberRuns e) ∧
    (∀ t : GoString, isNumberToken t = true ↔ NumberRun t) ∧
    (∀ (run rest : GoString) (b : Byte), (∀ c ∈ run, isAsciiDigitOrDot c = true) →
      isAsciiDigitOrDot b = false →
      numberRuns run = pendingToken run ∧
      numberRuns (run ++ b :: rest) = pendingToken run ++ numberRuns rest) ∧
    shuntingYard (goStr "1.2.3") = ([goStr "1.2.3"], none) ∧
    numberRuns (goStr "12+3.4.5*(6)") = [goStr "12", goStr "3.4.5", goStr "6"] := by
  refine ⟨fun e h => (shuntingYard_tokens e h).2.1, numberToken_iff, ?_, by decide, by decide⟩
  intro run rest b hrun hb
  exact ⟨numberRuns_run run hrun, numberRuns_cut run hrun b hb rest⟩

theorem shuntingYard_number_tokens_witness :
    (shuntingYard (goStr "1.2.3+(45)")).2 = none ∧
    (shuntingYard (goStr "1.2.3+(45)")).1.filter isNumberToken =
      numberRuns (goStr "1.2.3+(45)") ∧
    (numberRuns (goStr "45") = pendingToken (goStr "45") ∧
      numberRuns (goStr "45" ++ 0x2B :: goStr "6") =
        pendingToken (goStr "45") ++ numberRuns (goStr "6")) :=
  ⟨by decide, shuntingYard_number_tokens.1 (goStr "1.2.3+(45)") (by decide),
    shuntingYard_number_tokens.2.2.1 (goStr "45") (goStr "6") 0x2B (by decide) (by decide)⟩

/-- Claim C19: `evaluateExpression e` equals `evaluateExpression` of `e` with every
space removed; two expressions that differ only in their spaces give the same pair
of strings; so inserting any number of spaces at any position changes nothing, and
"1 2+3" gives the result of "12+3". -/
theorem spaces_are_ignored (arch : Arch) :
    (∀ e : GoString, evaluateExpression arch e = evaluateExpression arch (removeByte 0x20 e)) ∧
    (∀ e e' : GoString, removeByte 0x20 e = removeByte 0x20 e' →
      evaluateExpression arch e = evaluateExpression arch e') ∧
    (∀ (u v : GoString) (n : Nat),
      evaluateExpression arch (u ++ List.replicate n 0x20 ++ v) =
        evaluateExpression arch (u ++ v)) ∧
    evaluateExpression arch (goStr "1 2+3") = evaluateExpression arch (goStr "12+3") ∧
    evaluateExpression arch (goStr "1 2+3") = (goStr "15.00", goStr "15.00") := by
  refine ⟨?_, evaluate_congr_spaces arch, ?_, ?_, ?_⟩
  · intro e
    exact evaluate_congr_spaces arch _ _ (removeByte_idem 0x20 e).symm
  · intro u v n
    exact evaluate_congr_spaces arch _ _ (removeByte_spaces u v n)
  · exact evaluate_congr_spaces arch _ _ (by decide)
  · rfl

theorem spaces_are_ignored_witness :
    removeByte 0x20 (goStr " 1+ 2") = removeByte 0x20 (goStr "1 +2 ") ∧
    evaluateExpression amd64 (goStr " 1+ 2") = evaluateExpression amd64 (goStr "1 +2 ") :=
  ⟨by decide, (spaces_are_ignored amd64).2.1 (goStr " 1+ 2") (goStr "1 +2 ") (by decide)⟩

/-- Claim C20: when `evaluateExpression` does not return the error marker, the
intermediate string equals the final string if the expression without its spaces
contains no "(", and otherwise the second run of `calculate` fails with
"непарные скобки" and the intermediate string is "0.00". -/
theorem intermediate_determined_by_paren (arch : Arch) (e : GoString)
    (h : (evaluateExpression arch e).1 ≠ goStr "Ошибка") :
    ((0x28 : Byte) ∉ removeByte 0x20 e →
      (evaluateExpression arch e).2 = (evaluateExpression arch e).1) ∧
    ((0x28 : Byte) ∈ removeByte 0x20 e →
      calculate arch (removeByte 0x28 (removeByte 0x20 e)) =
        (Float64.zero, some (goStr "непарные скобки")) ∧
      (evaluateExpression arch e).2 = goStr "0.00") :=
  evaluate_intermediate arch e h

theorem intermediate_determined_by_paren_witness :
    (evaluateExpression amd64 (goStr "2*(3+4)")).1 ≠ goStr "Ошибка" ∧
    (0x28 : Byte) ∈ removeByte 0x20 (goStr "2*(3+4)") ∧
    (calculate amd64 (removeByte 0x28 (removeByte 0x20 (goStr "2*(3+4)"))) =
        (Float64.zero, some (goStr "непарные скобки")) ∧
      (evaluateExpression amd64 (goStr "2*(3+4)")).2 = goStr "0.00") ∧
    (0x28 : Byte) ∉ removeByte 0x20 (goStr "2*3+4") ∧
    (evaluateExpression amd64 (goStr "2*3+4")).2 = (evaluateExpression amd64 (goStr "2*3+4")).1 :=
  ⟨by decide, by decide,
    (intermediate_determined_by_paren amd64 (goStr "2*(3+4)") (by decide)).2 (by decide),
    by decide,
    (intermediate_determined_by_paren amd64 (goStr "2*3+4") (by decide)).1 (by decide)⟩

end TuiCalc
